import Mathlib

/-!
WildMIDI reverb engine (`src/reverb.c`)

A shallow embedding of `reset_reverb`, `init_reverb` and `do_reverb`.

Conventions of the embedding.

* The band expression of the filter loop is computed in `signed long int` of 64 bits:
  each product, sum and difference is reduced to the range `-2^63 .. 2^63 - 1`
  (`long_wrap`), as the program does on the usual 64-bit targets.  Overflow is reached
  there from the program's own data: for a band at or above half the sampling rate the
  filter design leaves the coefficient `-2^63`.
* All other `int` and `signed long int` values (cursors, ring sizes, the additions into
  delay cells and samples, the divisions by 32) are mathematical integers (`Int`).
  Signed overflow is undefined in C, and for these operations the embedding describes
  the executions in which no value leaves the range of its type.  A band output is at
  most `2^53` in magnitude (`band_out_bound`), so the six additions to a sample of
  magnitude at most `2^62` stay in range (`partial_sum_fit`).
* C division and remainder truncate toward zero: `Int.tdiv`, `Int.tmod`.
  A remainder by zero is undefined in C and makes the embedded operation return
  `none`.
* The two delay lines are heap blocks (`List Int`).  Reading or writing outside the
  block is undefined in C and makes the embedded operation return `none`.
* The arrays inside `struct _rvb` have constant extents and are only indexed by loop
  counters with constant bounds; they are functions on `Fin n`.
-/

namespace Reverb

/-! ## Data model -/

/-- The record `struct _rvb`.  Its declaration lives in `reverb.h`; the fields and their
extents are the ones `reverb.c` uses. -/
structure Rvb where
  /-- left delay line (heap block) -/
  l_buf : List Int
  /-- ring size of the left delay line -/
  l_buf_size : Int
  /-- drain cursor of the left delay line -/
  l_out : Int
  /-- right delay line (heap block) -/
  r_buf : List Int
  /-- ring size of the right delay line -/
  r_buf_size : Int
  /-- drain cursor of the right delay line -/
  r_out : Int
  /-- left-speaker injection cursors: 0..3 index `l_buf`, 4..7 index `r_buf` -/
  l_sp_in : Fin 8 → Int
  /-- right-speaker injection cursors: 0..3 index `l_buf`, 4..7 index `r_buf` -/
  r_sp_in : Fin 8 → Int
  /-- re-injection cursors into `l_buf` -/
  l_in : Fin 4 → Int
  /-- re-injection cursors into `r_buf` -/
  r_in : Fin 4 → Int
  /-- wet gain divisor -/
  gain : Int
  /-- filter coefficients, six bands of five -/
  coeff : Fin 6 → Fin 5 → Int
  /-- left input history -/
  l_buf_flt_in : Fin 6 → Fin 2 → Int
  /-- left output history -/
  l_buf_flt_out : Fin 6 → Fin 2 → Int
  /-- right input history -/
  r_buf_flt_in : Fin 6 → Fin 2 → Int
  /-- right output history -/
  r_buf_flt_out : Fin 6 → Fin 2 → Int

/-! ## Memory and arithmetic primitives -/

/-- Read `buf[i]`. -/
def load (buf : List Int) (i : Int) : Option Int :=
  if 0 ≤ i then buf[i.toNat]? else none

/-- Write `buf[i] = v`. -/
def store (buf : List Int) (i v : Int) : Option (List Int) :=
  if 0 ≤ i ∧ i.toNat < buf.length then some (buf.set i.toNat v) else none

/-- The statement `buf[i] += v`. -/
def add_at (buf : List Int) (i v : Int) : Option (List Int) :=
  (load buf i).bind fun x => store buf i (x + v)

/-- C remainder `a % b`. -/
def c_mod (a b : Int) : Option Int :=
  if b = 0 then none else some (Int.tmod a b)

/-- The assignment `a[i][j] = v` on a two-dimensional array of the record. -/
def set2 {m n : Nat} (a : Fin m → Fin n → Int) (i : Fin m) (j : Fin n) (v : Int) :
    Fin m → Fin n → Int :=
  Function.update a i (Function.update (a i) j v)

/-! ## `reset_reverb` -/

/-- The loop `for (i = i0; i < n; i++) buf[i] = 0;` with the iteration budget `fuel`. -/
def zero_cells : Nat → Int → Int → List Int → Option (List Int)
  | 0, i, n, buf => if i < n then none else some buf
  | fuel + 1, i, n, buf =>
    if i < n then (store buf i 0).bind (zero_cells fuel (i + 1) n) else some buf

/-- The body of the inner history loop of `reset_reverb` for indices `i`, `j`. -/
def reset_flt_cell (rvb : Rvb) (i : Fin 6) (j : Fin 2) : Rvb :=
  { rvb with
    l_buf_flt_in := set2 rvb.l_buf_flt_in i j 0
    l_buf_flt_out := set2 rvb.l_buf_flt_out i j 0
    r_buf_flt_in := set2 rvb.r_buf_flt_in i j 0
    r_buf_flt_out := set2 rvb.r_buf_flt_out i j 0 }

/-- The nested history loops of `reset_reverb`. -/
def reset_flt (rvb : Rvb) : Rvb :=
  ([0, 1, 2, 3, 4, 5] : List (Fin 6)).foldl
    (fun st i => ([0, 1] : List (Fin 2)).foldl (fun st j => reset_flt_cell st i j) st) rvb

/-- The function `reset_reverb`. -/
def reset_reverb (rvb : Rvb) : Option Rvb :=
  (zero_cells rvb.l_buf_size.toNat 0 rvb.l_buf_size rvb.l_buf).bind fun l =>
  (zero_cells rvb.r_buf_size.toNat 0 rvb.r_buf_size rvb.r_buf).bind fun r =>
  some (reset_flt { rvb with l_buf := l, r_buf := r })

/-! ## `do_reverb` -/

/-- The two statements `buf[cur] += v; cur = (cur + 1) % size;`. -/
def bump (buf : List Int) (size cur v : Int) : Option (List Int × Int) :=
  (add_at buf cur v).bind fun b =>
  (c_mod (cur + 1) size).bind fun c => some (b, c)

/-- The index `j` of an eight-entry cursor array, for a loop counter `j < 4`. -/
def lo4 (j : Fin 4) : Fin 8 := ⟨j.val, by omega⟩

/-- The index `j + 4` of an eight-entry cursor array, for a loop counter `j < 4`. -/
def hi4 (j : Fin 4) : Fin 8 := ⟨j.val + 4, by omega⟩

/-- One iteration `j` of the speaker injection loop. -/
def inject_step (tmp_l_val tmp_r_val : Int) (rvb : Rvb) (j : Fin 4) : Option Rvb :=
  let j0 : Fin 8 := lo4 j
  let j4 : Fin 8 := hi4 j
  (bump rvb.l_buf rvb.l_buf_size (rvb.l_sp_in j0) tmp_l_val).bind fun p1 =>
  (bump p1.1 rvb.l_buf_size (rvb.r_sp_in j0) tmp_r_val).bind fun p2 =>
  (bump rvb.r_buf rvb.r_buf_size (rvb.l_sp_in j4) tmp_l_val).bind fun p3 =>
  (bump p3.1 rvb.r_buf_size (rvb.r_sp_in j4) tmp_r_val).bind fun p4 =>
  some { rvb with
    l_buf := p2.1
    r_buf := p4.1
    l_sp_in := Function.update (Function.update rvb.l_sp_in j0 p1.2) j4 p3.2
    r_sp_in := Function.update (Function.update rvb.r_sp_in j0 p2.2) j4 p4.2 }

/-- The speaker injection loop `for (j = 0; j < 4; j++)`. -/
def inject (tmp_l_val tmp_r_val : Int) (rvb : Rvb) : Option Rvb :=
  ([0, 1, 2, 3] : List (Fin 4)).foldlM (inject_step tmp_l_val tmp_r_val) rvb

/-- The three statements `x = buf[cur]; buf[cur] = 0; cur = (cur + 1) % size;`. -/
def drain (buf : List Int) (size cur : Int) : Option (Int × List Int × Int) :=
  (load buf cur).bind fun x =>
  (store buf cur 0).bind fun b =>
  (c_mod (cur + 1) size).bind fun c => some (x, b, c)

/-- Draining both delay lines: returns `l_rfl`, `r_rfl` and the record. -/
def drain_both (rvb : Rvb) : Option (Int × Int × Rvb) :=
  (drain rvb.l_buf rvb.l_buf_size rvb.l_out).bind fun dl =>
  (drain rvb.r_buf rvb.r_buf_size rvb.r_out).bind fun dr =>
  some (dl.1, dr.1,
    { rvb with l_buf := dl.2.1, l_out := dl.2.2, r_buf := dr.2.1, r_out := dr.2.2 })

/-- The value a `signed long int` of 64 bits holds after an arithmetic result `x` has been
reduced to the range `-2^63 .. 2^63 - 1` (two's complement). -/
def long_wrap (x : Int) : Int :=
  (x + 9223372036854775808) % 18446744073709551616 - 9223372036854775808

/-- The product `a * b` of two `signed long int` values. -/
def long_mul (a b : Int) : Int := long_wrap (a * b)

/-- The sum `a + b` of two `signed long int` values. -/
def long_add (a b : Int) : Int := long_wrap (a + b)

/-- The difference `a - b` of two `signed long int` values. -/
def long_sub (a b : Int) : Int := long_wrap (a - b)

/-- The band expression
`(x*c[0] + in[0]*c[1] + in[1]*c[2] - out[0]*c[3] - out[1]*c[4]) / 1024`, every product,
sum and difference taken in `signed long int`. -/
def band_out (x : Int) (c : Fin 5 → Int) (hin hout : Fin 2 → Int) : Int :=
  Int.tdiv (long_sub (long_sub (long_add (long_add (long_mul x (c 0)) (long_mul (hin 0) (c 1)))
    (long_mul (hin 1) (c 2))) (long_mul (hout 0) (c 3))) (long_mul (hout 1) (c 4))) 1024

/-- One iteration `j` of the filter loop, for the pair at `buffer[i]`, `buffer[i+1]`. -/
def filter_step (l_rfl r_rfl i : Int) (st : Rvb × List Int) (j : Fin 6) :
    Option (Rvb × List Int) :=
  let rvb := st.1
  let l_buf_flt := band_out l_rfl (rvb.coeff j) (rvb.l_buf_flt_in j) (rvb.l_buf_flt_out j)
  let lin := set2 (set2 rvb.l_buf_flt_in j 1 (rvb.l_buf_flt_in j 0)) j 0 l_rfl
  let lout := set2 (set2 rvb.l_buf_flt_out j 1 (rvb.l_buf_flt_out j 0)) j 0 l_buf_flt
  (add_at st.2 i l_buf_flt).bind fun b1 =>
  let r_buf_flt := band_out r_rfl (rvb.coeff j) (rvb.r_buf_flt_in j) (rvb.r_buf_flt_out j)
  let rin := set2 (set2 rvb.r_buf_flt_in j 1 (rvb.r_buf_flt_in j 0)) j 0 r_rfl
  let rout := set2 (set2 rvb.r_buf_flt_out j 1 (rvb.r_buf_flt_out j 0)) j 0 r_buf_flt
  (add_at b1 (i + 1) r_buf_flt).bind fun b2 =>
  some ({ rvb with
    l_buf_flt_in := lin, l_buf_flt_out := lout, r_buf_flt_in := rin, r_buf_flt_out := rout },
    b2)

/-- The filter loop `for (j = 0; j < 6; j++)`. -/
def filter (l_rfl r_rfl i : Int) (rvb : Rvb) (buffer : List Int) : Option (Rvb × List Int) :=
  ([0, 1, 2, 3, 4, 5] : List (Fin 6)).foldlM (filter_step l_rfl r_rfl i) (rvb, buffer)

/-- One iteration `j` of the re-injection loop. -/
def reinject_step (tmp_l_val tmp_r_val : Int) (rvb : Rvb) (j : Fin 4) : Option Rvb :=
  (bump rvb.l_buf rvb.l_buf_size (rvb.l_in j) tmp_l_val).bind fun p1 =>
  (bump rvb.r_buf rvb.r_buf_size (rvb.r_in j) tmp_r_val).bind fun p2 =>
  some { rvb with
    l_buf := p1.1, l_in := Function.update rvb.l_in j p1.2
    r_buf := p2.1, r_in := Function.update rvb.r_in j p2.2 }

/-- The re-injection loop `for (j = 0; j < 4; j++)`. -/
def reinject (tmp_l_val tmp_r_val : Int) (rvb : Rvb) : Option Rvb :=
  ([0, 1, 2, 3] : List (Fin 4)).foldlM (reinject_step tmp_l_val tmp_r_val) rvb

/-- The first half of the body of the sample loop: scaling of the dry pair, speaker
injection and draining.  Returns `l_rfl`, `r_rfl` and the record. -/
def pair_drain (rvb : Rvb) (buffer : List Int) (i : Int) : Option (Int × Int × Rvb) :=
  (load buffer i).bind fun bl =>
  (load buffer (i + 1)).bind fun br =>
  (inject (Int.tdiv bl 32) (Int.tdiv br 32) rvb).bind drain_both

/-- The body of the sample loop of `do_reverb` for the pair at `buffer[i]`,
`buffer[i+1]`. -/
def do_reverb_pair (rvb : Rvb) (buffer : List Int) (i : Int) : Option (Rvb × List Int) :=
  (pair_drain rvb buffer i).bind fun d =>
  (filter d.1 d.2.1 i d.2.2 buffer).bind fun f =>
  (load f.2 (i + 1)).bind fun wr =>
  (load f.2 i).bind fun wl =>
  (reinject (Int.tdiv wr 32) (Int.tdiv wl 32) f.1).bind fun rvb2 =>
  some (rvb2, f.2)

/-- The loop `for (i = i0; i < size; i += 2)` with the iteration budget `fuel`. -/
def do_reverb_loop : Nat → Int → Int → Rvb → List Int → Option (Rvb × List Int)
  | 0, i, size, rvb, buffer => if i < size then none else some (rvb, buffer)
  | fuel + 1, i, size, rvb, buffer =>
    if i < size then
      (do_reverb_pair rvb buffer i).bind fun st => do_reverb_loop fuel (i + 2) size st.1 st.2
    else some (rvb, buffer)

/-- The function `do_reverb`.  The budget `size` is never exhausted: the loop runs
at most `(size + 1) / 2` times. -/
def do_reverb (rvb : Rvb) (buffer : List Int) (size : Int) : Option (Rvb × List Int) :=
  do_reverb_loop size.toNat 0 size rvb buffer

/-! ## Closed forms of the loop bodies

Each loop body is characterised as: it is defined exactly when a side condition
(`*_ok`) holds, and then its result is the value of a total function (`*_val`). -/

/-- The content of cell `n` of a block (zero outside the block). -/
def cell (buf : List Int) (n : Nat) : Int := buf[n]?.getD 0

/-- The cursor update `(c + 1) % size`. -/
def adv (size c : Int) : Int := Int.tmod (c + 1) size

/-- The ring size that governs entry `k` of a speaker cursor array. -/
def sp_size (s : Rvb) (k : Fin 8) : Int := if k.val < 4 then s.l_buf_size else s.r_buf_size

/-- The block that entry `k` of a speaker cursor array indexes. -/
def sp_buf (s : Rvb) (k : Fin 8) : List Int := if k.val < 4 then s.l_buf else s.r_buf

/-- The amount a write of `v` at cursor `c` adds to cell `n`. -/
def hit (c : Int) (n : Nat) (v : Int) : Int := if c.toNat = n then v else 0

/-- The block after `buf[cur] += v`, for a cursor inside the block. -/
def put (buf : List Int) (cur v : Int) : List Int :=
  buf.set cur.toNat (cell buf cur.toNat + v)

/-- The record after one iteration of the speaker injection loop, when it is defined. -/
def inject_step_val (tl tr : Int) (s : Rvb) (j : Fin 4) : Rvb :=
  { s with
    l_buf := put (put s.l_buf (s.l_sp_in (lo4 j)) tl) (s.r_sp_in (lo4 j)) tr
    r_buf := put (put s.r_buf (s.l_sp_in (hi4 j)) tl) (s.r_sp_in (hi4 j)) tr
    l_sp_in := Function.update (Function.update s.l_sp_in (lo4 j)
        (adv s.l_buf_size (s.l_sp_in (lo4 j)))) (hi4 j) (adv s.r_buf_size (s.l_sp_in (hi4 j)))
    r_sp_in := Function.update (Function.update s.r_sp_in (lo4 j)
        (adv s.l_buf_size (s.r_sp_in (lo4 j)))) (hi4 j) (adv s.r_buf_size (s.r_sp_in (hi4 j))) }

/-- What one iteration of the speaker injection loop requires of the record. -/
def inject_step_ok (s : Rvb) (j : Fin 4) : Prop :=
  s.l_buf_size ≠ 0 ∧ s.r_buf_size ≠ 0 ∧
  (0 ≤ s.l_sp_in (lo4 j) ∧ (s.l_sp_in (lo4 j)).toNat < s.l_buf.length) ∧
  (0 ≤ s.r_sp_in (lo4 j) ∧ (s.r_sp_in (lo4 j)).toNat < s.l_buf.length) ∧
  (0 ≤ s.l_sp_in (hi4 j) ∧ (s.l_sp_in (hi4 j)).toNat < s.r_buf.length) ∧
  (0 ≤ s.r_sp_in (hi4 j) ∧ (s.r_sp_in (hi4 j)).toNat < s.r_buf.length)

/-- The record after the speaker injection loop, when it is defined. -/
def inject_val (tl tr : Int) (s : Rvb) : Rvb :=
  ([0, 1, 2, 3] : List (Fin 4)).foldl (inject_step_val tl tr) s

/-- What the speaker injection loop requires of the record. -/
def inject_ok (s : Rvb) : Prop :=
  s.l_buf_size ≠ 0 ∧ s.r_buf_size ≠ 0 ∧
  (∀ k, 0 ≤ s.l_sp_in k ∧ (s.l_sp_in k).toNat < (sp_buf s k).length) ∧
  (∀ k, 0 ≤ s.r_sp_in k ∧ (s.r_sp_in k).toNat < (sp_buf s k).length)

/-- What draining both delay lines requires of the record. -/
def drain_ok (s : Rvb) : Prop :=
  s.l_buf_size ≠ 0 ∧ s.r_buf_size ≠ 0 ∧
  (0 ≤ s.l_out ∧ s.l_out.toNat < s.l_buf.length) ∧
  (0 ≤ s.r_out ∧ s.r_out.toNat < s.r_buf.length)

/-- The record after draining both delay lines, when it is defined. -/
def drain_val (s : Rvb) : Rvb :=
  { s with
    l_buf := s.l_buf.set s.l_out.toNat 0, l_out := adv s.l_buf_size s.l_out
    r_buf := s.r_buf.set s.r_out.toNat 0, r_out := adv s.r_buf_size s.r_out }

/-- The record after one iteration of the re-injection loop, when it is defined. -/
def reinject_step_val (tl tr : Int) (s : Rvb) (j : Fin 4) : Rvb :=
  { s with
    l_buf := put s.l_buf (s.l_in j) tl
    l_in := Function.update s.l_in j (adv s.l_buf_size (s.l_in j))
    r_buf := put s.r_buf (s.r_in j) tr
    r_in := Function.update s.r_in j (adv s.r_buf_size (s.r_in j)) }

/-- What one iteration of the re-injection loop requires of the record. -/
def reinject_step_ok (s : Rvb) (j : Fin 4) : Prop :=
  s.l_buf_size ≠ 0 ∧ s.r_buf_size ≠ 0 ∧
  (0 ≤ s.l_in j ∧ (s.l_in j).toNat < s.l_buf.length) ∧
  (0 ≤ s.r_in j ∧ (s.r_in j).toNat < s.r_buf.length)

/-- The record after the re-injection loop, when it is defined. -/
def reinject_val (tl tr : Int) (s : Rvb) : Rvb :=
  ([0, 1, 2, 3] : List (Fin 4)).foldl (reinject_step_val tl tr) s

/-- What the re-injection loop requires of the record. -/
def reinject_ok (s : Rvb) : Prop :=
  s.l_buf_size ≠ 0 ∧ s.r_buf_size ≠ 0 ∧
  (∀ j, 0 ≤ s.l_in j ∧ (s.l_in j).toNat < s.l_buf.length) ∧
  (∀ j, 0 ≤ s.r_in j ∧ (s.r_in j).toNat < s.r_buf.length)

/-- The history of a band after a step that stores `x`: position 0 holds `x`, position 1
the former position 0. -/
def shift (h : Fin 2 → Int) (x : Int) : Fin 2 → Int := fun m => if m = 0 then x else h 0

/-- The left output of band `j` for the drained value `x`. -/
def band_l (s : Rvb) (x : Int) (j : Fin 6) : Int :=
  band_out x (s.coeff j) (s.l_buf_flt_in j) (s.l_buf_flt_out j)

/-- The right output of band `j` for the drained value `x`. -/
def band_r (s : Rvb) (x : Int) (j : Fin 6) : Int :=
  band_out x (s.coeff j) (s.r_buf_flt_in j) (s.r_buf_flt_out j)

/-- The record and sample block after one iteration of the filter loop, when defined. -/
def filter_step_val (l_rfl r_rfl i : Int) (st : Rvb × List Int) (j : Fin 6) : Rvb × List Int :=
  ({ st.1 with
      l_buf_flt_in := set2 (set2 st.1.l_buf_flt_in j 1 (st.1.l_buf_flt_in j 0)) j 0 l_rfl
      l_buf_flt_out :=
        set2 (set2 st.1.l_buf_flt_out j 1 (st.1.l_buf_flt_out j 0)) j 0 (band_l st.1 l_rfl j)
      r_buf_flt_in := set2 (set2 st.1.r_buf_flt_in j 1 (st.1.r_buf_flt_in j 0)) j 0 r_rfl
      r_buf_flt_out :=
        set2 (set2 st.1.r_buf_flt_out j 1 (st.1.r_buf_flt_out j 0)) j 0 (band_r st.1 r_rfl j) },
    put (put st.2 i (band_l st.1 l_rfl j)) (i + 1) (band_r st.1 r_rfl j))

/-- What the filter loop requires of the sample block: `buffer[i]` and `buffer[i+1]`
exist. -/
def pair_in (buffer : List Int) (i : Int) : Prop :=
  0 ≤ i ∧ (i + 1).toNat < buffer.length

/-- The record and sample block after the filter loop, when it is defined. -/
def filter_val (l_rfl r_rfl i : Int) (s : Rvb) (buffer : List Int) : Rvb × List Int :=
  ([0, 1, 2, 3, 4, 5] : List (Fin 6)).foldl (filter_step_val l_rfl r_rfl i) (s, buffer)

/-- What the body of the sample loop requires: the pair exists in the sample block and
every cursor indexes a cell of its delay line, with non-zero ring sizes. -/
def pair_ok (s : Rvb) (buffer : List Int) (i : Int) : Prop :=
  pair_in buffer i ∧ inject_ok s ∧ drain_ok s ∧ reinject_ok s

/-- The value left in `l_rfl` by the body of the sample loop, when it is defined. -/
def l_rfl_val (s : Rvb) (buffer : List Int) (i : Int) : Int :=
  cell (inject_val (Int.tdiv (cell buffer i.toNat) 32)
    (Int.tdiv (cell buffer (i + 1).toNat) 32) s).l_buf s.l_out.toNat

/-- The value left in `r_rfl` by the body of the sample loop, when it is defined. -/
def r_rfl_val (s : Rvb) (buffer : List Int) (i : Int) : Int :=
  cell (inject_val (Int.tdiv (cell buffer i.toNat) 32)
    (Int.tdiv (cell buffer (i + 1).toNat) 32) s).r_buf s.r_out.toNat

/-- The record after injection and draining, when it is defined. -/
def drained_val (s : Rvb) (buffer : List Int) (i : Int) : Rvb :=
  drain_val (inject_val (Int.tdiv (cell buffer i.toNat) 32)
    (Int.tdiv (cell buffer (i + 1).toNat) 32) s)

/-- The record and sample block after the filter loop of one pair, when defined. -/
def filtered_val (s : Rvb) (buffer : List Int) (i : Int) : Rvb × List Int :=
  filter_val (l_rfl_val s buffer i) (r_rfl_val s buffer i) i (drained_val s buffer i) buffer

/-- The record and sample block after the body of the sample loop, when defined. -/
def pair_val (s : Rvb) (buffer : List Int) (i : Int) : Rvb × List Int :=
  (reinject_val (Int.tdiv (cell (filtered_val s buffer i).2 (i + 1).toNat) 32)
      (Int.tdiv (cell (filtered_val s buffer i).2 i.toNat) 32) (filtered_val s buffer i).1,
    (filtered_val s buffer i).2)

/-- Memory safety of `do_reverb` on a record: non-zero ring sizes that do not exceed the
blocks, and every cursor inside its block. -/
def Safe (s : Rvb) : Prop :=
  (s.l_buf_size ≠ 0 ∧ s.l_buf_size.natAbs ≤ s.l_buf.length) ∧
  (s.r_buf_size ≠ 0 ∧ s.r_buf_size.natAbs ≤ s.r_buf.length) ∧
  (0 ≤ s.l_out ∧ s.l_out.toNat < s.l_buf.length) ∧
  (0 ≤ s.r_out ∧ s.r_out.toNat < s.r_buf.length) ∧
  (∀ k, 0 ≤ s.l_sp_in k ∧ (s.l_sp_in k).toNat < (sp_buf s k).length) ∧
  (∀ k, 0 ≤ s.r_sp_in k ∧ (s.r_sp_in k).toNat < (sp_buf s k).length) ∧
  (∀ j, 0 ≤ s.l_in j ∧ (s.l_in j).toNat < s.l_buf.length) ∧
  (∀ j, 0 ≤ s.r_in j ∧ (s.r_in j).toNat < s.r_buf.length)

/-- Every cursor lies in `[0, size)` of the ring it indexes, both rings being non-empty. -/
def Wrapped (s : Rvb) : Prop :=
  1 ≤ s.l_buf_size ∧ 1 ≤ s.r_buf_size ∧
  (0 ≤ s.l_out ∧ s.l_out < s.l_buf_size) ∧
  (0 ≤ s.r_out ∧ s.r_out < s.r_buf_size) ∧
  (∀ k, 0 ≤ s.l_sp_in k ∧ s.l_sp_in k < sp_size s k) ∧
  (∀ k, 0 ≤ s.r_sp_in k ∧ s.r_sp_in k < sp_size s k) ∧
  (∀ j, 0 ≤ s.l_in j ∧ s.l_in j < s.l_buf_size) ∧
  (∀ j, 0 ≤ s.r_in j ∧ s.r_in j < s.r_buf_size)

instance (s : Rvb) : Decidable (Safe s) := by
  unfold Safe
  infer_instance

instance (s : Rvb) : Decidable (Wrapped s) := by
  unfold Wrapped
  infer_instance

instance (buffer : List Int) (i : Int) : Decidable (pair_in buffer i) := by
  unfold pair_in
  infer_instance

/-- The sum of the six left band outputs for the drained value `x`. -/
def wet_l (s : Rvb) (x : Int) : Int := ∑ j : Fin 6, band_l s x j

/-- The sum of the six right band outputs for the drained value `x`. -/
def wet_r (s : Rvb) (x : Int) : Int := ∑ j : Fin 6, band_r s x j

/-- What the speaker injection of a pair adds to cell `n` of the left delay line. -/
def sp_hits_l (s : Rvb) (tl tr : Int) (n : Nat) : Int :=
  ∑ j : Fin 4, (hit (s.l_sp_in (lo4 j)) n tl + hit (s.r_sp_in (lo4 j)) n tr)

/-- What the speaker injection of a pair adds to cell `n` of the right delay line. -/
def sp_hits_r (s : Rvb) (tl tr : Int) (n : Nat) : Int :=
  ∑ j : Fin 4, (hit (s.l_sp_in (hi4 j)) n tl + hit (s.r_sp_in (hi4 j)) n tr)

/-- The block after `k` iterations of the zeroing loop that start at index `i`. -/
def zeroed : Nat → Nat → List Int → List Int
  | 0, _, buf => buf
  | k + 1, i, buf => zeroed k (i + 1) (buf.set i 0)

/-- The record after `reset_reverb`, when it is defined. -/
def reset_val (s : Rvb) : Rvb :=
  { s with
    l_buf := zeroed s.l_buf_size.toNat 0 s.l_buf
    r_buf := zeroed s.r_buf_size.toNat 0 s.r_buf
    l_buf_flt_in := fun _ _ => 0
    l_buf_flt_out := fun _ _ => 0
    r_buf_flt_in := fun _ _ => 0
    r_buf_flt_out := fun _ _ => 0 }

/-- A sequence of calls `do_reverb(rvb, buffer, size)` on the same record, one per entry
`(buffer, size)`; returns the final record and the processed sample blocks. -/
def do_reverb_seq : Rvb → List (List Int × Int) → Option (Rvb × List (List Int))
  | rvb, [] => some (rvb, [])
  | rvb, c :: cs =>
    (do_reverb rvb c.1 c.2).bind fun r =>
    (do_reverb_seq r.1 cs).bind fun q => some (q.1, r.2 :: q.2)

/-- A sequence of calls of `do_reverb` on whole sample blocks (`size` is the block length). -/
def do_reverb_blocks (rvb : Rvb) (blocks : List (List Int)) : Option (Rvb × List (List Int)) :=
  do_reverb_seq rvb (blocks.map fun b => (b, (b.length : Int)))

/-- All four filter histories are zero. -/
def hist_zero (s : Rvb) : Prop :=
  (∀ j m, s.l_buf_flt_in j m = 0) ∧ (∀ j m, s.l_buf_flt_out j m = 0) ∧
  (∀ j m, s.r_buf_flt_in j m = 0) ∧ (∀ j m, s.r_buf_flt_out j m = 0)

instance (s : Rvb) : Decidable (hist_zero s) := by
  unfold hist_zero
  infer_instance

/-! ## Binary floating point and `init_reverb`
`init_reverb` computes its delay lengths in `double` and `float`.  Addition,
subtraction, multiplication, division, square root and the conversions are correctly
rounded operations of IEC 60559 (round to nearest, ties to even; `FLT_EVAL_METHOD` 0), so
they are functions of their arguments and are embedded exactly.  A finite `double` or
`float` is represented by the integer `v` with value `v * 2^-1074`: every finite value of
either format is such a multiple.  Infinities and NaN are not represented; the delay
computation of `init_reverb` does not produce them for any `int` rate. -/

/-- The number of binary digits of `n`, computed with the budget `fuel`: digits are
counted one at a time below `2^32` and 32 at a time above. -/
def bit_length_aux : Nat → Nat → Nat
  | 0, _ => 0
  | fuel + 1, n =>
    if n = 0 then 0
    else if n < 2 ^ 32 then bit_length_aux fuel (n / 2) + 1
    else bit_length_aux fuel (n / 2 ^ 32) + 32

/-- The number of binary digits of `n` (0 for 0). -/
def bit_length (n : Nat) : Nat := bit_length_aux n n

/-- The integer nearest to `n / d`, ties to the even one. -/
def rne (n d : Nat) : Nat :=
  if 2 * (n % d) < d then n / d
  else if d < 2 * (n % d) then n / d + 1
  else n / d + (n / d) % 2

/-- The exponent of the quantum of the format around `n / d`. -/
def quantum (p emin n d : Nat) : Nat := max emin (bit_length (n / d) - p)

/-- Rounding of the non-negative quantity `n / d` (in units of `2^-1074`) to the binary
format with `p` significand digits whose smallest positive value is `2^emin` units. -/
def round_fmt (p emin n d : Nat) : Nat :=
  rne n (d * 2 ^ quantum p emin n d) * 2 ^ quantum p emin n d

/-- Rounding of the signed quantity `n / d` (rounding to nearest is symmetric). -/
def round_signed (p emin : Nat) (n : Int) (d : Nat) : Int :=
  if n < 0 then -((round_fmt p emin n.natAbs d : Nat) : Int)
  else ((round_fmt p emin n.natAbs d : Nat) : Int)

/-- The number of units in 1.0. -/
def one_units : Nat := 2 ^ 1074

/-- Rounding to `double`: 53 digits, smallest positive value one unit. -/
def to_double (n : Int) (d : Nat) : Int := round_signed 53 0 n d

/-- Rounding to `float`: 24 digits, smallest positive value `2^-149`. -/
def to_float (n : Int) (d : Nat) : Int := round_signed 24 925 n d

/-- The `double` denoted by the decimal constant `n / d`. -/
def lit (n : Int) (d : Nat) : Int := to_double (n * one_units) d

/-- The sum `a + b` in `double`. -/
def d_add (a b : Int) : Int := to_double (a + b) 1

/-- The difference `a - b` in `double`. -/
def d_sub (a b : Int) : Int := to_double (a - b) 1

/-- The product `a * b` in `double`. -/
def d_mul (a b : Int) : Int := to_double (a * b) one_units

/-- The quotient `a / b` in `double`, for a positive divisor. -/
def d_div (a b : Int) : Int := to_double (a * one_units) b.toNat

/-- Newton iteration for the integer square root of `n` from the upper estimate `x`,
with the budget `fuel`: the estimate decreases until it stops at the floor of the root. -/
def isqrt_aux : Nat → Nat → Nat → Nat
  | 0, _, x => x
  | fuel + 1, n, x => if (x + n / x) / 2 < x then isqrt_aux fuel n ((x + n / x) / 2) else x

/-- The floor of the square root of `n`. -/
def isqrt (n : Nat) : Nat :=
  if n = 0 then 0 else isqrt_aux (bit_length n) n (2 ^ ((bit_length n + 1) / 2))

/-- The call `sqrtf(x)` for a non-negative `double` argument `x`: the argument is
converted to `float` and the correctly rounded `float` square root is returned.  The root
of `v` units is `sqrt (v * 2^1074)` units; it is rounded from its floor and the
inexact flag. -/
def c_sqrtf (x : Int) : Int :=
  let v := (to_float x 1).toNat * one_units
  let r := isqrt v
  to_float (2 * r + (if r * r = v then 0 else 1) : Nat) 2

/-- The conversion `(float)rate` of an `int`. -/
def float_of_int (rate : Int) : Int := to_float (rate * one_units) 1

/-- The conversion `(int)x` of a `double`: truncation toward zero. -/
def int_of_double (x : Int) : Int := Int.tdiv x one_units

/-- A point of the room, `struct _coord`. -/
structure Coord where
  /-- abscissa -/
  x : Int
  /-- ordinate -/
  y : Int

/-- Left speaker position. -/
def SPL : Coord := ⟨lit 25 10, lit 50 10⟩

/-- Right speaker position. -/
def SPR : Coord := ⟨lit 75 10, lit 50 10⟩

/-- Listener position. -/
def LSN : Coord := ⟨lit 50 10, lit 15 1⟩

/-- Positions of the reflective points. -/
def RFN : Fin 8 → Coord :=
  ![⟨lit 100 10, lit 0 10⟩, ⟨lit 0 10, lit 133333 10000⟩, ⟨lit 0 10, lit 266666 10000⟩,
    ⟨lit 100 10, lit 400 10⟩, ⟨lit 200 10, lit 400 10⟩, ⟨lit 300 10, lit 133333 10000⟩,
    ⟨lit 300 10, lit 266666 10000⟩, ⟨lit 200 10, lit 0 10⟩]

/-- The expression `sqrtf((xo * xo) + (yo * yo))`. -/
def hypot_f (xo yo : Int) : Int := c_sqrtf (d_add (d_mul xo xo) (d_mul yo yo))

/-- The variable `SPL_LSN_DST`. -/
def SPL_LSN_DST : Int := hypot_f (d_sub SPL.x LSN.x) (d_sub SPL.y LSN.y)

/-- The variable `SPR_LSN_DST`. -/
def SPR_LSN_DST : Int := hypot_f (d_sub SPR.x LSN.x) (d_sub SPR.y LSN.y)

/-- The distance variables of `init_reverb`. -/
structure Geom where
  /-- excess path lengths from the left speaker -/
  SPL_DST : Fin 8 → Int
  /-- excess path lengths from the right speaker -/
  SPR_DST : Fin 8 → Int
  /-- reflection path lengths -/
  RFN_DST : Fin 8 → Int
  /-- longest path into the left delay line -/
  MAXL_DST : Int
  /-- longest path into the right delay line -/
  MAXR_DST : Int

/-- The statement `if (i < 4) { if (d > MAXL_DST) MAXL_DST = d; } else
{ if (d > MAXR_DST) MAXR_DST = d; }`. -/
def track_max (g : Geom) (i : Fin 8) (d : Int) : Geom :=
  if i.val < 4 then (if d > g.MAXL_DST then { g with MAXL_DST := d } else g)
  else (if d > g.MAXR_DST then { g with MAXR_DST := d } else g)

/-- The body of the distance loop of `init_reverb` for the reflective point `i`. -/
def geom_step (g : Geom) (i : Fin 8) : Geom :=
  let rfn := hypot_f (d_sub LSN.x (RFN i).x) (d_sub LSN.y (RFN i).y)
  let spl := hypot_f (d_sub SPL.x (RFN i).x) (d_sub SPL.y (RFN i).y)
  let spr := hypot_f (d_sub SPR.x (RFN i).x) (d_sub SPR.y (RFN i).y)
  let spl := d_sub (d_add spl rfn) SPL_LSN_DST
  let g := track_max { g with SPL_DST := Function.update g.SPL_DST i spl } i spl
  let spr := d_sub (d_add spr rfn) SPR_LSN_DST
  let g := track_max { g with SPR_DST := Function.update g.SPR_DST i spr } i spr
  let rfn := d_mul rfn (lit 20 10)
  track_max { g with RFN_DST := Function.update g.RFN_DST i rfn } i rfn

/-- The distance variables before the loop: the arrays are not yet assigned (their
entries are all assigned by the loop) and the maxima hold the speaker to listener
distances. -/
def geom_start : Geom :=
  { SPL_DST := fun _ => 0, SPR_DST := fun _ => 0, RFN_DST := fun _ => 0
    MAXL_DST := if SPL_LSN_DST > 0 then SPL_LSN_DST else 0
    MAXR_DST := if SPR_LSN_DST > 0 then SPR_LSN_DST else 0 }

/-- The distance variables after the loop `for (i = 0; i < 8; i++)`. -/
def geom : Geom :=
  ([0, 1, 2, 3, 4, 5, 6, 7] : List (Fin 8)).foldl geom_step geom_start

/-- The expression `(int)((float)rate * (d / 340.29))`. -/
def delay_len (rate d : Int) : Int :=
  int_of_double (d_mul (float_of_int rate) (d_div d (lit 34029 100)))
/-- The function `init_reverb`, on the path where the three allocations succeed.
* `coeff` is the table left by the filter design loop.  That loop calls `sin`, `cos`,
  `sinh` and `pow`, whose results the C standard does not fix, so the table is a
  parameter.  The tables `coeff_8`, `coeff_20`, `coeff_16000` and `coeff_44100` are the
  ones the loop leaves for these rates with the GNU C library on x86-64.
* `l_mem` and `r_mem` give the indeterminate contents of the two fresh blocks of
  `l_buf_size + 1` and `r_buf_size + 1` cells.
* The four filter histories of the fresh record are indeterminate as well; `reset_reverb`
  assigns all of their cells, so they are entered as zero. -/
def init_reverb (rate : Int) (coeff : Fin 6 → Fin 5 → Int) (l_mem r_mem : Nat → Int) :
    Option Rvb :=
  reset_reverb
    { l_buf_size := delay_len rate geom.MAXL_DST
      l_buf := (List.range (delay_len rate geom.MAXL_DST + 1).toNat).map l_mem
      l_out := 0
      r_buf_size := delay_len rate geom.MAXR_DST
      r_buf := (List.range (delay_len rate geom.MAXR_DST + 1).toNat).map r_mem
      r_out := 0
      l_sp_in := fun k => delay_len rate (geom.SPL_DST k)
      r_sp_in := fun k => delay_len rate (geom.SPR_DST k)
      l_in := fun j => delay_len rate (geom.RFN_DST (lo4 j))
      r_in := fun j => delay_len rate (geom.RFN_DST (hi4 j))
      gain := 4
      coeff := coeff
      l_buf_flt_in := fun _ _ => 0
      l_buf_flt_out := fun _ _ => 0
      r_buf_flt_in := fun _ _ => 0
      r_buf_flt_out := fun _ _ => 0 }

/-- The record after `init_reverb`. -/
def init_val (rate : Int) (coeff : Fin 6 → Fin 5 → Int) (l_mem r_mem : Nat → Int) : Rvb :=
  { l_buf_size := delay_len rate geom.MAXL_DST
    l_buf := zeroed (delay_len rate geom.MAXL_DST).toNat 0
      ((List.range (delay_len rate geom.MAXL_DST + 1).toNat).map l_mem)
    l_out := 0
    r_buf_size := delay_len rate geom.MAXR_DST
    r_buf := zeroed (delay_len rate geom.MAXR_DST).toNat 0
      ((List.range (delay_len rate geom.MAXR_DST + 1).toNat).map r_mem)
    r_out := 0
    l_sp_in := fun k => delay_len rate (geom.SPL_DST k)
    r_sp_in := fun k => delay_len rate (geom.SPR_DST k)
    l_in := fun j => delay_len rate (geom.RFN_DST (lo4 j))
    r_in := fun j => delay_len rate (geom.RFN_DST (hi4 j))
    gain := 4
    coeff := coeff
    l_buf_flt_in := fun _ _ => 0
    l_buf_flt_out := fun _ _ => 0
    r_buf_flt_in := fun _ _ => 0
    r_buf_flt_out := fun _ _ => 0 }

/-- The record of `init_reverb` for the rate 20, written out: rings of 2 and 3 cells, each
followed by its guard cell (contents `gl`, `gr`). -/
def room20 (coeff : Fin 6 → Fin 5 → Int) (gl gr : Int) : Rvb :=
  { l_buf_size := 2
    l_buf := [0, 0, gl]
    l_out := 0
    r_buf_size := 3
    r_buf := [0, 0, 0, gr]
    r_out := 0
    l_sp_in := ![0, 0, 1, 2, 3, 2, 3, 1]
    r_sp_in := ![0, 0, 1, 2, 3, 2, 2, 1]
    l_in := ![1, 0, 1, 2]
    r_in := ![3, 2, 3, 2]
    gain := 4
    coeff := coeff
    l_buf_flt_in := fun _ _ => 0
    l_buf_flt_out := fun _ _ => 0
    r_buf_flt_in := fun _ _ => 0
    r_buf_flt_out := fun _ _ => 0 }

/-- A coefficient table used to evaluate the functions: the values the filter design of
`init_reverb` yields for the rate 44100 with the GNU C library. -/
def coeff_44100 : Fin 6 → Fin 5 → Int :=
  ![![1024, -2020, 997, -2020, 997], ![1005, -1972, 968, -1972, 949],
    ![943, -1835, 896, -1835, 816], ![778, -1492, 729, -1492, 483],
    ![482, -891, 446, -891, -94], ![201, -324, 184, -324, -638]]

/-- The values `SPL_DST[k] / 340.29` of the room, in units of `2^-1074`. -/
def coef_SPL : Fin 8 → Int :=
  ![6148263265961469 * 2 ^ 1017, 6205109655286095 * 2 ^ 1015, 320217383564683 * 2 ^ 1022,
    5397796053650123 * 2 ^ 1019, 383658855528365 * 2 ^ 1023, 1150949607079543 * 2 ^ 1021,
    692041192856643 * 2 ^ 1022, 1540809148884845 * 2 ^ 1020]

/-- The values `SPR_DST[k] / 340.29` of the room, in units of `2^-1074`. -/
def coef_SPR : Fin 8 → Int :=
  ![4698299068172399 * 2 ^ 1017, 2614748120579939 * 2 ^ 1017, 1340033936201167 * 2 ^ 1020,
    1330778192696773 * 2 ^ 1021, 5930386033452519 * 2 ^ 1019, 4101808396064561 * 2 ^ 1019,
    5136770283963255 * 2 ^ 1019, 5160083289202415 * 2 ^ 1018]

/-- The values `RFN_DST[k] / 340.29` of the room, in units of `2^-1074`. -/
def coef_RFN : Fin 8 → Int :=
  ![6696233088335603 * 2 ^ 1018, 2232082273506069 * 2 ^ 1018, 5375529117615149 * 2 ^ 1018,
    2699337961528019 * 2 ^ 1020, 6173622164464647 * 2 ^ 1019, 5305588688290633 * 2 ^ 1019,
    2920950347705043 * 2 ^ 1020, 2245984896728653 * 2 ^ 1020]

/-- The expression `(int)((float)rate * c)` for a `double` `c`. -/
def scale_len (rate c : Int) : Int := int_of_double (d_mul (float_of_int rate) c)

/-- Every cursor lies in the closed range `[0, size]` of the ring it indexes: the ring cells
or the guard cell behind them. -/
def Within (s : Rvb) : Prop :=
  (0 ≤ s.l_out ∧ s.l_out ≤ s.l_buf_size) ∧
  (0 ≤ s.r_out ∧ s.r_out ≤ s.r_buf_size) ∧
  (∀ k, 0 ≤ s.l_sp_in k ∧ s.l_sp_in k ≤ sp_size s k) ∧
  (∀ k, 0 ≤ s.r_sp_in k ∧ s.r_sp_in k ≤ sp_size s k) ∧
  (∀ j, 0 ≤ s.l_in j ∧ s.l_in j ≤ s.l_buf_size) ∧
  (∀ j, 0 ≤ s.r_in j ∧ s.r_in j ≤ s.r_buf_size)

/-- The two blocks have one guard cell behind the ring: `size + 1` cells. -/
def Guarded (s : Rvb) : Prop :=
  s.l_buf.length = (s.l_buf_size + 1).toNat ∧ s.r_buf.length = (s.r_buf_size + 1).toNat

instance (s : Rvb) : Decidable (Within s) := by
  unfold Within
  infer_instance

instance (s : Rvb) : Decidable (Guarded s) := by
  unfold Guarded
  infer_instance

/-- A coefficient table used to evaluate the functions: the values the filter design of
`init_reverb` yields for the rate 16000 with the GNU C library. -/
def coeff_16000 : Fin 6 → Fin 5 → Int :=
  ![![1024, -1972, 951, -1972, 951], ![975, -1846, 879, -1846, 831],
    ![835, -1531, 726, -1531, 537], ![559, -950, 468, -950, 4],
    ![259, -331, 209, -331, -555], ![81, 0, 62, 0, -879]]

/-- Two records agree on every field other than the contents of the two blocks. -/
def same_ctrl (s t : Rvb) : Prop :=
  s.l_buf_size = t.l_buf_size ∧ s.r_buf_size = t.r_buf_size ∧
  s.l_out = t.l_out ∧ s.r_out = t.r_out ∧
  s.l_sp_in = t.l_sp_in ∧ s.r_sp_in = t.r_sp_in ∧ s.l_in = t.l_in ∧ s.r_in = t.r_in ∧
  s.gain = t.gain ∧ s.coeff = t.coeff ∧
  s.l_buf_flt_in = t.l_buf_flt_in ∧ s.l_buf_flt_out = t.l_buf_flt_out ∧
  s.r_buf_flt_in = t.r_buf_flt_in ∧ s.r_buf_flt_out = t.r_buf_flt_out

/-- Two records agree except possibly in the guard cells: every field other than the block
contents is equal, the blocks have equal lengths, and every delay cell other than the one
at index `size` of its line is equal. -/
def guard_eq (s t : Rvb) : Prop :=
  same_ctrl s t ∧
  s.l_buf.length = t.l_buf.length ∧ s.r_buf.length = t.r_buf.length ∧
  (∀ n, n ≠ s.l_buf_size.toNat → cell s.l_buf n = cell t.l_buf n) ∧
  (∀ n, n ≠ s.r_buf_size.toNat → cell s.r_buf n = cell t.r_buf n)

/-- The drain cursors do not point at the guard cells (or the ring is empty, in which case
no pair can be processed). -/
def drain_off_guard (s : Rvb) : Prop :=
  0 ≤ s.l_buf_size ∧ 0 ≤ s.r_buf_size ∧
  (s.l_buf_size = 0 ∨ s.l_out.toNat ≠ s.l_buf_size.toNat) ∧
  (s.r_buf_size = 0 ∨ s.r_out.toNat ≠ s.r_buf_size.toNat)

/-- Two outcomes of a call agree: both are undefined, or both return the same samples and
records that agree except possibly in the guard cells. -/
def outcome_eq {α : Type} (x y : Option (Rvb × α)) : Prop :=
  (x = none ∧ y = none) ∨
  ∃ a b, x = some a ∧ y = some b ∧ a.2 = b.2 ∧ guard_eq a.1 b.1 ∧ drain_off_guard a.1

/-- The call `round(x)` of a `double` `x`: the nearest integer, halves away from zero. -/
def c_round (x : Int) : Int :=
  if x < 0 then -((2 * (-x) + one_units) / (2 * one_units))
  else (2 * x + one_units) / (2 * one_units)

/-- The `double` product `(float)rate * (d / 340.29)` that `init_reverb` converts to a
delay length. -/
def delay_prod (rate d : Int) : Int := d_mul (float_of_int rate) (d_div d (lit 34029 100))

/-- The spec's formula `round(sampleRate * distance / 340.29)`: the expression of
`delay_len` with `round` where the code has the conversion `(int)`. -/
def round_len (rate d : Int) : Int := c_round (delay_prod rate d)

/-- The delay length `len` is the integer part of the product `(float)rate * (d / 340.29)`;
the spec's rounded length is `len` or `len + 1`, the latter exactly when the fraction of
the product is at least one half. -/
def int_part (rate d len : Int) : Prop :=
  0 ≤ len ∧ len * one_units ≤ delay_prod rate d ∧ delay_prod rate d < (len + 1) * one_units ∧
  (round_len rate d = len ∨ round_len rate d = len + 1) ∧
  (round_len rate d = len + 1 ↔ one_units ≤ 2 * (delay_prod rate d - len * one_units))

/-- The first `k` iterations of the body of the sample loop, for the pairs at the indices
`i`, `i + 2`, ... of the sample block. -/
def do_reverb_pairs : Nat → Int → Rvb → List Int → Option (Rvb × List Int)
  | 0, _, rvb, buffer => some (rvb, buffer)
  | k + 1, i, rvb, buffer =>
    (do_reverb_pair rvb buffer i).bind fun st => do_reverb_pairs k (i + 2) st.1 st.2

/-- The number of iterations of `for (i = i0; i < size; i += 2)`. -/
def trip_count (i0 size : Int) : Nat := ((size - i0 + 1) / 2).toNat

/-- Every cursor of `t` is the cursor of `s` advanced by `k` places around its ring. -/
def advanced (s t : Rvb) (k : Int) : Prop :=
  t.l_out = (s.l_out + k) % s.l_buf_size ∧ t.r_out = (s.r_out + k) % s.r_buf_size ∧
  (∀ j, t.l_sp_in j = (s.l_sp_in j + k) % sp_size s j) ∧
  (∀ j, t.r_sp_in j = (s.r_sp_in j + k) % sp_size s j) ∧
  (∀ j, t.l_in j = (s.l_in j + k) % s.l_buf_size) ∧
  (∀ j, t.r_in j = (s.r_in j + k) % s.r_buf_size)

/-- The distance from the drain cursor to each write cursor of the same ring, taken around
the ring, is the same in `s` and in `t`. -/
def same_offsets (s t : Rvb) : Prop :=
  (∀ j : Fin 4, (t.l_sp_in (lo4 j) - t.l_out) % s.l_buf_size =
      (s.l_sp_in (lo4 j) - s.l_out) % s.l_buf_size ∧
    (t.r_sp_in (lo4 j) - t.l_out) % s.l_buf_size =
      (s.r_sp_in (lo4 j) - s.l_out) % s.l_buf_size ∧
    (t.l_sp_in (hi4 j) - t.r_out) % s.r_buf_size =
      (s.l_sp_in (hi4 j) - s.r_out) % s.r_buf_size ∧
    (t.r_sp_in (hi4 j) - t.r_out) % s.r_buf_size =
      (s.r_sp_in (hi4 j) - s.r_out) % s.r_buf_size ∧
    (t.l_in j - t.l_out) % s.l_buf_size = (s.l_in j - s.l_out) % s.l_buf_size ∧
    (t.r_in j - t.r_out) % s.r_buf_size = (s.r_in j - s.r_out) % s.r_buf_size)

/-- The write cursor `w` of a ring of `size` cells lies in the ring and outside the window
`[t, m)` of cells that the drain cursor still has to pass. -/
def clear_of (t m w size : Int) : Prop := 0 ≤ w ∧ w < size ∧ (w < t ∨ m ≤ w)

/-- The re-injection cursor `w` of a ring of `size` cells lies in the ring or on its guard
cell, and outside the window `(t, m)`: re-injection follows the draining of cell `t`. -/
def clear_in (t m w size : Int) : Prop := 0 ≤ w ∧ w ≤ size ∧ (w ≤ t ∨ m ≤ w)

/-- The state of a record inside the pre-delay, after `t` pairs: zero histories, both drain
cursors at `t`, zero cells in the window `[t, m)` and every write cursor outside it. -/
def pre_delay (m t : Int) (s : Rvb) : Prop :=
  hist_zero s ∧ s.l_out = t ∧ s.r_out = t ∧ m < s.l_buf_size ∧ m < s.r_buf_size ∧
  (∀ n : Nat, t ≤ n → (n : Int) < m → cell s.l_buf n = 0 ∧ cell s.r_buf n = 0) ∧
  (∀ k, clear_of t m (s.l_sp_in k) (sp_size s k)) ∧
  (∀ k, clear_of t m (s.r_sp_in k) (sp_size s k)) ∧
  (∀ j, clear_in t m (s.l_in j) s.l_buf_size) ∧
  (∀ j, clear_in t m (s.r_in j) s.r_buf_size)

/-- A record with rings of 4 and 5 cells whose write cursors are all at least 2, used to
evaluate the pre-delay. -/
def room_delay : Rvb :=
  { l_buf_size := 4
    l_buf := [0, 0, 0, 0, 9]
    l_out := 0
    r_buf_size := 5
    r_buf := [0, 0, 0, 0, 0, 9]
    r_out := 0
    l_sp_in := ![2, 3, 2, 3, 4, 2, 3, 2]
    r_sp_in := ![3, 2, 3, 2, 2, 4, 3, 4]
    l_in := ![2, 3, 3, 2]
    r_in := ![4, 2, 3, 2]
    gain := 4
    coeff := coeff_44100
    l_buf_flt_in := fun _ _ => 0
    l_buf_flt_out := fun _ _ => 0
    r_buf_flt_in := fun _ _ => 0
    r_buf_flt_out := fun _ _ => 0 }

/-- The impulse pair `(10000, 0)` followed by `k` pairs of zeros. -/
def impulse_block (k : Nat) : List Int := 10000 :: 0 :: List.replicate (2 * k) 0

/-- The record has come to rest: every cell of the two rings (the cells below the ring
sizes) and every cell of the four filter histories is zero.  The guard cells are not
constrained. -/
def settled (s : Rvb) : Prop :=
  hist_zero s ∧ (∀ n, n < s.l_buf_size.toNat → cell s.l_buf n = 0) ∧
  (∀ n, n < s.r_buf_size.toNat → cell s.r_buf n = 0)

instance (s : Rvb) : Decidable (settled s) := by
  unfold settled
  infer_instance

/-- The contents of a record other than the table `coeff`, as lists: the two blocks, the
scalars `l_buf_size, l_out, r_buf_size, r_out, gain`, the four cursor arrays and the two
columns of each of the four histories. -/
def snap (s : Rvb) : List (List Int) :=
  [s.l_buf, s.r_buf, [s.l_buf_size, s.l_out, s.r_buf_size, s.r_out, s.gain],
    List.ofFn s.l_sp_in, List.ofFn s.r_sp_in, List.ofFn s.l_in, List.ofFn s.r_in,
    List.ofFn fun j => s.l_buf_flt_in j 0, List.ofFn fun j => s.l_buf_flt_in j 1,
    List.ofFn fun j => s.l_buf_flt_out j 0, List.ofFn fun j => s.l_buf_flt_out j 1,
    List.ofFn fun j => s.r_buf_flt_in j 0, List.ofFn fun j => s.r_buf_flt_in j 1,
    List.ofFn fun j => s.r_buf_flt_out j 0, List.ofFn fun j => s.r_buf_flt_out j 1]

/-- Entry `k` of row `i` of a list of lists (zero outside). -/
def entry (d : List (List Int)) (i k : Nat) : Int := (d.getD i []).getD k 0

/-- The record with the table `coeff` and the contents `d`. -/
def unsnap (coeff : Fin 6 → Fin 5 → Int) (d : List (List Int)) : Rvb :=
  { l_buf := d.getD 0 []
    r_buf := d.getD 1 []
    l_buf_size := entry d 2 0
    l_out := entry d 2 1
    r_buf_size := entry d 2 2
    r_out := entry d 2 3
    gain := entry d 2 4
    l_sp_in := fun k => entry d 3 k
    r_sp_in := fun k => entry d 4 k
    l_in := fun j => entry d 5 j
    r_in := fun j => entry d 6 j
    coeff := coeff
    l_buf_flt_in := fun j m => if m = 0 then entry d 7 j else entry d 8 j
    l_buf_flt_out := fun j m => if m = 0 then entry d 9 j else entry d 10 j
    r_buf_flt_in := fun j m => if m = 0 then entry d 11 j else entry d 12 j
    r_buf_flt_out := fun j m => if m = 0 then entry d 13 j else entry d 14 j }

/-- The contents of the record of `init_reverb` for the rate 20 on zeroed memory. -/
def snap_0 : List (List Int) :=
  [[0, 0, 0], [0, 0, 0, 0], [2, 0, 3, 0, 4], [0, 0, 1, 2, 3, 2, 3, 1],
    [0, 0, 1, 2, 3, 2, 2, 1], [1, 0, 1, 2], [3, 2, 3, 2], [0, 0, 0, 0, 0, 0],
    [0, 0, 0, 0, 0, 0], [0, 0, 0, 0, 0, 0], [0, 0, 0, 0, 0, 0], [0, 0, 0, 0, 0, 0],
    [0, 0, 0, 0, 0, 0], [0, 0, 0, 0, 0, 0], [0, 0, 0, 0, 0, 0]]

/-- The samples returned at the rate 20 with the table `coeff_20` for the impulse pair and
nine pairs of zeros. -/
def out_20 : List Int :=
  [10624, 0, 312, 312, 18, 976, 78, 18, 60, 18, 0, 4, 0, 6, 0, 2, 0, 0, 0, 0]

/-- The contents of the record of rate 20 (zeroed memory, table `coeff_20`) after the impulse
pair and nine pairs of zeros. -/
def snap_20 : List (List Int) :=
  [[0, 0, 312], [0, 0, 0, 1288], [2, 0, 3, 1, 4], [0, 0, 1, 0, 1, 0, 1, 2],
    [0, 0, 1, 0, 1, 0, 0, 2], [1, 0, 1, 0], [1, 0, 1, 0], [0, 0, 0, 0, 0, 0],
    [0, 0, 0, 0, 0, 0], [0, 0, 0, 0, 0, 0], [0, 0, 0, 0, 0, 0], [0, 0, 0, 0, 0, 0],
    [0, 0, 0, 0, 0, 0], [0, 0, 0, 0, 0, 0], [0, 0, 0, 0, 0, 0]]

/-- The contents of the record of `init_reverb` for the rate 8 on zeroed memory. -/
def snap_8 : List (List Int) :=
  [[0, 0], [0, 0], [1, 0, 1, 0, 4], [0, 0, 0, 1, 1, 1, 1, 0], [0, 0, 0, 1, 1, 0, 1, 0],
    [0, 0, 0, 1], [1, 1, 1, 0], [0, 0, 0, 0, 0, 0], [0, 0, 0, 0, 0, 0], [0, 0, 0, 0, 0, 0],
    [0, 0, 0, 0, 0, 0], [0, 0, 0, 0, 0, 0], [0, 0, 0, 0, 0, 0], [0, 0, 0, 0, 0, 0],
    [0, 0, 0, 0, 0, 0]]

/-- The contents of the record of rate 8 (zeroed memory, table `coeff_8`) after the impulse
pair and five pairs of zeros: the output histories of band 1 hold `-1`. -/
def snap_8a : List (List Int) :=
  [[0, 326], [0, 2004], [1, 0, 1, 0, 4], [0, 0, 0, 0, 0, 0, 0, 0], [0, 0, 0, 0, 0, 0, 0, 0],
    [0, 0, 0, 0], [0, 0, 0, 0], [0, 0, 0, 0, 0, 0], [0, 0, 0, 0, 0, 0], [0, 0, 0, 0, 0, 0],
    [0, -1, 0, 0, 0, 0], [0, 0, 0, 0, 0, 0], [0, 0, 0, 0, 0, 0], [0, -1, 0, 0, 0, 0],
    [0, -1, 0, 0, 0, 0]]

/-- The samples returned at the rate 8 with the table `coeff_8` for the impulse pair and the
first four pairs of zeros. -/
def out_8 : List Int := [11404, 468, 63, 534, 95, 5, 0, 11, -1, -1]

/-- The values of the type `signed long int` (64 bits). -/
def in_long (x : Int) : Prop := -9223372036854775808 ≤ x ∧ x < 9223372036854775808

instance (x : Int) : Decidable (in_long x) := by
  unfold in_long
  infer_instance

/-- The numerator of the band expression over the integers, without reduction to the range
of `signed long int`. -/
def band_num (x : Int) (c : Fin 5 → Int) (hin hout : Fin 2 → Int) : Int :=
  x * c 0 + hin 0 * c 1 + hin 1 * c 2 - hout 0 * c 3 - hout 1 * c 4

/-- The band expression as the specification writes it: the numerator over the integers,
divided by 1024 and truncated toward zero. -/
def band_exact (x : Int) (c : Fin 5 → Int) (hin hout : Fin 2 → Int) : Int :=
  Int.tdiv (band_num x c hin hout) 1024

/-- The sample after the first `m` of the six additions `buffer[i] += flt`, for the band
outputs `f`. -/
def partial_sum (old : Int) (f : Fin 6 → Int) (m : Nat) : Int :=
  old + ∑ j : Fin 6, if j.val < m then f j else 0

/-- The coefficient table the filter design of `init_reverb` yields for the rate 20 with the
GNU C library on x86-64.  All bands lie above half the rate.  In the bands 1 to 5 the design
divides an infinity by an infinity, and the conversion of the result to `signed long int`
gives the least value of the type. -/
def coeff_20 : Fin 6 → Fin 5 → Int :=
  ![![1024, 0, -1023, 0, -1023],
    ![-9223372036854775808, 0, -9223372036854775808, 0, -9223372036854775808],
    ![-9223372036854775808, 0, -9223372036854775808, 0, -9223372036854775808],
    ![-9223372036854775808, 0, -9223372036854775808, 0, -9223372036854775808],
    ![-9223372036854775808, 0, -9223372036854775808, 0, -9223372036854775808],
    ![-9223372036854775808, 0, -9223372036854775808, 0, -9223372036854775808]]

/-- The coefficient table the filter design of `init_reverb` yields for the rate 8 with the
GNU C library on x86-64 (see `coeff_20` for the bands 2 to 5). -/
def coeff_8 : Fin 6 → Fin 5 → Int :=
  ![![1024, 0, -1024, 0, -1024], ![513, 0, -513, 0, -1024],
    ![-9223372036854775808, 0, -9223372036854775808, 0, -9223372036854775808],
    ![-9223372036854775808, 0, -9223372036854775808, 0, -9223372036854775808],
    ![-9223372036854775808, 0, -9223372036854775808, 0, -9223372036854775808],
    ![-9223372036854775808, 0, -9223372036854775808, 0, -9223372036854775808]]

/-- The record of `init_reverb` for the rate 8, written out: rings of one cell, each followed
by its guard cell (contents `gl`, `gr`). -/
def room8 (coeff : Fin 6 → Fin 5 → Int) (gl gr : Int) : Rvb :=
  { l_buf_size := 1
    l_buf := [0, gl]
    l_out := 0
    r_buf_size := 1
    r_buf := [0, gr]
    r_out := 0
    l_sp_in := ![0, 0, 0, 1, 1, 1, 1, 0]
    r_sp_in := ![0, 0, 0, 1, 1, 0, 1, 0]
    l_in := ![0, 0, 0, 1]
    r_in := ![1, 1, 1, 0]
    gain := 4
    coeff := coeff
    l_buf_flt_in := fun _ _ => 0
    l_buf_flt_out := fun _ _ => 0
    r_buf_flt_in := fun _ _ => 0
    r_buf_flt_out := fun _ _ => 0 }

/-- Every value drained on one channel by the first `k` iterations of the body of the sample
loop, starting at the pair at `i`, satisfies `-2^53 <= x < 2^53`, that is, `1024 * x` is a
`signed long int`.  The drained value of a pair is given by `f` (`l_rfl_val` for the left
channel, `r_rfl_val` for the right channel). -/
def drains_fit (f : Rvb → List Int → Int → Int) : Nat → Int → Rvb → List Int → Prop
  | 0, _, _, _ => True
  | k + 1, i, s, b =>
    in_long (1024 * f s b i) ∧ drains_fit f k (i + 2) (pair_val s b i).1 (pair_val s b i).2

/-! ## Basic facts -/

theorem cell_set (buf : List Int) (m n : Nat) (v : Int) :
    cell (buf.set m v) n = if m = n ∧ m < buf.length then v else cell buf n := by
  unfold cell
  rw [List.getElem?_set]
  by_cases h : m = n
  · subst h
    by_cases h2 : m < buf.length
    · simp [h2]
    · simp [h2]
      simp at h2
      simp [List.getElem?_eq_none h2]
  · simp [h]

theorem load_eq_some {buf : List Int} {i x : Int} (h : load buf i = some x) :
    0 ≤ i ∧ i.toNat < buf.length ∧ x = cell buf i.toNat := by
  unfold load at h
  split at h
  · rename_i h0
    have := List.getElem?_eq_some_iff.mp h
    obtain ⟨hl, hx⟩ := this
    refine ⟨h0, hl, ?_⟩
    simp [cell, h]
  · simp at h

theorem load_of_lt {buf : List Int} {i : Int} (h0 : 0 ≤ i) (h1 : i.toNat < buf.length) :
    load buf i = some (cell buf i.toNat) := by
  unfold load cell
  simp [h0, List.getElem?_eq_getElem h1]

theorem store_eq_some {buf b : List Int} {i v : Int} (h : store buf i v = some b) :
    0 ≤ i ∧ i.toNat < buf.length ∧ b = buf.set i.toNat v := by
  unfold store at h
  split at h
  · rename_i h0
    simp at h
    exact ⟨h0.1, h0.2, h.symm⟩
  · simp at h

theorem store_of_lt {buf : List Int} {i : Int} (v : Int) (h0 : 0 ≤ i)
    (h1 : i.toNat < buf.length) : store buf i v = some (buf.set i.toNat v) := by
  unfold store
  simp [h0, h1]

theorem add_at_eq_some {buf b : List Int} {i v : Int} (h : add_at buf i v = some b) :
    0 ≤ i ∧ i.toNat < buf.length ∧ b = buf.set i.toNat (cell buf i.toNat + v) := by
  unfold add_at at h
  obtain ⟨x, hx, hs⟩ := Option.bind_eq_some.mp h
  obtain ⟨h0, h1, rfl⟩ := load_eq_some hx
  obtain ⟨_, _, rfl⟩ := store_eq_some hs
  exact ⟨h0, h1, rfl⟩

theorem add_at_of_lt {buf : List Int} {i : Int} (v : Int) (h0 : 0 ≤ i)
    (h1 : i.toNat < buf.length) :
    add_at buf i v = some (buf.set i.toNat (cell buf i.toNat + v)) := by
  unfold add_at
  rw [load_of_lt h0 h1]
  simp [store_of_lt _ h0 h1]

theorem c_mod_eq_some {a b c : Int} (h : c_mod a b = some c) : b ≠ 0 ∧ c = Int.tmod a b := by
  unfold c_mod at h
  split at h
  · simp at h
  · rename_i hb
    simp at h
    exact ⟨hb, h.symm⟩

theorem c_mod_of_ne {a b : Int} (hb : b ≠ 0) : c_mod a b = some (Int.tmod a b) := by
  simp [c_mod, hb]

theorem bump_eq_some {buf b : List Int} {size cur v c : Int}
    (h : bump buf size cur v = some (b, c)) :
    0 ≤ cur ∧ cur.toNat < buf.length ∧ size ≠ 0 ∧
      b = buf.set cur.toNat (cell buf cur.toNat + v) ∧ c = Int.tmod (cur + 1) size := by
  unfold bump at h
  obtain ⟨b1, hb1, h⟩ := Option.bind_eq_some.mp h
  obtain ⟨c1, hc1, h⟩ := Option.bind_eq_some.mp h
  simp at h
  obtain ⟨rfl, rfl⟩ := h
  obtain ⟨h0, h1, hb⟩ := add_at_eq_some hb1
  obtain ⟨hs, hc⟩ := c_mod_eq_some hc1
  exact ⟨h0, h1, hs, hb, hc⟩

theorem bump_of_lt {buf : List Int} {size cur : Int} (v : Int) (h0 : 0 ≤ cur)
    (h1 : cur.toNat < buf.length) (hs : size ≠ 0) :
    bump buf size cur v =
      some (buf.set cur.toNat (cell buf cur.toNat + v), Int.tmod (cur + 1) size) := by
  unfold bump
  rw [add_at_of_lt _ h0 h1, c_mod_of_ne hs]
  rfl

theorem drain_eq_some {buf b : List Int} {size cur x c : Int}
    (h : drain buf size cur = some (x, b, c)) :
    0 ≤ cur ∧ cur.toNat < buf.length ∧ size ≠ 0 ∧ x = cell buf cur.toNat ∧
      b = buf.set cur.toNat 0 ∧ c = Int.tmod (cur + 1) size := by
  unfold drain at h
  obtain ⟨x1, hx1, h⟩ := Option.bind_eq_some.mp h
  obtain ⟨b1, hb1, h⟩ := Option.bind_eq_some.mp h
  obtain ⟨c1, hc1, h⟩ := Option.bind_eq_some.mp h
  simp at h
  obtain ⟨rfl, rfl, rfl⟩ := h
  obtain ⟨h0, h1, hx⟩ := load_eq_some hx1
  obtain ⟨_, _, hb⟩ := store_eq_some hb1
  obtain ⟨hs, hc⟩ := c_mod_eq_some hc1
  exact ⟨h0, h1, hs, hx, hb, hc⟩

theorem drain_of_lt {buf : List Int} {size cur : Int} (h0 : 0 ≤ cur)
    (h1 : cur.toNat < buf.length) (hs : size ≠ 0) :
    drain buf size cur =
      some (cell buf cur.toNat, buf.set cur.toNat 0, Int.tmod (cur + 1) size) := by
  unfold drain
  rw [load_of_lt h0 h1, store_of_lt _ h0 h1, c_mod_of_ne hs]
  rfl

theorem bump_cell {buf b : List Int} {size cur v c : Int}
    (h : bump buf size cur v = some (b, c)) (n : Nat) :
    cell b n = cell buf n + if cur.toNat = n then v else 0 := by
  obtain ⟨_, h1, _, rfl, _⟩ := bump_eq_some h
  rw [cell_set]
  by_cases hn : cur.toNat = n
  · subst hn; simp [h1]
  · simp [hn]

theorem bump_length {buf b : List Int} {size cur v c : Int}
    (h : bump buf size cur v = some (b, c)) : b.length = buf.length := by
  obtain ⟨_, _, _, rfl, _⟩ := bump_eq_some h
  simp

theorem lo4_0 : lo4 0 = 0 := rfl
theorem lo4_1 : lo4 1 = 1 := rfl
theorem lo4_2 : lo4 2 = 2 := rfl
theorem lo4_3 : lo4 3 = 3 := rfl
theorem hi4_0 : hi4 0 = 4 := rfl
theorem hi4_1 : hi4 1 = 5 := rfl
theorem hi4_2 : hi4 2 = 6 := rfl
theorem hi4_3 : hi4 3 = 7 := rfl

theorem put_length (buf : List Int) (cur v : Int) : (put buf cur v).length = buf.length := by
  simp [put]

theorem put_cell {buf : List Int} {cur : Int} (v : Int) (h : cur.toNat < buf.length) (n : Nat) :
    cell (put buf cur v) n = cell buf n + hit cur n v := by
  unfold put hit
  rw [cell_set]
  by_cases hn : cur.toNat = n
  · subst hn; simp [h]
  · simp [hn]

theorem bump_iff {buf : List Int} {size cur v : Int} {p : List Int × Int} :
    bump buf size cur v = some p ↔
      (0 ≤ cur ∧ cur.toNat < buf.length ∧ size ≠ 0) ∧ p = (put buf cur v, adv size cur) := by
  constructor
  · intro h
    obtain ⟨b, c⟩ := p
    obtain ⟨h0, h1, hs, hb, hc⟩ := bump_eq_some h
    exact ⟨⟨h0, h1, hs⟩, by rw [hb, hc]; rfl⟩
  · rintro ⟨⟨h0, h1, hs⟩, rfl⟩
    exact bump_of_lt v h0 h1 hs

theorem inject_step_iff {tl tr : Int} {s s' : Rvb} {j : Fin 4} :
    inject_step tl tr s j = some s' ↔ inject_step_ok s j ∧ s' = inject_step_val tl tr s j := by
  unfold inject_step inject_step_ok inject_step_val
  simp only [Option.bind_eq_some, bump_iff, Option.some.injEq, put_length]
  constructor
  · rintro ⟨p1, ⟨v1, rfl⟩, p2, ⟨v2, rfl⟩, p3, ⟨v3, rfl⟩, p4, ⟨v4, rfl⟩, rfl⟩
    exact ⟨⟨v1.2.2, v3.2.2, ⟨v1.1, v1.2.1⟩, ⟨v2.1, by simpa [put_length] using v2.2.1⟩,
      ⟨v3.1, v3.2.1⟩, ⟨v4.1, by simpa [put_length] using v4.2.1⟩⟩, rfl⟩
  · rintro ⟨⟨a1, a2, a3, a4, a5, a6⟩, rfl⟩
    exact ⟨_, ⟨⟨a3.1, a3.2, a1⟩, rfl⟩, _, ⟨⟨a4.1, by simpa [put_length] using a4.2, a1⟩, rfl⟩,
      _, ⟨⟨a5.1, a5.2, a2⟩, rfl⟩, _, ⟨⟨a6.1, by simpa [put_length] using a6.2, a2⟩, rfl⟩, rfl⟩

theorem inject_step_val_l_sp_in (tl tr : Int) (s : Rvb) (j : Fin 4) (k : Fin 8) :
    (inject_step_val tl tr s j).l_sp_in k =
      if k = hi4 j ∨ k = lo4 j then adv (sp_size s k) (s.l_sp_in k) else s.l_sp_in k := by
  simp only [inject_step_val, Function.update_apply]
  by_cases h1 : k = hi4 j
  · subst h1
    have h4 : ¬ ((hi4 j).val < 4) := by simp [hi4]
    simp [sp_size, h4]
  · by_cases h2 : k = lo4 j
    · subst h2
      have h4 : (lo4 j).val < 4 := j.isLt
      simp [sp_size, h4, h1]
    · simp [h1, h2]

theorem inject_step_val_r_sp_in (tl tr : Int) (s : Rvb) (j : Fin 4) (k : Fin 8) :
    (inject_step_val tl tr s j).r_sp_in k =
      if k = hi4 j ∨ k = lo4 j then adv (sp_size s k) (s.r_sp_in k) else s.r_sp_in k := by
  simp only [inject_step_val, Function.update_apply]
  by_cases h1 : k = hi4 j
  · subst h1
    have h4 : ¬ ((hi4 j).val < 4) := by simp [hi4]
    simp [sp_size, h4]
  · by_cases h2 : k = lo4 j
    · subst h2
      have h4 : (lo4 j).val < 4 := j.isLt
      simp [sp_size, h4, h1]
    · simp [h1, h2]

theorem inject_step_val_sp_size (tl tr : Int) (s : Rvb) (j : Fin 4) (k : Fin 8) :
    sp_size (inject_step_val tl tr s j) k = sp_size s k := rfl

theorem inject_step_val_length (tl tr : Int) (s : Rvb) (j : Fin 4) :
    (inject_step_val tl tr s j).l_buf.length = s.l_buf.length ∧
    (inject_step_val tl tr s j).r_buf.length = s.r_buf.length := by
  simp [inject_step_val, put_length]

theorem inject_step_val_l_cell {tl tr : Int} {s : Rvb} {j : Fin 4} (h : inject_step_ok s j)
    (n : Nat) :
    cell (inject_step_val tl tr s j).l_buf n =
      cell s.l_buf n + (hit (s.l_sp_in (lo4 j)) n tl + hit (s.r_sp_in (lo4 j)) n tr) := by
  obtain ⟨_, _, a3, a4, _, _⟩ := h
  simp only [inject_step_val]
  rw [put_cell _ (by rw [put_length]; exact a4.2), put_cell _ a3.2]
  ring

theorem inject_step_val_r_cell {tl tr : Int} {s : Rvb} {j : Fin 4} (h : inject_step_ok s j)
    (n : Nat) :
    cell (inject_step_val tl tr s j).r_buf n =
      cell s.r_buf n + (hit (s.l_sp_in (hi4 j)) n tl + hit (s.r_sp_in (hi4 j)) n tr) := by
  obtain ⟨_, _, _, _, a5, a6⟩ := h
  simp only [inject_step_val]
  rw [put_cell _ (by rw [put_length]; exact a6.2), put_cell _ a5.2]
  ring

theorem foldlM4 {σ : Type} (f : σ → Fin 4 → Option σ) (s s' : σ) :
    ([0, 1, 2, 3] : List (Fin 4)).foldlM f s = some s' ↔
    ∃ s1 s2 s3, f s 0 = some s1 ∧ f s1 1 = some s2 ∧ f s2 2 = some s3 ∧ f s3 3 = some s' := by
  simp only [List.foldlM_cons, List.foldlM_nil, Option.bind_eq_bind, Option.bind_eq_some,
    Option.pure_def, Option.some.injEq]
  constructor
  · rintro ⟨s1, h1, s2, h2, s3, h3, s4, h4, rfl⟩
    exact ⟨s1, s2, s3, h1, h2, h3, h4⟩
  · rintro ⟨s1, s2, s3, h1, h2, h3, h4⟩
    exact ⟨s1, h1, s2, h2, s3, h3, s', h4, rfl⟩

theorem inject_steps_ok (tl tr : Int) (s : Rvb) :
    (inject_step_ok s 0 ∧ inject_step_ok (inject_step_val tl tr s 0) 1 ∧
      inject_step_ok (inject_step_val tl tr (inject_step_val tl tr s 0) 1) 2 ∧
      inject_step_ok
        (inject_step_val tl tr (inject_step_val tl tr (inject_step_val tl tr s 0) 1) 2) 3)
    ↔ inject_ok s := by
  simp only [inject_step_ok, inject_step_val_l_sp_in, inject_step_val_r_sp_in,
    (inject_step_val_length _ _ _ _).1, (inject_step_val_length _ _ _ _).2,
    lo4_0, lo4_1, lo4_2, lo4_3, hi4_0, hi4_1, hi4_2, hi4_3, Fin.reduceEq, or_self, if_false]
  have e1 : ∀ (t : Rvb) (j : Fin 4), (inject_step_val tl tr t j).l_buf_size = t.l_buf_size :=
    fun _ _ => rfl
  have e2 : ∀ (t : Rvb) (j : Fin 4), (inject_step_val tl tr t j).r_buf_size = t.r_buf_size :=
    fun _ _ => rfl
  simp only [e1, e2, inject_ok]
  constructor
  · rintro ⟨⟨a1, a2, a3, a4, a5, a6⟩, ⟨_, _, b3, b4, b5, b6⟩, ⟨_, _, c3, c4, c5, c6⟩,
      ⟨_, _, d3, d4, d5, d6⟩⟩
    refine ⟨a1, a2, ?_, ?_⟩
    · intro k
      fin_cases k <;> simp only [sp_buf] <;> assumption
    · intro k
      fin_cases k <;> simp only [sp_buf] <;> assumption
  · rintro ⟨a1, a2, a3, a4⟩
    exact ⟨⟨a1, a2, a3 0, a4 0, a3 4, a4 4⟩, ⟨a1, a2, a3 1, a4 1, a3 5, a4 5⟩,
      ⟨a1, a2, a3 2, a4 2, a3 6, a4 6⟩, ⟨a1, a2, a3 3, a4 3, a3 7, a4 7⟩⟩

theorem inject_iff {tl tr : Int} {s s' : Rvb} :
    inject tl tr s = some s' ↔ inject_ok s ∧ s' = inject_val tl tr s := by
  unfold inject
  rw [foldlM4, ← inject_steps_ok tl tr s]
  simp only [inject_step_iff]
  constructor
  · rintro ⟨s1, s2, s3, ⟨a, rfl⟩, ⟨b, rfl⟩, ⟨c, rfl⟩, ⟨d, rfl⟩⟩
    exact ⟨⟨a, b, c, d⟩, rfl⟩
  · rintro ⟨⟨a, b, c, d⟩, rfl⟩
    exact ⟨_, _, _, ⟨a, rfl⟩, ⟨b, rfl⟩, ⟨c, rfl⟩, ⟨d, rfl⟩⟩

theorem inject_val_frame (tl tr : Int) (s : Rvb) :
    (inject_val tl tr s).l_buf_size = s.l_buf_size ∧
    (inject_val tl tr s).r_buf_size = s.r_buf_size ∧
    (inject_val tl tr s).l_out = s.l_out ∧ (inject_val tl tr s).r_out = s.r_out ∧
    (inject_val tl tr s).l_in = s.l_in ∧ (inject_val tl tr s).r_in = s.r_in ∧
    (inject_val tl tr s).gain = s.gain ∧ (inject_val tl tr s).coeff = s.coeff ∧
    (inject_val tl tr s).l_buf_flt_in = s.l_buf_flt_in ∧
    (inject_val tl tr s).l_buf_flt_out = s.l_buf_flt_out ∧
    (inject_val tl tr s).r_buf_flt_in = s.r_buf_flt_in ∧
    (inject_val tl tr s).r_buf_flt_out = s.r_buf_flt_out :=
  ⟨rfl, rfl, rfl, rfl, rfl, rfl, rfl, rfl, rfl, rfl, rfl, rfl⟩

theorem inject_val_l_sp_in (tl tr : Int) (s : Rvb) (k : Fin 8) :
    (inject_val tl tr s).l_sp_in k = adv (sp_size s k) (s.l_sp_in k) := by
  simp only [inject_val, List.foldl, inject_step_val_l_sp_in, inject_step_val_sp_size,
    lo4_0, lo4_1, lo4_2, lo4_3, hi4_0, hi4_1, hi4_2, hi4_3]
  fin_cases k <;> simp

theorem inject_val_r_sp_in (tl tr : Int) (s : Rvb) (k : Fin 8) :
    (inject_val tl tr s).r_sp_in k = adv (sp_size s k) (s.r_sp_in k) := by
  simp only [inject_val, List.foldl, inject_step_val_r_sp_in, inject_step_val_sp_size,
    lo4_0, lo4_1, lo4_2, lo4_3, hi4_0, hi4_1, hi4_2, hi4_3]
  fin_cases k <;> simp

theorem inject_val_length (tl tr : Int) (s : Rvb) :
    (inject_val tl tr s).l_buf.length = s.l_buf.length ∧
    (inject_val tl tr s).r_buf.length = s.r_buf.length := by
  simp only [inject_val, List.foldl, (inject_step_val_length _ _ _ _).1,
    (inject_step_val_length _ _ _ _).2, and_self]

theorem inject_val_l_cell {tl tr : Int} {s : Rvb} (h : inject_ok s) (n : Nat) :
    cell (inject_val tl tr s).l_buf n = cell s.l_buf n
      + ∑ j : Fin 4, (hit (s.l_sp_in (lo4 j)) n tl + hit (s.r_sp_in (lo4 j)) n tr) := by
  obtain ⟨a, b, c, d⟩ := (inject_steps_ok tl tr s).mpr h
  simp only [inject_val, List.foldl, Fin.sum_univ_four]
  rw [inject_step_val_l_cell d, inject_step_val_l_cell c, inject_step_val_l_cell b,
    inject_step_val_l_cell a]
  simp only [inject_step_val_l_sp_in, inject_step_val_r_sp_in,
    lo4_0, lo4_1, lo4_2, lo4_3, hi4_0, hi4_1, hi4_2, hi4_3, Fin.reduceEq, or_self, if_false]
  ring

theorem inject_val_r_cell {tl tr : Int} {s : Rvb} (h : inject_ok s) (n : Nat) :
    cell (inject_val tl tr s).r_buf n = cell s.r_buf n
      + ∑ j : Fin 4, (hit (s.l_sp_in (hi4 j)) n tl + hit (s.r_sp_in (hi4 j)) n tr) := by
  obtain ⟨a, b, c, d⟩ := (inject_steps_ok tl tr s).mpr h
  simp only [inject_val, List.foldl, Fin.sum_univ_four]
  rw [inject_step_val_r_cell d, inject_step_val_r_cell c, inject_step_val_r_cell b,
    inject_step_val_r_cell a]
  simp only [inject_step_val_l_sp_in, inject_step_val_r_sp_in,
    lo4_0, lo4_1, lo4_2, lo4_3, hi4_0, hi4_1, hi4_2, hi4_3, Fin.reduceEq, or_self, if_false]
  ring

theorem drain_iff {buf : List Int} {size cur : Int} {p : Int × List Int × Int} :
    drain buf size cur = some p ↔
      (0 ≤ cur ∧ cur.toNat < buf.length ∧ size ≠ 0) ∧
        p = (cell buf cur.toNat, buf.set cur.toNat 0, adv size cur) := by
  constructor
  · intro h
    obtain ⟨x, b, c⟩ := p
    obtain ⟨h0, h1, hs, hx, hb, hc⟩ := drain_eq_some h
    exact ⟨⟨h0, h1, hs⟩, by rw [hx, hb, hc]; rfl⟩
  · rintro ⟨⟨h0, h1, hs⟩, rfl⟩
    exact drain_of_lt h0 h1 hs

theorem drain_both_iff {s : Rvb} {p : Int × Int × Rvb} :
    drain_both s = some p ↔
      drain_ok s ∧ p = (cell s.l_buf s.l_out.toNat, cell s.r_buf s.r_out.toNat, drain_val s) := by
  unfold drain_both drain_ok drain_val
  simp only [Option.bind_eq_some, drain_iff, Option.some.injEq]
  constructor
  · rintro ⟨p1, ⟨v1, rfl⟩, p2, ⟨v2, rfl⟩, rfl⟩
    exact ⟨⟨v1.2.2, v2.2.2, ⟨v1.1, v1.2.1⟩, ⟨v2.1, v2.2.1⟩⟩, rfl⟩
  · rintro ⟨⟨a1, a2, a3, a4⟩, rfl⟩
    exact ⟨_, ⟨⟨a3.1, a3.2, a1⟩, rfl⟩, _, ⟨⟨a4.1, a4.2, a2⟩, rfl⟩, rfl⟩

theorem drain_val_l_cell (s : Rvb) (n : Nat) :
    cell (drain_val s).l_buf n = if s.l_out.toNat = n then 0 else cell s.l_buf n := by
  simp only [drain_val, cell_set]
  by_cases h : s.l_out.toNat = n
  · subst h
    by_cases h2 : s.l_out.toNat < s.l_buf.length
    · simp [h2]
    · simp [h2, cell, List.getElem?_eq_none (not_lt.mp h2)]
  · simp [h]

theorem drain_val_r_cell (s : Rvb) (n : Nat) :
    cell (drain_val s).r_buf n = if s.r_out.toNat = n then 0 else cell s.r_buf n := by
  simp only [drain_val, cell_set]
  by_cases h : s.r_out.toNat = n
  · subst h
    by_cases h2 : s.r_out.toNat < s.r_buf.length
    · simp [h2]
    · simp [h2, cell, List.getElem?_eq_none (not_lt.mp h2)]
  · simp [h]

theorem drain_val_length (s : Rvb) :
    (drain_val s).l_buf.length = s.l_buf.length ∧
    (drain_val s).r_buf.length = s.r_buf.length := by
  simp [drain_val]

theorem reinject_step_iff {tl tr : Int} {s s' : Rvb} {j : Fin 4} :
    reinject_step tl tr s j = some s' ↔
      reinject_step_ok s j ∧ s' = reinject_step_val tl tr s j := by
  unfold reinject_step reinject_step_ok reinject_step_val
  simp only [Option.bind_eq_some, bump_iff, Option.some.injEq]
  constructor
  · rintro ⟨p1, ⟨v1, rfl⟩, p2, ⟨v2, rfl⟩, rfl⟩
    exact ⟨⟨v1.2.2, v2.2.2, ⟨v1.1, v1.2.1⟩, ⟨v2.1, v2.2.1⟩⟩, rfl⟩
  · rintro ⟨⟨a1, a2, a3, a4⟩, rfl⟩
    exact ⟨_, ⟨⟨a3.1, a3.2, a1⟩, rfl⟩, _, ⟨⟨a4.1, a4.2, a2⟩, rfl⟩, rfl⟩

theorem reinject_step_val_l_in (tl tr : Int) (s : Rvb) (j k : Fin 4) :
    (reinject_step_val tl tr s j).l_in k =
      if k = j then adv s.l_buf_size (s.l_in k) else s.l_in k := by
  simp only [reinject_step_val, Function.update_apply]
  by_cases h : k = j
  · subst h; simp
  · simp [h]

theorem reinject_step_val_r_in (tl tr : Int) (s : Rvb) (j k : Fin 4) :
    (reinject_step_val tl tr s j).r_in k =
      if k = j then adv s.r_buf_size (s.r_in k) else s.r_in k := by
  simp only [reinject_step_val, Function.update_apply]
  by_cases h : k = j
  · subst h; simp
  · simp [h]

theorem reinject_step_val_length (tl tr : Int) (s : Rvb) (j : Fin 4) :
    (reinject_step_val tl tr s j).l_buf.length = s.l_buf.length ∧
    (reinject_step_val tl tr s j).r_buf.length = s.r_buf.length := by
  simp [reinject_step_val, put_length]

theorem reinject_step_val_l_cell {tl tr : Int} {s : Rvb} {j : Fin 4}
    (h : reinject_step_ok s j) (n : Nat) :
    cell (reinject_step_val tl tr s j).l_buf n = cell s.l_buf n + hit (s.l_in j) n tl := by
  simp only [reinject_step_val]
  rw [put_cell _ h.2.2.1.2]

theorem reinject_step_val_r_cell {tl tr : Int} {s : Rvb} {j : Fin 4}
    (h : reinject_step_ok s j) (n : Nat) :
    cell (reinject_step_val tl tr s j).r_buf n = cell s.r_buf n + hit (s.r_in j) n tr := by
  simp only [reinject_step_val]
  rw [put_cell _ h.2.2.2.2]

theorem reinject_steps_ok (tl tr : Int) (s : Rvb) :
    (reinject_step_ok s 0 ∧ reinject_step_ok (reinject_step_val tl tr s 0) 1 ∧
      reinject_step_ok (reinject_step_val tl tr (reinject_step_val tl tr s 0) 1) 2 ∧
      reinject_step_ok
        (reinject_step_val tl tr (reinject_step_val tl tr (reinject_step_val tl tr s 0) 1) 2) 3)
    ↔ reinject_ok s := by
  simp only [reinject_step_ok, reinject_step_val_l_in, reinject_step_val_r_in,
    (reinject_step_val_length _ _ _ _).1, (reinject_step_val_length _ _ _ _).2,
    Fin.reduceEq, if_false]
  have e1 : ∀ (t : Rvb) (j : Fin 4), (reinject_step_val tl tr t j).l_buf_size = t.l_buf_size :=
    fun _ _ => rfl
  have e2 : ∀ (t : Rvb) (j : Fin 4), (reinject_step_val tl tr t j).r_buf_size = t.r_buf_size :=
    fun _ _ => rfl
  simp only [e1, e2, reinject_ok]
  constructor
  · rintro ⟨⟨a1, a2, a3, a4⟩, ⟨_, _, b3, b4⟩, ⟨_, _, c3, c4⟩, ⟨_, _, d3, d4⟩⟩
    refine ⟨a1, a2, ?_, ?_⟩
    · intro k
      fin_cases k <;> assumption
    · intro k
      fin_cases k <;> assumption
  · rintro ⟨a1, a2, a3, a4⟩
    exact ⟨⟨a1, a2, a3 0, a4 0⟩, ⟨a1, a2, a3 1, a4 1⟩, ⟨a1, a2, a3 2, a4 2⟩,
      ⟨a1, a2, a3 3, a4 3⟩⟩

theorem reinject_iff {tl tr : Int} {s s' : Rvb} :
    reinject tl tr s = some s' ↔ reinject_ok s ∧ s' = reinject_val tl tr s := by
  unfold reinject
  rw [foldlM4, ← reinject_steps_ok tl tr s]
  simp only [reinject_step_iff]
  constructor
  · rintro ⟨s1, s2, s3, ⟨a, rfl⟩, ⟨b, rfl⟩, ⟨c, rfl⟩, ⟨d, rfl⟩⟩
    exact ⟨⟨a, b, c, d⟩, rfl⟩
  · rintro ⟨⟨a, b, c, d⟩, rfl⟩
    exact ⟨_, _, _, ⟨a, rfl⟩, ⟨b, rfl⟩, ⟨c, rfl⟩, ⟨d, rfl⟩⟩

theorem reinject_val_l_in (tl tr : Int) (s : Rvb) (k : Fin 4) :
    (reinject_val tl tr s).l_in k = adv s.l_buf_size (s.l_in k) := by
  have e1 : ∀ (t : Rvb) (j : Fin 4), (reinject_step_val tl tr t j).l_buf_size = t.l_buf_size :=
    fun _ _ => rfl
  simp only [reinject_val, List.foldl, reinject_step_val_l_in, e1]
  fin_cases k <;> simp

theorem reinject_val_r_in (tl tr : Int) (s : Rvb) (k : Fin 4) :
    (reinject_val tl tr s).r_in k = adv s.r_buf_size (s.r_in k) := by
  have e1 : ∀ (t : Rvb) (j : Fin 4), (reinject_step_val tl tr t j).r_buf_size = t.r_buf_size :=
    fun _ _ => rfl
  simp only [reinject_val, List.foldl, reinject_step_val_r_in, e1]
  fin_cases k <;> simp

theorem reinject_val_length (tl tr : Int) (s : Rvb) :
    (reinject_val tl tr s).l_buf.length = s.l_buf.length ∧
    (reinject_val tl tr s).r_buf.length = s.r_buf.length := by
  simp only [reinject_val, List.foldl, (reinject_step_val_length _ _ _ _).1,
    (reinject_step_val_length _ _ _ _).2, and_self]

theorem reinject_val_l_cell {tl tr : Int} {s : Rvb} (h : reinject_ok s) (n : Nat) :
    cell (reinject_val tl tr s).l_buf n = cell s.l_buf n + ∑ j : Fin 4, hit (s.l_in j) n tl := by
  obtain ⟨a, b, c, d⟩ := (reinject_steps_ok tl tr s).mpr h
  simp only [reinject_val, List.foldl, Fin.sum_univ_four]
  rw [reinject_step_val_l_cell d, reinject_step_val_l_cell c, reinject_step_val_l_cell b,
    reinject_step_val_l_cell a]
  simp only [reinject_step_val_l_in, Fin.reduceEq, if_false]
  ring

theorem reinject_val_r_cell {tl tr : Int} {s : Rvb} (h : reinject_ok s) (n : Nat) :
    cell (reinject_val tl tr s).r_buf n = cell s.r_buf n + ∑ j : Fin 4, hit (s.r_in j) n tr := by
  obtain ⟨a, b, c, d⟩ := (reinject_steps_ok tl tr s).mpr h
  simp only [reinject_val, List.foldl, Fin.sum_univ_four]
  rw [reinject_step_val_r_cell d, reinject_step_val_r_cell c, reinject_step_val_r_cell b,
    reinject_step_val_r_cell a]
  simp only [reinject_step_val_r_in, Fin.reduceEq, if_false]
  ring

theorem reinject_val_frame (tl tr : Int) (s : Rvb) :
    (reinject_val tl tr s).l_buf_size = s.l_buf_size ∧
    (reinject_val tl tr s).r_buf_size = s.r_buf_size ∧
    (reinject_val tl tr s).l_out = s.l_out ∧ (reinject_val tl tr s).r_out = s.r_out ∧
    (reinject_val tl tr s).l_sp_in = s.l_sp_in ∧ (reinject_val tl tr s).r_sp_in = s.r_sp_in ∧
    (reinject_val tl tr s).gain = s.gain ∧ (reinject_val tl tr s).coeff = s.coeff ∧
    (reinject_val tl tr s).l_buf_flt_in = s.l_buf_flt_in ∧
    (reinject_val tl tr s).l_buf_flt_out = s.l_buf_flt_out ∧
    (reinject_val tl tr s).r_buf_flt_in = s.r_buf_flt_in ∧
    (reinject_val tl tr s).r_buf_flt_out = s.r_buf_flt_out :=
  ⟨rfl, rfl, rfl, rfl, rfl, rfl, rfl, rfl, rfl, rfl, rfl, rfl⟩

theorem pair_in_lt {buffer : List Int} {i : Int} (h : pair_in buffer i) :
    i.toNat < buffer.length ∧ 0 ≤ i + 1 ∧ i.toNat ≠ (i + 1).toNat := by
  obtain ⟨h0, h1⟩ := h
  omega

theorem filter_step_iff {l r i : Int} {st st' : Rvb × List Int} {j : Fin 6} :
    filter_step l r i st j = some st' ↔ pair_in st.2 i ∧ st' = filter_step_val l r i st j := by
  unfold filter_step filter_step_val band_l band_r
  simp only [Option.bind_eq_some, Option.some.injEq]
  constructor
  · rintro ⟨b1, h1, b2, h2, rfl⟩
    obtain ⟨a0, a1, rfl⟩ := add_at_eq_some h1
    obtain ⟨c0, c1, rfl⟩ := add_at_eq_some h2
    simp only [List.length_set] at c1
    exact ⟨⟨a0, c1⟩, rfl⟩
  · rintro ⟨h, rfl⟩
    obtain ⟨h1, h2, _⟩ := pair_in_lt h
    refine ⟨_, add_at_of_lt _ h.1 h1, _, add_at_of_lt _ h2 ?_, rfl⟩
    simp only [List.length_set]
    exact h.2

theorem set2_shift (a : Fin 6 → Fin 2 → Int) (j k : Fin 6) (x : Int) :
    set2 (set2 a j 1 (a j 0)) j 0 x k = if k = j then shift (a k) x else a k := by
  unfold set2
  by_cases h : k = j
  · subst h
    funext m
    fin_cases m <;> simp [shift]
  · simp [h]

theorem filter_step_val_hist (l r i : Int) (st : Rvb × List Int) (j k : Fin 6) :
    (filter_step_val l r i st j).1.l_buf_flt_in k =
      (if k = j then shift (st.1.l_buf_flt_in k) l else st.1.l_buf_flt_in k) ∧
    (filter_step_val l r i st j).1.l_buf_flt_out k =
      (if k = j then shift (st.1.l_buf_flt_out k) (band_l st.1 l k)
        else st.1.l_buf_flt_out k) ∧
    (filter_step_val l r i st j).1.r_buf_flt_in k =
      (if k = j then shift (st.1.r_buf_flt_in k) r else st.1.r_buf_flt_in k) ∧
    (filter_step_val l r i st j).1.r_buf_flt_out k =
      (if k = j then shift (st.1.r_buf_flt_out k) (band_r st.1 r k)
        else st.1.r_buf_flt_out k) := by
  simp only [filter_step_val, set2_shift]
  by_cases h : k = j
  · subst h; simp
  · simp [h]

theorem filter_step_val_band (l r i x : Int) (st : Rvb × List Int) (j k : Fin 6) (h : k ≠ j) :
    band_l (filter_step_val l r i st j).1 x k = band_l st.1 x k ∧
    band_r (filter_step_val l r i st j).1 x k = band_r st.1 x k := by
  have e := filter_step_val_hist l r i st j k
  simp only [h, if_false] at e
  have c : (filter_step_val l r i st j).1.coeff = st.1.coeff := rfl
  simp only [band_l, band_r, e.1, e.2.1, e.2.2.1, e.2.2.2, c, and_self]

theorem filter_step_val_length (l r i : Int) (st : Rvb × List Int) (j : Fin 6) :
    (filter_step_val l r i st j).2.length = st.2.length := by
  simp [filter_step_val, put_length]

theorem filter_step_val_cell {l r i : Int} {st : Rvb × List Int} {j : Fin 6}
    (h : pair_in st.2 i) (n : Nat) :
    cell (filter_step_val l r i st j).2 n =
      cell st.2 n + hit i n (band_l st.1 l j) + hit (i + 1) n (band_r st.1 r j) := by
  obtain ⟨h1, _, _⟩ := pair_in_lt h
  simp only [filter_step_val]
  rw [put_cell _ (by rw [put_length]; exact h.2), put_cell _ h1]

theorem foldlM6 {σ : Type} (f : σ → Fin 6 → Option σ) (s s' : σ) :
    ([0, 1, 2, 3, 4, 5] : List (Fin 6)).foldlM f s = some s' ↔
    ∃ s1 s2 s3 s4 s5, f s 0 = some s1 ∧ f s1 1 = some s2 ∧ f s2 2 = some s3 ∧
      f s3 3 = some s4 ∧ f s4 4 = some s5 ∧ f s5 5 = some s' := by
  simp only [List.foldlM_cons, List.foldlM_nil, Option.bind_eq_bind, Option.bind_eq_some,
    Option.pure_def, Option.some.injEq]
  constructor
  · rintro ⟨s1, h1, s2, h2, s3, h3, s4, h4, s5, h5, s6, h6, rfl⟩
    exact ⟨s1, s2, s3, s4, s5, h1, h2, h3, h4, h5, h6⟩
  · rintro ⟨s1, s2, s3, s4, s5, h1, h2, h3, h4, h5, h6⟩
    exact ⟨s1, h1, s2, h2, s3, h3, s4, h4, s5, h5, s', h6, rfl⟩

theorem filter_iff {l r i : Int} {s : Rvb} {buffer : List Int} {st' : Rvb × List Int} :
    filter l r i s buffer = some st' ↔ pair_in buffer i ∧ st' = filter_val l r i s buffer := by
  unfold filter filter_val
  rw [foldlM6]
  simp only [filter_step_iff]
  constructor
  · rintro ⟨s1, s2, s3, s4, s5, ⟨a, rfl⟩, ⟨_, rfl⟩, ⟨_, rfl⟩, ⟨_, rfl⟩, ⟨_, rfl⟩, ⟨_, rfl⟩⟩
    exact ⟨a, rfl⟩
  · rintro ⟨a, rfl⟩
    have hl : ∀ (st : Rvb × List Int) (j : Fin 6), pair_in st.2 i →
        pair_in (filter_step_val l r i st j).2 i := by
      intro st j h
      unfold pair_in
      rw [filter_step_val_length]
      exact h
    have a1 := hl (s, buffer) 0 a
    have a2 := hl _ 1 a1
    have a3 := hl _ 2 a2
    have a4 := hl _ 3 a3
    have a5 := hl _ 4 a4
    exact ⟨_, _, _, _, _, ⟨a, rfl⟩, ⟨a1, rfl⟩, ⟨a2, rfl⟩, ⟨a3, rfl⟩, ⟨a4, rfl⟩, ⟨a5, rfl⟩⟩

theorem filter_step_val_frame (l r i : Int) (st : Rvb × List Int) (j : Fin 6) :
    (filter_step_val l r i st j).1.l_buf = st.1.l_buf ∧
    (filter_step_val l r i st j).1.r_buf = st.1.r_buf ∧
    (filter_step_val l r i st j).1.l_buf_size = st.1.l_buf_size ∧
    (filter_step_val l r i st j).1.r_buf_size = st.1.r_buf_size ∧
    (filter_step_val l r i st j).1.l_out = st.1.l_out ∧
    (filter_step_val l r i st j).1.r_out = st.1.r_out ∧
    (filter_step_val l r i st j).1.l_sp_in = st.1.l_sp_in ∧
    (filter_step_val l r i st j).1.r_sp_in = st.1.r_sp_in ∧
    (filter_step_val l r i st j).1.l_in = st.1.l_in ∧
    (filter_step_val l r i st j).1.r_in = st.1.r_in ∧
    (filter_step_val l r i st j).1.gain = st.1.gain ∧
    (filter_step_val l r i st j).1.coeff = st.1.coeff :=
  ⟨rfl, rfl, rfl, rfl, rfl, rfl, rfl, rfl, rfl, rfl, rfl, rfl⟩

theorem filter_val_frame (l r i : Int) (s : Rvb) (buffer : List Int) :
    (filter_val l r i s buffer).1.l_buf = s.l_buf ∧
    (filter_val l r i s buffer).1.r_buf = s.r_buf ∧
    (filter_val l r i s buffer).1.l_buf_size = s.l_buf_size ∧
    (filter_val l r i s buffer).1.r_buf_size = s.r_buf_size ∧
    (filter_val l r i s buffer).1.l_out = s.l_out ∧
    (filter_val l r i s buffer).1.r_out = s.r_out ∧
    (filter_val l r i s buffer).1.l_sp_in = s.l_sp_in ∧
    (filter_val l r i s buffer).1.r_sp_in = s.r_sp_in ∧
    (filter_val l r i s buffer).1.l_in = s.l_in ∧
    (filter_val l r i s buffer).1.r_in = s.r_in ∧
    (filter_val l r i s buffer).1.gain = s.gain ∧
    (filter_val l r i s buffer).1.coeff = s.coeff := by
  have e := filter_step_val_frame l r i
  simp only [filter_val, List.foldl, (e _ _).1, (e _ _).2.1, (e _ _).2.2.1, (e _ _).2.2.2.1,
    (e _ _).2.2.2.2.1, (e _ _).2.2.2.2.2.1, (e _ _).2.2.2.2.2.2.1, (e _ _).2.2.2.2.2.2.2.1,
    (e _ _).2.2.2.2.2.2.2.2.1, (e _ _).2.2.2.2.2.2.2.2.2.1, (e _ _).2.2.2.2.2.2.2.2.2.2.1,
    (e _ _).2.2.2.2.2.2.2.2.2.2.2, and_self]

theorem filter_val_length (l r i : Int) (s : Rvb) (buffer : List Int) :
    (filter_val l r i s buffer).2.length = buffer.length := by
  simp only [filter_val, List.foldl, filter_step_val_length]

theorem filter_val_hist (l r i : Int) (s : Rvb) (buffer : List Int) (k : Fin 6) :
    (filter_val l r i s buffer).1.l_buf_flt_in k = shift (s.l_buf_flt_in k) l ∧
    (filter_val l r i s buffer).1.l_buf_flt_out k = shift (s.l_buf_flt_out k) (band_l s l k) ∧
    (filter_val l r i s buffer).1.r_buf_flt_in k = shift (s.r_buf_flt_in k) r ∧
    (filter_val l r i s buffer).1.r_buf_flt_out k = shift (s.r_buf_flt_out k) (band_r s r k) := by
  simp only [filter_val, List.foldl]
  fin_cases k <;>
    simp [filter_step_val_hist, filter_step_val_band]

theorem hit_add (c : Int) (n : Nat) (a b : Int) : hit c n (a + b) = hit c n a + hit c n b := by
  unfold hit
  split <;> simp

theorem filter_val_cell {l r i : Int} {s : Rvb} {buffer : List Int} (h : pair_in buffer i)
    (n : Nat) :
    cell (filter_val l r i s buffer).2 n =
      cell buffer n + hit i n (∑ j : Fin 6, band_l s l j) + hit (i + 1) n (∑ j : Fin 6, band_r s r j) := by
  have hl : ∀ (st : Rvb × List Int) (j : Fin 6), pair_in st.2 i →
      pair_in (filter_step_val l r i st j).2 i := by
    intro st j h
    unfold pair_in
    rw [filter_step_val_length]
    exact h
  have a1 := hl (s, buffer) 0 h
  have a2 := hl _ 1 a1
  have a3 := hl _ 2 a2
  have a4 := hl _ 3 a3
  have a5 := hl _ 4 a4
  simp only [filter_val, List.foldl, Fin.sum_univ_six, hit_add]
  rw [filter_step_val_cell a5, filter_step_val_cell a4, filter_step_val_cell a3,
    filter_step_val_cell a2, filter_step_val_cell a1, filter_step_val_cell h]
  simp [filter_step_val_band]
  ring

theorem load_iff {buf : List Int} {i x : Int} :
    load buf i = some x ↔ (0 ≤ i ∧ i.toNat < buf.length) ∧ x = cell buf i.toNat := by
  constructor
  · intro h
    obtain ⟨a, b, c⟩ := load_eq_some h
    exact ⟨⟨a, b⟩, c⟩
  · rintro ⟨⟨a, b⟩, rfl⟩
    exact load_of_lt a b

theorem pair_drain_iff {s : Rvb} {buffer : List Int} {i : Int} {d : Int × Int × Rvb} :
    pair_drain s buffer i = some d ↔
      (pair_in buffer i ∧ inject_ok s ∧ drain_ok s) ∧
        d = (l_rfl_val s buffer i, r_rfl_val s buffer i, drained_val s buffer i) := by
  unfold pair_drain
  simp only [Option.bind_eq_some, load_iff, inject_iff, drain_both_iff]
  have hd : ∀ tl tr, drain_ok (inject_val tl tr s) ↔ drain_ok s := by
    intro tl tr
    unfold drain_ok
    rw [(inject_val_length tl tr s).1, (inject_val_length tl tr s).2]
    exact Iff.rfl
  have hv : ∀ tl tr, (cell (inject_val tl tr s).l_buf (inject_val tl tr s).l_out.toNat,
      cell (inject_val tl tr s).r_buf (inject_val tl tr s).r_out.toNat,
      drain_val (inject_val tl tr s)) =
      (cell (inject_val tl tr s).l_buf s.l_out.toNat,
        cell (inject_val tl tr s).r_buf s.r_out.toNat, drain_val (inject_val tl tr s)) := by
    intro tl tr
    rw [(inject_val_frame tl tr s).2.2.1, (inject_val_frame tl tr s).2.2.2.1]
  unfold l_rfl_val r_rfl_val drained_val
  constructor
  · rintro ⟨x, ⟨a, rfl⟩, y, ⟨b, rfl⟩, s1, ⟨c, rfl⟩, e, rfl⟩
    exact ⟨⟨⟨a.1, b.2⟩, c, (hd _ _).mp e⟩, hv _ _⟩
  · rintro ⟨⟨a, c, e⟩, rfl⟩
    obtain ⟨h1, h2, _⟩ := pair_in_lt a
    exact ⟨cell buffer i.toNat, ⟨⟨a.1, h1⟩, rfl⟩, cell buffer (i + 1).toNat,
      ⟨⟨h2, a.2⟩, rfl⟩, inject_val (Int.tdiv (cell buffer i.toNat) 32)
        (Int.tdiv (cell buffer (i + 1).toNat) 32) s, ⟨c, rfl⟩, (hd _ _).mpr e, (hv _ _).symm⟩

theorem pair_iff {s : Rvb} {buffer : List Int} {i : Int} {r : Rvb × List Int} :
    do_reverb_pair s buffer i = some r ↔ pair_ok s buffer i ∧ r = pair_val s buffer i := by
  unfold do_reverb_pair
  simp only [Option.bind_eq_some, pair_drain_iff, filter_iff, load_iff, reinject_iff,
    Option.some.injEq]
  have hr : reinject_ok (filtered_val s buffer i).1 ↔ reinject_ok s := by
    unfold reinject_ok filtered_val
    have e := filter_val_frame (l_rfl_val s buffer i) (r_rfl_val s buffer i) i
      (drained_val s buffer i) buffer
    rw [e.1, e.2.1, e.2.2.1, e.2.2.2.1, e.2.2.2.2.2.2.2.2.1, e.2.2.2.2.2.2.2.2.2.1]
    unfold drained_val
    rw [(drain_val_length _).1, (drain_val_length _).2, (inject_val_length _ _ _).1,
      (inject_val_length _ _ _).2]
    exact Iff.rfl
  constructor
  · rintro ⟨d, ⟨⟨a, b, c⟩, hd⟩, f, ⟨_, hf⟩, x, ⟨_, hx⟩, y, ⟨_, hy⟩, s2, ⟨e, hs2⟩, h⟩
    subst hd
    dsimp only at hf
    subst hf
    subst hx
    subst hy
    subst hs2
    subst h
    exact ⟨⟨a, b, c, hr.mp e⟩, by unfold pair_val filtered_val; rfl⟩
  · rintro ⟨⟨a, b, c, e⟩, h⟩
    subst h
    obtain ⟨h1, h2, _⟩ := pair_in_lt a
    have hl : (filtered_val s buffer i).2.length = buffer.length := filter_val_length _ _ _ _ _
    refine ⟨(l_rfl_val s buffer i, r_rfl_val s buffer i, drained_val s buffer i),
      ⟨⟨a, b, c⟩, rfl⟩, filtered_val s buffer i, ⟨a, ?_⟩,
      cell (filtered_val s buffer i).2 (i + 1).toNat, ⟨⟨h2, hl.symm ▸ a.2⟩, rfl⟩,
      cell (filtered_val s buffer i).2 i.toNat, ⟨⟨a.1, hl.symm ▸ h1⟩, rfl⟩,
      (pair_val s buffer i).1, ⟨hr.mpr e, ?_⟩, ?_⟩
    · unfold filtered_val
      rfl
    · unfold pair_val
      rfl
    · unfold pair_val
      rfl

theorem adv_range {size c : Int} (hc : 0 ≤ c) (hs : size ≠ 0) :
    0 ≤ adv size c ∧ (adv size c).toNat < size.natAbs := by
  unfold adv
  have h0 : 0 ≤ Int.tmod (c + 1) size := Int.tmod_nonneg _ (by omega)
  refine ⟨h0, ?_⟩
  rw [Int.toNat_lt h0]
  rcases lt_or_gt_of_ne hs with h | h
  · have : Int.tmod (c + 1) size = Int.tmod (c + 1) (-size) := (Int.tmod_neg _ _).symm
    rw [this]
    have := Int.tmod_lt_of_pos (c + 1) (b := -size) (by omega)
    omega
  · have := Int.tmod_lt_of_pos (c + 1) h
    omega

theorem adv_lt {size c : Int} (hs : 1 ≤ size) : adv size c < size :=
  Int.tmod_lt_of_pos _ (by omega)

theorem pair_val_frame (s : Rvb) (buffer : List Int) (i : Int) :
    (pair_val s buffer i).1.l_buf_size = s.l_buf_size ∧
    (pair_val s buffer i).1.r_buf_size = s.r_buf_size ∧
    (pair_val s buffer i).1.coeff = s.coeff ∧
    (pair_val s buffer i).1.gain = s.gain := by
  have e := filter_val_frame (l_rfl_val s buffer i) (r_rfl_val s buffer i) i
      (drained_val s buffer i) buffer
  have r := reinject_val_frame
    (Int.tdiv (cell (filtered_val s buffer i).2 (i + 1).toNat) 32)
    (Int.tdiv (cell (filtered_val s buffer i).2 i.toNat) 32) (filtered_val s buffer i).1
  unfold pair_val
  simp only
  rw [r.1, r.2.1, r.2.2.2.2.2.2.2.1, r.2.2.2.2.2.2.1]
  unfold filtered_val
  rw [e.2.2.1, e.2.2.2.1, e.2.2.2.2.2.2.2.2.2.2.2, e.2.2.2.2.2.2.2.2.2.2.1]
  exact ⟨rfl, rfl, rfl, rfl⟩

theorem pair_val_length (s : Rvb) (buffer : List Int) (i : Int) :
    (pair_val s buffer i).1.l_buf.length = s.l_buf.length ∧
    (pair_val s buffer i).1.r_buf.length = s.r_buf.length ∧
    (pair_val s buffer i).2.length = buffer.length := by
  have e := filter_val_frame (l_rfl_val s buffer i) (r_rfl_val s buffer i) i
      (drained_val s buffer i) buffer
  unfold pair_val
  simp only
  rw [(reinject_val_length _ _ _).1, (reinject_val_length _ _ _).2]
  unfold filtered_val
  rw [e.1, e.2.1, filter_val_length]
  unfold drained_val
  rw [(drain_val_length _).1, (drain_val_length _).2, (inject_val_length _ _ _).1,
    (inject_val_length _ _ _).2]
  exact ⟨rfl, rfl, rfl⟩

theorem pair_val_cursors (s : Rvb) (buffer : List Int) (i : Int) :
    (pair_val s buffer i).1.l_out = adv s.l_buf_size s.l_out ∧
    (pair_val s buffer i).1.r_out = adv s.r_buf_size s.r_out ∧
    (∀ k, (pair_val s buffer i).1.l_sp_in k = adv (sp_size s k) (s.l_sp_in k)) ∧
    (∀ k, (pair_val s buffer i).1.r_sp_in k = adv (sp_size s k) (s.r_sp_in k)) ∧
    (∀ j, (pair_val s buffer i).1.l_in j = adv s.l_buf_size (s.l_in j)) ∧
    (∀ j, (pair_val s buffer i).1.r_in j = adv s.r_buf_size (s.r_in j)) := by
  have e := filter_val_frame (l_rfl_val s buffer i) (r_rfl_val s buffer i) i
      (drained_val s buffer i) buffer
  have r := reinject_val_frame
    (Int.tdiv (cell (filtered_val s buffer i).2 (i + 1).toNat) 32)
    (Int.tdiv (cell (filtered_val s buffer i).2 i.toNat) 32) (filtered_val s buffer i).1
  unfold pair_val
  simp only [reinject_val_l_in, reinject_val_r_in]
  rw [r.2.2.1, r.2.2.2.1, r.2.2.2.2.1, r.2.2.2.2.2.1]
  unfold filtered_val
  rw [e.2.2.1, e.2.2.2.1, e.2.2.2.2.1, e.2.2.2.2.2.1, e.2.2.2.2.2.2.1, e.2.2.2.2.2.2.2.1,
    e.2.2.2.2.2.2.2.2.1, e.2.2.2.2.2.2.2.2.2.1]
  unfold drained_val
  refine ⟨rfl, rfl, ?_, ?_, fun _ => rfl, fun _ => rfl⟩
  · intro k
    exact inject_val_l_sp_in _ _ s k
  · intro k
    exact inject_val_r_sp_in _ _ s k

theorem safe_pair_ok {s : Rvb} (h : Safe s) {buffer : List Int} {i : Int}
    (hp : pair_in buffer i) : pair_ok s buffer i :=
  ⟨hp, ⟨h.1.1, h.2.1.1, h.2.2.2.2.1, h.2.2.2.2.2.1⟩, ⟨h.1.1, h.2.1.1, h.2.2.1, h.2.2.2.1⟩,
    ⟨h.1.1, h.2.1.1, h.2.2.2.2.2.2.1, h.2.2.2.2.2.2.2⟩⟩

theorem safe_pair_val {s : Rvb} (h : Safe s) (buffer : List Int) (i : Int) :
    Safe (pair_val s buffer i).1 := by
  obtain ⟨⟨l0, l1⟩, ⟨r0, r1⟩, lo, ro, lsp, rsp, li, ri⟩ := h
  obtain ⟨c1, c2, c3, c4, c5, c6⟩ := pair_val_cursors s buffer i
  obtain ⟨f1, f2, _, _⟩ := pair_val_frame s buffer i
  obtain ⟨n1, n2, _⟩ := pair_val_length s buffer i
  have hsp : ∀ k, sp_size s k ≠ 0 ∧ (sp_size s k).natAbs ≤ (sp_buf s k).length := by
    intro k
    unfold sp_size sp_buf
    split
    · exact ⟨l0, l1⟩
    · exact ⟨r0, r1⟩
  have hb : ∀ k, (sp_buf (pair_val s buffer i).1 k).length = (sp_buf s k).length := by
    intro k
    unfold sp_buf
    split
    · exact n1
    · exact n2
  unfold Safe
  simp only [c1, c2, c3, c4, c5, c6, f1, f2, n1, n2, hb]
  refine ⟨⟨l0, l1⟩, ⟨r0, r1⟩, ?_, ?_, ?_, ?_, ?_, ?_⟩
  · exact ⟨(adv_range lo.1 l0).1, lt_of_lt_of_le (adv_range lo.1 l0).2 l1⟩
  · exact ⟨(adv_range ro.1 r0).1, lt_of_lt_of_le (adv_range ro.1 r0).2 r1⟩
  · intro k
    exact ⟨(adv_range (lsp k).1 (hsp k).1).1,
      lt_of_lt_of_le (adv_range (lsp k).1 (hsp k).1).2 (hsp k).2⟩
  · intro k
    exact ⟨(adv_range (rsp k).1 (hsp k).1).1,
      lt_of_lt_of_le (adv_range (rsp k).1 (hsp k).1).2 (hsp k).2⟩
  · intro j
    exact ⟨(adv_range (li j).1 l0).1, lt_of_lt_of_le (adv_range (li j).1 l0).2 l1⟩
  · intro j
    exact ⟨(adv_range (ri j).1 r0).1, lt_of_lt_of_le (adv_range (ri j).1 r0).2 r1⟩

theorem drained_val_frame (s : Rvb) (buffer : List Int) (i : Int) :
    (drained_val s buffer i).coeff = s.coeff ∧
    (drained_val s buffer i).l_buf_flt_in = s.l_buf_flt_in ∧
    (drained_val s buffer i).l_buf_flt_out = s.l_buf_flt_out ∧
    (drained_val s buffer i).r_buf_flt_in = s.r_buf_flt_in ∧
    (drained_val s buffer i).r_buf_flt_out = s.r_buf_flt_out ∧
    (drained_val s buffer i).l_in = s.l_in ∧
    (drained_val s buffer i).r_in = s.r_in :=
  ⟨rfl, rfl, rfl, rfl, rfl, rfl, rfl⟩

theorem drained_val_band (s : Rvb) (buffer : List Int) (i x : Int) (j : Fin 6) :
    band_l (drained_val s buffer i) x j = band_l s x j ∧
    band_r (drained_val s buffer i) x j = band_r s x j :=
  ⟨rfl, rfl⟩

theorem l_rfl_val_eq {s : Rvb} {buffer : List Int} {i : Int} (h : pair_ok s buffer i) :
    l_rfl_val s buffer i = cell s.l_buf s.l_out.toNat +
      sp_hits_l s (Int.tdiv (cell buffer i.toNat) 32) (Int.tdiv (cell buffer (i + 1).toNat) 32)
        s.l_out.toNat := by
  unfold l_rfl_val sp_hits_l
  rw [inject_val_l_cell h.2.1]

theorem r_rfl_val_eq {s : Rvb} {buffer : List Int} {i : Int} (h : pair_ok s buffer i) :
    r_rfl_val s buffer i = cell s.r_buf s.r_out.toNat +
      sp_hits_r s (Int.tdiv (cell buffer i.toNat) 32) (Int.tdiv (cell buffer (i + 1).toNat) 32)
        s.r_out.toNat := by
  unfold r_rfl_val sp_hits_r
  rw [inject_val_r_cell h.2.1]

theorem pair_val_buffer_cell {s : Rvb} {buffer : List Int} {i : Int} (h : pair_ok s buffer i)
    (n : Nat) :
    cell (pair_val s buffer i).2 n = cell buffer n
      + hit i n (wet_l s (l_rfl_val s buffer i))
      + hit (i + 1) n (wet_r s (r_rfl_val s buffer i)) := by
  unfold pair_val filtered_val wet_l wet_r
  simp only
  rw [filter_val_cell h.1]
  simp only [drained_val_band]

theorem pair_val_hist (s : Rvb) (buffer : List Int) (i : Int) (k : Fin 6) :
    (pair_val s buffer i).1.l_buf_flt_in k = shift (s.l_buf_flt_in k) (l_rfl_val s buffer i) ∧
    (pair_val s buffer i).1.l_buf_flt_out k =
      shift (s.l_buf_flt_out k) (band_l s (l_rfl_val s buffer i) k) ∧
    (pair_val s buffer i).1.r_buf_flt_in k = shift (s.r_buf_flt_in k) (r_rfl_val s buffer i) ∧
    (pair_val s buffer i).1.r_buf_flt_out k =
      shift (s.r_buf_flt_out k) (band_r s (r_rfl_val s buffer i) k) := by
  have r := reinject_val_frame
    (Int.tdiv (cell (filtered_val s buffer i).2 (i + 1).toNat) 32)
    (Int.tdiv (cell (filtered_val s buffer i).2 i.toNat) 32) (filtered_val s buffer i).1
  have e := filter_val_hist (l_rfl_val s buffer i) (r_rfl_val s buffer i) i
      (drained_val s buffer i) buffer k
  unfold pair_val
  simp only
  rw [r.2.2.2.2.2.2.2.2.1, r.2.2.2.2.2.2.2.2.2.1, r.2.2.2.2.2.2.2.2.2.2.1,
    r.2.2.2.2.2.2.2.2.2.2.2]
  unfold filtered_val
  rw [e.1, e.2.1, e.2.2.1, e.2.2.2]
  exact ⟨rfl, rfl, rfl, rfl⟩

theorem drained_val_l_cell {s : Rvb} {buffer : List Int} {i : Int} (h : pair_ok s buffer i)
    (n : Nat) :
    cell (drained_val s buffer i).l_buf n =
      if s.l_out.toNat = n then 0
      else cell s.l_buf n + sp_hits_l s (Int.tdiv (cell buffer i.toNat) 32)
        (Int.tdiv (cell buffer (i + 1).toNat) 32) n := by
  unfold drained_val sp_hits_l
  rw [drain_val_l_cell, inject_val_l_cell h.2.1]
  rfl

theorem drained_val_r_cell {s : Rvb} {buffer : List Int} {i : Int} (h : pair_ok s buffer i)
    (n : Nat) :
    cell (drained_val s buffer i).r_buf n =
      if s.r_out.toNat = n then 0
      else cell s.r_buf n + sp_hits_r s (Int.tdiv (cell buffer i.toNat) 32)
        (Int.tdiv (cell buffer (i + 1).toNat) 32) n := by
  unfold drained_val sp_hits_r
  rw [drain_val_r_cell, inject_val_r_cell h.2.1]
  rfl

theorem filtered_val_ok {s : Rvb} {buffer : List Int} {i : Int} (h : pair_ok s buffer i) :
    reinject_ok (filtered_val s buffer i).1 ∧
    (filtered_val s buffer i).1.l_buf = (drained_val s buffer i).l_buf ∧
    (filtered_val s buffer i).1.r_buf = (drained_val s buffer i).r_buf ∧
    (filtered_val s buffer i).1.l_in = s.l_in ∧
    (filtered_val s buffer i).1.r_in = s.r_in := by
  have e := filter_val_frame (l_rfl_val s buffer i) (r_rfl_val s buffer i) i
      (drained_val s buffer i) buffer
  refine ⟨?_, e.1, e.2.1, e.2.2.2.2.2.2.2.2.1, e.2.2.2.2.2.2.2.2.2.1⟩
  unfold reinject_ok filtered_val
  rw [e.1, e.2.1, e.2.2.1, e.2.2.2.1, e.2.2.2.2.2.2.2.2.1, e.2.2.2.2.2.2.2.2.2.1]
  unfold drained_val
  rw [(drain_val_length _).1, (drain_val_length _).2, (inject_val_length _ _ _).1,
    (inject_val_length _ _ _).2]
  exact h.2.2.2

theorem pair_val_l_cell {s : Rvb} {buffer : List Int} {i : Int} (h : pair_ok s buffer i)
    (n : Nat) :
    cell (pair_val s buffer i).1.l_buf n = cell (drained_val s buffer i).l_buf n +
      ∑ j : Fin 4, hit (s.l_in j) n (Int.tdiv (cell (pair_val s buffer i).2 (i + 1).toNat) 32) := by
  obtain ⟨a, b, c, d, e⟩ := filtered_val_ok h
  unfold pair_val
  simp only
  rw [reinject_val_l_cell a, b, d]

theorem pair_val_r_cell {s : Rvb} {buffer : List Int} {i : Int} (h : pair_ok s buffer i)
    (n : Nat) :
    cell (pair_val s buffer i).1.r_buf n = cell (drained_val s buffer i).r_buf n +
      ∑ j : Fin 4, hit (s.r_in j) n (Int.tdiv (cell (pair_val s buffer i).2 i.toNat) 32) := by
  obtain ⟨a, b, c, d, e⟩ := filtered_val_ok h
  unfold pair_val
  simp only
  rw [reinject_val_r_cell a, c, e]

theorem cell_ext {a b : List Int} (hl : a.length = b.length) (hc : ∀ n, cell a n = cell b n) :
    a = b := by
  apply List.ext_getElem hl
  intro n h1 h2
  have := hc n
  simpa [cell, List.getElem?_eq_getElem h1, List.getElem?_eq_getElem h2] using this

theorem cell_of_le {a : List Int} {n : Nat} (h : a.length ≤ n) : cell a n = 0 := by
  simp [cell, List.getElem?_eq_none h]

theorem cell_zero_iff (a : List Int) : (∀ x ∈ a, x = 0) ↔ ∀ n, cell a n = 0 := by
  constructor
  · intro h n
    by_cases hn : n < a.length
    · have : cell a n = a[n] := by simp [cell, List.getElem?_eq_getElem hn]
      rw [this]
      exact h _ (List.getElem_mem hn)
    · exact cell_of_le (not_lt.mp hn)
  · intro h x hx
    obtain ⟨n, hn, rfl⟩ := List.getElem_of_mem hx
    have := h n
    simpa [cell, List.getElem?_eq_getElem hn] using this

theorem zeroed_length (k i : Nat) (buf : List Int) : (zeroed k i buf).length = buf.length := by
  induction k generalizing i buf with
  | zero => rfl
  | succ k ih => simp [zeroed, ih]

theorem zeroed_cell (k i : Nat) (buf : List Int) (m : Nat) :
    cell (zeroed k i buf) m = if i ≤ m ∧ m < i + k then 0 else cell buf m := by
  induction k generalizing i buf with
  | zero =>
    have : ¬ (i ≤ m ∧ m < i) := by omega
    simp [zeroed, this]
  | succ k ih =>
    simp only [zeroed, ih, cell_set]
    by_cases h1 : i = m
    · subst h1
      by_cases h2 : i < buf.length
      · simp [h2]
      · simp [h2, cell_of_le (not_lt.mp h2)]
    · by_cases h3 : i + 1 ≤ m ∧ m < i + 1 + k
      · have : i ≤ m ∧ m < i + (k + 1) := by omega
        simp [h3, this]
      · have : ¬ (i ≤ m ∧ m < i + (k + 1)) := by omega
        simp [h3, this, h1]

theorem zero_cells_iff (fuel : Nat) (i n : Int) (buf b : List Int) (hi : 0 ≤ i)
    (hf : (n - i).toNat ≤ fuel) :
    zero_cells fuel i n buf = some b ↔
      (i < n → n.toNat ≤ buf.length) ∧ b = zeroed (n - i).toNat i.toNat buf := by
  induction fuel generalizing i buf with
  | zero =>
    have hn : ¬ i < n := by omega
    have h0 : (n - i).toNat = 0 := by omega
    simp [zero_cells, hn, h0, zeroed, eq_comm]
  | succ fuel ih =>
    unfold zero_cells
    by_cases hlt : i < n
    · simp only [hlt, if_true, Option.bind_eq_some, forall_const]
      have hk : (n - i).toNat = (n - (i + 1)).toNat + 1 := by omega
      have hi1 : (i + 1).toNat = i.toNat + 1 := by omega
      constructor
      · rintro ⟨b1, hb1, h⟩
        obtain ⟨_, h1, rfl⟩ := store_eq_some hb1
        obtain ⟨h2, rfl⟩ := (ih (i + 1) _ (by omega) (by omega)).mp h
        refine ⟨?_, ?_⟩
        · by_cases h3 : i + 1 < n
          · simpa using h2 h3
          · omega
        · rw [hk, zeroed, hi1]
      · rintro ⟨h1, rfl⟩
        refine ⟨_, store_of_lt 0 hi (by omega), ?_⟩
        rw [ih (i + 1) _ (by omega) (by omega)]
        refine ⟨fun _ => by simpa using h1, ?_⟩
        rw [hk, zeroed, hi1]
    · have h0 : (n - i).toNat = 0 := by omega
      simp [hlt, h0, zeroed, eq_comm]

theorem reset_flt_eq (s : Rvb) :
    reset_flt s = { s with
      l_buf_flt_in := fun _ _ => 0
      l_buf_flt_out := fun _ _ => 0
      r_buf_flt_in := fun _ _ => 0
      r_buf_flt_out := fun _ _ => 0 } := by
  have h : ∀ a : Fin 6 → Fin 2 → Int,
      set2 (set2 (set2 (set2 (set2 (set2 (set2 (set2 (set2 (set2 (set2 (set2 a
        0 0 0) 0 1 0) 1 0 0) 1 1 0) 2 0 0) 2 1 0) 3 0 0) 3 1 0) 4 0 0) 4 1 0) 5 0 0) 5 1 0
        = fun _ _ => 0 := by
    intro a
    funext i j
    fin_cases i <;> fin_cases j <;> simp [set2]
  simp only [reset_flt, List.foldl, reset_flt_cell, h]

theorem reset_iff {s s' : Rvb} :
    reset_reverb s = some s' ↔
      (s.l_buf_size.toNat ≤ s.l_buf.length ∧ s.r_buf_size.toNat ≤ s.r_buf.length) ∧
        s' = reset_val s := by
  unfold reset_reverb
  simp only [Option.bind_eq_some, Option.some.injEq]
  have zl := fun b => zero_cells_iff s.l_buf_size.toNat 0 s.l_buf_size s.l_buf b le_rfl
    (by simp)
  have zr := fun b => zero_cells_iff s.r_buf_size.toNat 0 s.r_buf_size s.r_buf b le_rfl
    (by simp)
  simp only [zl, zr, reset_flt_eq, sub_zero, Int.toNat_zero]
  constructor
  · rintro ⟨l, ⟨h1, rfl⟩, r, ⟨h2, rfl⟩, rfl⟩
    refine ⟨⟨?_, ?_⟩, rfl⟩
    · by_cases h : 0 < s.l_buf_size
      · exact h1 h
      · have : s.l_buf_size.toNat = 0 := by omega
        omega
    · by_cases h : 0 < s.r_buf_size
      · exact h2 h
      · have : s.r_buf_size.toNat = 0 := by omega
        omega
  · rintro ⟨⟨h1, h2⟩, rfl⟩
    exact ⟨_, ⟨fun _ => h1, rfl⟩, _, ⟨fun _ => h2, rfl⟩, rfl⟩

theorem loop_total (size : Int) (P : Int → Rvb → List Int → Prop)
    (hstep : ∀ i s b, P i s b → i < size →
      pair_ok s b i ∧ P (i + 2) (pair_val s b i).1 (pair_val s b i).2) :
    ∀ (fuel : Nat) (i : Int) (s : Rvb) (b : List Int), P i s b → size - i ≤ 2 * fuel →
      ∃ r i', do_reverb_loop fuel i size s b = some r ∧ size ≤ i' ∧ P i' r.1 r.2 := by
  intro fuel
  induction fuel with
  | zero =>
    intro i s b hP hf
    have : ¬ i < size := by omega
    exact ⟨(s, b), i, by simp [do_reverb_loop, this], by omega, hP⟩
  | succ fuel ih =>
    intro i s b hP hf
    unfold do_reverb_loop
    by_cases hlt : i < size
    · obtain ⟨hok, hP'⟩ := hstep i s b hP hlt
      have hpair : do_reverb_pair s b i = some (pair_val s b i) := pair_iff.mpr ⟨hok, rfl⟩
      obtain ⟨r, i', hr, hi', hPr⟩ := ih (i + 2) _ _ hP' (by push_cast at hf ⊢; omega)
      exact ⟨r, i', by simp [hlt, hpair, hr], hi', hPr⟩
    · exact ⟨(s, b), i, by simp [hlt], by omega, hP⟩

theorem loop_inv (size : Int) (P : Int → Rvb → List Int → Prop)
    (hstep : ∀ i s b, P i s b → i < size → pair_ok s b i →
      P (i + 2) (pair_val s b i).1 (pair_val s b i).2) :
    ∀ (fuel : Nat) (i : Int) (s : Rvb) (b : List Int) (r : Rvb × List Int), P i s b →
      do_reverb_loop fuel i size s b = some r → ∃ i', size ≤ i' ∧ P i' r.1 r.2 := by
  intro fuel
  induction fuel with
  | zero =>
    intro i s b r hP h
    unfold do_reverb_loop at h
    split at h
    · simp at h
    · rename_i hlt
      simp at h
      subst h
      exact ⟨i, by omega, hP⟩
  | succ fuel ih =>
    intro i s b r hP h
    unfold do_reverb_loop at h
    split at h
    · rename_i hlt
      obtain ⟨st, hst, h⟩ := Option.bind_eq_some.mp h
      obtain ⟨hok, rfl⟩ := pair_iff.mp hst
      exact ih (i + 2) _ _ r (hstep i s b hP hlt hok) h
    · rename_i hlt
      simp at h
      subst h
      exact ⟨i, by omega, hP⟩

theorem seq_inv (P : Rvb → Prop)
    (hcall : ∀ s b size r, P s → do_reverb s b size = some r → P r.1) :
    ∀ (cs : List (List Int × Int)) (s : Rvb) (q : Rvb × List (List Int)), P s →
      do_reverb_seq s cs = some q → P q.1 := by
  intro cs
  induction cs with
  | nil =>
    intro s q hP h
    simp [do_reverb_seq] at h
    subst h
    exact hP
  | cons c cs ih =>
    intro s q hP h
    unfold do_reverb_seq at h
    obtain ⟨r, hr, h⟩ := Option.bind_eq_some.mp h
    obtain ⟨q', hq', h⟩ := Option.bind_eq_some.mp h
    simp at h
    subst h
    exact ih r.1 q' (hcall s c.1 c.2 r hP hr) hq'

theorem do_reverb_total {s : Rvb} {buffer : List Int} {size : Int} (hs : Safe s)
    (he : 2 ∣ size) (hl : size ≤ buffer.length) :
    ∃ r, do_reverb s buffer size = some r ∧ Safe r.1 ∧ r.2.length = buffer.length := by
  obtain ⟨r, i', hr, -, -, -, hS, hL⟩ := loop_total size
    (fun i s' b' => 2 ∣ i ∧ 0 ≤ i ∧ Safe s' ∧ b'.length = buffer.length)
    (by
      rintro i s' b' ⟨h2, h0, hS, hL⟩ hlt
      have hin : pair_in b' i := by
        refine ⟨h0, ?_⟩
        rw [hL]
        omega
      exact ⟨safe_pair_ok hS hin, by omega, by omega, safe_pair_val hS _ _,
        by rw [(pair_val_length _ _ _).2.2, hL]⟩)
    size.toNat 0 s buffer ⟨by simp, le_rfl, hs, rfl⟩ (by omega)
  exact ⟨r, hr, hS, hL⟩

theorem init_reverb_eq (rate : Int) (coeff : Fin 6 → Fin 5 → Int) (l_mem r_mem : Nat → Int) :
    init_reverb rate coeff l_mem r_mem = some (init_val rate coeff l_mem r_mem) := by
  unfold init_reverb
  rw [reset_iff]
  refine ⟨⟨?_, ?_⟩, rfl⟩
  · simp only [List.length_map, List.length_range]
    omega
  · simp only [List.length_map, List.length_range]
    omega

theorem bit_length_aux_zero (fuel : Nat) : bit_length_aux fuel 0 = 0 := by
  cases fuel <;> simp [bit_length_aux]

theorem bit_length_aux_spec (fuel n : Nat) (h : n ≤ fuel) :
    n < 2 ^ bit_length_aux fuel n ∧ (n ≠ 0 → 2 ^ (bit_length_aux fuel n - 1) ≤ n) := by
  induction fuel generalizing n with
  | zero =>
    have : n = 0 := by omega
    subst this
    simp [bit_length_aux]
  | succ fuel ih =>
    unfold bit_length_aux
    by_cases h0 : n = 0
    · simp [h0]
    · simp only [h0, if_false]
      by_cases h32 : n < 2 ^ 32
      · simp only [h32, if_true]
        obtain ⟨a, b⟩ := ih (n / 2) (by omega)
        refine ⟨?_, fun _ => ?_⟩
        · rw [pow_succ]
          omega
        · simp only [Nat.add_sub_cancel]
          by_cases h2 : n / 2 = 0
          · rw [h2, bit_length_aux_zero]
            simp
            omega
          · have hb := b h2
            have hpos : bit_length_aux fuel (n / 2) ≠ 0 := by
              intro hz
              rw [hz] at a
              simp at a
              exact h2 a
            have : 2 ^ bit_length_aux fuel (n / 2) =
                2 ^ (bit_length_aux fuel (n / 2) - 1) * 2 := by
              rw [← pow_succ]
              congr 1
              omega
            omega
      · simp only [h32, if_false]
        have hm : n / 2 ^ 32 ≠ 0 := by
          have : 2 ^ 32 ≤ n := by omega
          have := Nat.div_pos this (by norm_num : 0 < 2 ^ 32)
          omega
        have hle : n / 2 ^ 32 ≤ fuel := by
          have : n / 2 ^ 32 < n := Nat.div_lt_self (by omega) (by norm_num)
          omega
        obtain ⟨a, b⟩ := ih (n / 2 ^ 32) hle
        have hb := b hm
        have hpos : bit_length_aux fuel (n / 2 ^ 32) ≠ 0 := by
          intro hz
          rw [hz] at a
          simp at a
          exact hm a
        refine ⟨?_, fun _ => ?_⟩
        · rw [pow_add]
          have := Nat.lt_mul_div_succ n (by norm_num : 0 < 2 ^ 32)
          have h3 : 2 ^ 32 * (n / 2 ^ 32 + 1) ≤ 2 ^ 32 * 2 ^ bit_length_aux fuel (n / 2 ^ 32) :=
            Nat.mul_le_mul_left _ a
          rw [mul_comm] at h3
          rw [mul_comm (2 ^ 32)] at this
          omega
        · have e : bit_length_aux fuel (n / 2 ^ 32) + 32 - 1 =
              (bit_length_aux fuel (n / 2 ^ 32) - 1) + 32 := by omega
          rw [e, pow_add]
          have h3 := Nat.mul_le_mul_right (2 ^ 32) hb
          have h4 := Nat.div_mul_le_self n (2 ^ 32)
          omega

theorem bit_length_lt (n : Nat) : n < 2 ^ bit_length n :=
  (bit_length_aux_spec n n le_rfl).1

theorem bit_length_le {n : Nat} (h : n ≠ 0) : 2 ^ (bit_length n - 1) ≤ n :=
  (bit_length_aux_spec n n le_rfl).2 h

theorem bit_length_pos {n : Nat} (h : n ≠ 0) : 0 < bit_length n := by
  by_contra hz
  have := bit_length_lt n
  have e : bit_length n = 0 := by omega
  rw [e] at this
  simp at this
  exact h this

theorem bit_length_mono {n m : Nat} (h : n ≤ m) : bit_length n ≤ bit_length m := by
  by_contra hlt
  have hlt : bit_length m < bit_length n := by omega
  have hn : n ≠ 0 := by
    intro h0
    subst h0
    simp [bit_length, bit_length_aux_zero] at hlt
  have h1 := bit_length_lt m
  have h2 := bit_length_le hn
  have h3 : 2 ^ bit_length m ≤ 2 ^ (bit_length n - 1) :=
    Nat.pow_le_pow_right (by norm_num) (by omega)
  omega

theorem rne_ge (n d : Nat) : n / d ≤ rne n d := by
  unfold rne
  split
  · exact le_rfl
  · split <;> omega

theorem rne_le (n d : Nat) : rne n d ≤ n / d + 1 := by
  unfold rne
  split
  · omega
  · split
    · exact le_rfl
    · have := Nat.mod_lt (n / d) (by norm_num : 2 > 0)
      omega

theorem rne_mono {n n' : Nat} (d : Nat) (h : n ≤ n') : rne n d ≤ rne n' d := by
  have hq : n / d ≤ n' / d := Nat.div_le_div_right h
  rcases Nat.lt_or_ge (n / d) (n' / d) with hlt | hge
  · have := rne_le n d
    have := rne_ge n' d
    omega
  · have he : n / d = n' / d := by omega
    have hr : n % d ≤ n' % d := by
      have h1 := Nat.div_add_mod n d
      have h2 := Nat.div_add_mod n' d
      rw [he] at h1
      omega
    unfold rne
    rw [he]
    have := Nat.mod_lt (n' / d) (by norm_num : 2 > 0)
    split <;> split <;> (try split) <;> (try split) <;> omega

theorem rne_le_of_lt {n d m : Nat} (h : n < m * d) : rne n d ≤ m := by
  have hd : 0 < d := by
    rcases Nat.eq_zero_or_pos d with h0 | h0
    · subst h0
      simp at h
    · exact h0
  have : n / d < m := (Nat.div_lt_iff_lt_mul hd).mpr h
  have := rne_le n d
  omega

theorem quantum_mono {p emin n n' d : Nat} (h : n ≤ n') :
    quantum p emin n d ≤ quantum p emin n' d := by
  unfold quantum
  have := bit_length_mono (Nat.div_le_div_right (c := d) h)
  omega

theorem round_fmt_mono {p emin n n' d : Nat} (hp : 1 ≤ p) (hd : 0 < d) (h : n ≤ n') :
    round_fmt p emin n d ≤ round_fmt p emin n' d := by
  have hq := @quantum_mono p emin n n' d h
  unfold round_fmt
  rcases Nat.eq_or_lt_of_le hq with he | hlt
  · rw [he]
    exact Nat.mul_le_mul_right _ (rne_mono _ h)
  · -- the quantum grows: a power of two separates the two results
    set q := quantum p emin n d with hqd
    set q' := quantum p emin n' d with hqd'
    have hq'1 : q' = bit_length (n' / d) - p := by
      have : emin ≤ q := by rw [hqd]; unfold quantum; omega
      rw [hqd']
      unfold quantum
      rw [hqd'] at hlt
      unfold quantum at hlt
      omega
    have hbl' : bit_length (n' / d) = q' + p := by omega
    have hn'0 : n' / d ≠ 0 := by
      intro h0
      rw [h0] at hbl'
      simp [bit_length, bit_length_aux_zero] at hbl'
      omega
    have hlow : 2 ^ (q' + p - 1) ≤ n' / d := by
      have := bit_length_le hn'0
      rwa [hbl'] at this
    have hbl : bit_length (n / d) ≤ q' + p - 1 := by
      have : bit_length (n / d) - p ≤ q := by rw [hqd]; unfold quantum; omega
      omega
    have hup : n / d < 2 ^ (q' + p - 1) :=
      lt_of_lt_of_le (bit_length_lt _) (Nat.pow_le_pow_right (by norm_num) hbl)
    -- upper bound for the smaller argument
    have e1 : 2 ^ (q' + p - 1) = 2 ^ (q' + p - 1 - q) * 2 ^ q := by
      rw [← pow_add]
      congr 1
      omega
    have h1 : rne n (d * 2 ^ q) ≤ 2 ^ (q' + p - 1 - q) := by
      apply rne_le_of_lt
      have : n < 2 ^ (q' + p - 1) * d := by
        have := (Nat.div_lt_iff_lt_mul hd).mp hup
        exact this
      calc n < 2 ^ (q' + p - 1) * d := this
        _ = 2 ^ (q' + p - 1 - q) * (d * 2 ^ q) := by rw [e1]; ring
    have h1' : rne n (d * 2 ^ q) * 2 ^ q ≤ 2 ^ (q' + p - 1) := by
      rw [e1]
      exact Nat.mul_le_mul_right _ h1
    -- lower bound for the larger argument
    have e2 : 2 ^ (q' + p - 1) = 2 ^ (p - 1) * 2 ^ q' := by
      rw [← pow_add]
      congr 1
      omega
    have h2 : 2 ^ (p - 1) ≤ n' / (d * 2 ^ q') := by
      rw [Nat.le_div_iff_mul_le (by positivity)]
      have := (Nat.le_div_iff_mul_le hd).mp hlow
      calc 2 ^ (p - 1) * (d * 2 ^ q') = 2 ^ (q' + p - 1) * d := by rw [e2]; ring
        _ ≤ n' := this
    have h2' : 2 ^ (q' + p - 1) ≤ rne n' (d * 2 ^ q') * 2 ^ q' := by
      rw [e2]
      exact Nat.mul_le_mul_right _ (le_trans h2 (rne_ge _ _))
    exact le_trans h1' h2'

set_option maxRecDepth 100000 in
theorem geom_coefs :
    (∀ k, d_div (geom.SPL_DST k) (lit 34029 100) = coef_SPL k) ∧
    (∀ k, d_div (geom.SPR_DST k) (lit 34029 100) = coef_SPR k) ∧
    (∀ k, d_div (geom.RFN_DST k) (lit 34029 100) = coef_RFN k) ∧
    geom.MAXL_DST = geom.RFN_DST 3 ∧ geom.MAXR_DST = geom.RFN_DST 4 := by
  decide!

theorem delay_len_geom (rate : Int) :
    (∀ k, delay_len rate (geom.SPL_DST k) = scale_len rate (coef_SPL k)) ∧
    (∀ k, delay_len rate (geom.SPR_DST k) = scale_len rate (coef_SPR k)) ∧
    (∀ k, delay_len rate (geom.RFN_DST k) = scale_len rate (coef_RFN k)) ∧
    delay_len rate geom.MAXL_DST = scale_len rate (coef_RFN 3) ∧
    delay_len rate geom.MAXR_DST = scale_len rate (coef_RFN 4) := by
  obtain ⟨h1, h2, h3, h4, h5⟩ := geom_coefs
  unfold delay_len scale_len
  rw [h4, h5]
  simp only [h1, h2, h3, implies_true, and_self]

theorem round_signed_of_nonneg {p emin : Nat} {n : Int} {d : Nat} (h : 0 ≤ n) :
    round_signed p emin n d = ((round_fmt p emin n.toNat d : Nat) : Int) := by
  unfold round_signed
  have : ¬ n < 0 := by omega
  have e : n.natAbs = n.toNat := by omega
  simp only [this, if_false, e]

theorem round_signed_nonneg {p emin : Nat} {n : Int} {d : Nat} (h : 0 ≤ n) :
    0 ≤ round_signed p emin n d := by
  rw [round_signed_of_nonneg h]
  exact Int.ofNat_nonneg _

theorem round_signed_mono {p emin : Nat} {n n' : Int} {d : Nat} (hp : 1 ≤ p) (hd : 0 < d)
    (h0 : 0 ≤ n) (h : n ≤ n') : round_signed p emin n d ≤ round_signed p emin n' d := by
  rw [round_signed_of_nonneg h0, round_signed_of_nonneg (le_trans h0 h)]
  exact Int.ofNat_le.mpr (round_fmt_mono hp hd (by omega))

theorem one_units_pos : 0 < one_units := by
  unfold one_units
  positivity

theorem float_of_int_nonneg {rate : Int} (h : 0 ≤ rate) : 0 ≤ float_of_int rate := by
  unfold float_of_int to_float
  exact round_signed_nonneg (mul_nonneg h (Int.ofNat_nonneg _))

theorem int_of_double_mono {x y : Int} (h0 : 0 ≤ x) (h : x ≤ y) :
    0 ≤ int_of_double x ∧ int_of_double x ≤ int_of_double y := by
  unfold int_of_double
  have hu : (0 : Int) < one_units := Int.ofNat_pos.mpr one_units_pos
  rw [Int.tdiv_eq_ediv h0 (le_of_lt hu), Int.tdiv_eq_ediv (le_trans h0 h) (le_of_lt hu)]
  exact ⟨Int.ediv_nonneg h0 (le_of_lt hu), Int.ediv_le_ediv hu h⟩

theorem scale_len_mono {rate c c' : Int} (hr : 0 ≤ rate) (hc : 0 ≤ c) (h : c ≤ c') :
    0 ≤ scale_len rate c ∧ scale_len rate c ≤ scale_len rate c' := by
  unfold scale_len d_mul to_double
  have hF := float_of_int_nonneg hr
  exact int_of_double_mono (round_signed_nonneg (mul_nonneg hF hc))
    (round_signed_mono (by norm_num) one_units_pos (mul_nonneg hF hc)
      (mul_le_mul_of_nonneg_left h hF))

set_option maxRecDepth 100000 in
theorem coef_bounds :
    (∀ k : Fin 8, 0 ≤ coef_SPL k ∧ coef_SPL k ≤ (if k.val < 4 then coef_RFN 3 else coef_RFN 4)) ∧
    (∀ k : Fin 8, 0 ≤ coef_SPR k ∧ coef_SPR k ≤ (if k.val < 4 then coef_RFN 3 else coef_RFN 4)) ∧
    (∀ k : Fin 8, 0 ≤ coef_RFN k ∧ coef_RFN k ≤ (if k.val < 4 then coef_RFN 3 else coef_RFN 4)) := by
  decide!
set_option maxRecDepth 100000 in
theorem scale_20 :
    (∀ k, scale_len 20 (coef_SPL k) = ![0, 0, 1, 2, 3, 2, 3, 1] k) ∧
    (∀ k, scale_len 20 (coef_SPR k) = ![0, 0, 1, 2, 3, 2, 2, 1] k) ∧
    (∀ k, scale_len 20 (coef_RFN k) = ![1, 0, 1, 2, 3, 2, 3, 2] k) := by
  decide!

theorem delays_20 :
    delay_len 20 geom.MAXL_DST = 2 ∧ delay_len 20 geom.MAXR_DST = 3 ∧
    (∀ k, delay_len 20 (geom.SPL_DST k) = ![0, 0, 1, 2, 3, 2, 3, 1] k) ∧
    (∀ k, delay_len 20 (geom.SPR_DST k) = ![0, 0, 1, 2, 3, 2, 2, 1] k) ∧
    (∀ k, delay_len 20 (geom.RFN_DST k) = ![1, 0, 1, 2, 3, 2, 3, 2] k) := by
  obtain ⟨g1, g2, g3, g4, g5⟩ := delay_len_geom 20
  obtain ⟨s1, s2, s3⟩ := scale_20
  refine ⟨by rw [g4, s3]; rfl, by rw [g5, s3]; rfl, ?_, ?_, ?_⟩
  · intro k
    rw [g1, s1]
  · intro k
    rw [g2, s2]
  · intro k
    rw [g3, s3]

theorem init_reverb_20 (coeff : Fin 6 → Fin 5 → Int) (l_mem r_mem : Nat → Int) :
    init_reverb 20 coeff l_mem r_mem = some (room20 coeff (l_mem 2) (r_mem 3)) := by
  rw [init_reverb_eq]
  obtain ⟨h1, h2, h3, h4, h5⟩ := delays_20
  have e1 : zeroed (2 : Int).toNat 0 ((List.range ((2 : Int) + 1).toNat).map l_mem)
      = [0, 0, l_mem 2] := rfl
  have e2 : zeroed (3 : Int).toNat 0 ((List.range ((3 : Int) + 1).toNat).map r_mem)
      = [0, 0, 0, r_mem 3] := rfl
  have e3 : (fun j : Fin 4 => (![1, 0, 1, 2, 3, 2, 3, 2] : Fin 8 → Int) (lo4 j))
      = ![1, 0, 1, 2] := by
    funext j
    fin_cases j <;> rfl
  have e4 : (fun j : Fin 4 => (![1, 0, 1, 2, 3, 2, 3, 2] : Fin 8 → Int) (hi4 j))
      = ![3, 2, 3, 2] := by
    funext j
    fin_cases j <;> rfl
  unfold init_val room20
  simp only [h1, h2, h3, h4, h5, e1, e2, e3, e4]

/-! ## Claims -/

/-- C7 (frame of `reset_reverb`).  On every record on which `reset_reverb` is defined, that
is whose two blocks hold at least `l_buf_size` and `r_buf_size` cells, it returns a
record with the same cursors `l_out`, `r_out`, `l_sp_in`, `r_sp_in`, `l_in`, `r_in`, the
same coefficient table, the same two ring sizes and the same gain. -/
theorem reset_reverb_frame (s : Rvb) (hl : s.l_buf_size.toNat ≤ s.l_buf.length)
    (hr : s.r_buf_size.toNat ≤ s.r_buf.length) :
    ∃ s', reset_reverb s = some s' ∧
      s'.l_out = s.l_out ∧ s'.r_out = s.r_out ∧ s'.l_sp_in = s.l_sp_in ∧
      s'.r_sp_in = s.r_sp_in ∧ s'.l_in = s.l_in ∧ s'.r_in = s.r_in ∧
      s'.coeff = s.coeff ∧ s'.l_buf_size = s.l_buf_size ∧ s'.r_buf_size = s.r_buf_size ∧
      s'.gain = s.gain :=
  ⟨reset_val s, reset_iff.mpr ⟨⟨hl, hr⟩, rfl⟩, rfl, rfl, rfl, rfl, rfl, rfl, rfl, rfl, rfl, rfl⟩

/-- Witness of C7 on the record of rate 20 after one processed pair. -/
theorem reset_reverb_frame_witness :
    ∃ s', reset_reverb (pair_val (room20 coeff_44100 5 6) [10000, -7000] 0).1 = some s' ∧
      s'.l_out = 1 ∧ s'.r_out = 1 ∧ s'.l_in = ![0, 1, 0, 1] ∧ s'.l_buf_size = 2 ∧
      s'.gain = 4 := by
  obtain ⟨s', h, a1, a2, _, _, a5, _, _, a8, _, a10⟩ :=
    reset_reverb_frame (pair_val (room20 coeff_44100 5 6) [10000, -7000] 0).1
      (by decide) (by decide)
  refine ⟨s', h, ?_, ?_, ?_, ?_, ?_⟩
  · rw [a1]; decide
  · rw [a2]; decide
  · rw [a5]; decide
  · rw [a8]; decide
  · rw [a10]; decide

theorem reset_val_idem (s : Rvb) : reset_val (reset_val s) = reset_val s := by
  have hz : ∀ (n : Nat) (buf : List Int), zeroed n 0 (zeroed n 0 buf) = zeroed n 0 buf := by
    intro n buf
    apply cell_ext
    · simp [zeroed_length]
    · intro m
      simp only [zeroed_cell]
      split <;> rfl
  unfold reset_val
  simp only [hz]

/-- C8 (reset idempotence).  For every record `s`, running `reset_reverb` on the result of
`reset_reverb s` gives the same outcome as `reset_reverb s` alone (the same record, or
no result where the first call already leaves the blocks), and on every record whose
blocks hold the ring sizes both are defined. -/
theorem reset_reverb_idempotent (s : Rvb) :
    (reset_reverb s).bind reset_reverb = reset_reverb s ∧
    (s.l_buf_size.toNat ≤ s.l_buf.length → s.r_buf_size.toNat ≤ s.r_buf.length →
      ∃ s', reset_reverb s = some s' ∧ reset_reverb s' = some s') := by
  have key : ∀ s', reset_reverb s = some s' → reset_reverb s' = some s' := by
    intro s' h
    obtain ⟨⟨h1, h2⟩, rfl⟩ := reset_iff.mp h
    rw [reset_iff]
    refine ⟨⟨?_, ?_⟩, (reset_val_idem s).symm⟩
    · simpa [reset_val, zeroed_length] using h1
    · simpa [reset_val, zeroed_length] using h2
  constructor
  · cases h : reset_reverb s with
    | none => rfl
    | some s' => simpa using key s' h
  · intro hl hr
    exact ⟨reset_val s, reset_iff.mpr ⟨⟨hl, hr⟩, rfl⟩, key _ (reset_iff.mpr ⟨⟨hl, hr⟩, rfl⟩)⟩

/-- Witness of C8 on the record of rate 20 after one processed pair. -/
theorem reset_reverb_idempotent_witness :
    ∃ s', reset_reverb (pair_val (room20 coeff_44100 5 6) [10000, -7000] 0).1 = some s' ∧
      reset_reverb s' = some s' :=
  (reset_reverb_idempotent (pair_val (room20 coeff_44100 5 6) [10000, -7000] 0).1).2
    (by decide) (by decide)

theorem do_reverb_frame_call (s : Rvb) (buffer : List Int) (size : Int) (r : Rvb × List Int)
    (h : do_reverb s buffer size = some r) :
    r.1.l_buf_size = s.l_buf_size ∧ r.1.r_buf_size = s.r_buf_size ∧
    r.1.coeff = s.coeff ∧ r.1.gain = s.gain := by
  obtain ⟨_, -, hP⟩ := loop_inv size
    (fun _ s' _ => s'.l_buf_size = s.l_buf_size ∧ s'.r_buf_size = s.r_buf_size ∧
      s'.coeff = s.coeff ∧ s'.gain = s.gain)
    (by
      rintro i s' b' ⟨h1, h2, h3, h4⟩ _ _
      obtain ⟨f1, f2, f3, f4⟩ := pair_val_frame s' b' i
      exact ⟨f1.trans h1, f2.trans h2, f3.trans h3, f4.trans h4⟩)
    size.toNat 0 s buffer r ⟨rfl, rfl, rfl, rfl⟩ h
  exact hP

/-- C10 (frame of `do_reverb`).  For every record, sample block and `size`: whenever
`do_reverb` returns, the returned record has the same `l_buf_size`, `r_buf_size`,
coefficient table and gain; the same holds after any sequence of calls; and `do_reverb`
does return on every memory-safe record for an even `size` within the block. -/
theorem do_reverb_frame (s : Rvb) (buffer : List Int) (size : Int)
    (calls : List (List Int × Int)) :
    (∀ r, do_reverb s buffer size = some r →
      r.1.l_buf_size = s.l_buf_size ∧ r.1.r_buf_size = s.r_buf_size ∧
      r.1.coeff = s.coeff ∧ r.1.gain = s.gain) ∧
    (∀ q, do_reverb_seq s calls = some q →
      q.1.l_buf_size = s.l_buf_size ∧ q.1.r_buf_size = s.r_buf_size ∧
      q.1.coeff = s.coeff ∧ q.1.gain = s.gain) ∧
    (Safe s → 2 ∣ size → size ≤ buffer.length → ∃ r, do_reverb s buffer size = some r) := by
  refine ⟨do_reverb_frame_call s buffer size, ?_, ?_⟩
  · intro q hq
    exact seq_inv
      (fun s' => s'.l_buf_size = s.l_buf_size ∧ s'.r_buf_size = s.r_buf_size ∧
        s'.coeff = s.coeff ∧ s'.gain = s.gain)
      (by
        rintro s' b n r ⟨h1, h2, h3, h4⟩ hr
        obtain ⟨f1, f2, f3, f4⟩ := do_reverb_frame_call s' b n r hr
        exact ⟨f1.trans h1, f2.trans h2, f3.trans h3, f4.trans h4⟩)
      calls s q ⟨rfl, rfl, rfl, rfl⟩ hq
  · intro hs he hl
    obtain ⟨r, hr, _⟩ := do_reverb_total hs he hl
    exact ⟨r, hr⟩

/-- Witness of C10: two pairs through the record of rate 20. -/
theorem do_reverb_frame_witness :
    ∃ r, do_reverb (room20 coeff_44100 5 6) [10000, -7000, -3, 40] 4 = some r ∧
      r.1.l_buf_size = 2 ∧ r.1.r_buf_size = 3 ∧ r.1.coeff = coeff_44100 ∧ r.1.gain = 4 := by
  obtain ⟨h1, _, h3⟩ :=
    do_reverb_frame (room20 coeff_44100 5 6) [10000, -7000, -3, 40] 4 []
  obtain ⟨r, hr⟩ := h3 (by decide) (by decide) (by decide)
  exact ⟨r, hr, h1 r hr⟩

theorem hit_zero (c : Int) (n : Nat) : hit c n 0 = 0 := by
  unfold hit
  split <;> rfl

theorem long_wrap_fit {x : Int} (h : in_long x) : long_wrap x = x := by
  unfold in_long at h
  unfold long_wrap
  omega

theorem long_wrap_range (x : Int) : in_long (long_wrap x) := by
  unfold in_long long_wrap
  omega

theorem long_wrap_add (a b : Int) : long_wrap (long_wrap a + b) = long_wrap (a + b) := by
  unfold long_wrap
  omega

theorem long_wrap_add_right (a b : Int) : long_wrap (a + long_wrap b) = long_wrap (a + b) := by
  unfold long_wrap
  omega

theorem long_wrap_sub (a b : Int) : long_wrap (long_wrap a - b) = long_wrap (a - b) := by
  unfold long_wrap
  omega

theorem long_wrap_sub_right (a b : Int) : long_wrap (a - long_wrap b) = long_wrap (a - b) := by
  unfold long_wrap
  omega

theorem band_out_eq (x : Int) (c : Fin 5 → Int) (hin hout : Fin 2 → Int) :
    band_out x c hin hout = Int.tdiv (long_wrap (band_num x c hin hout)) 1024 := by
  unfold band_out band_num long_sub long_add long_mul
  simp only [long_wrap_sub_right, long_wrap_sub, long_wrap_add_right, long_wrap_add]

theorem band_out_fit {x : Int} {c : Fin 5 → Int} {hin hout : Fin 2 → Int}
    (h : in_long (band_num x c hin hout)) : band_out x c hin hout = band_exact x c hin hout := by
  rw [band_out_eq, long_wrap_fit h]
  rfl

theorem band_out_bound (x : Int) (c : Fin 5 → Int) (hin hout : Fin 2 → Int) :
    -9007199254740992 ≤ band_out x c hin hout ∧ band_out x c hin hout ≤ 9007199254740992 := by
  rw [band_out_eq]
  have h := long_wrap_range (band_num x c hin hout)
  unfold in_long at h
  generalize long_wrap (band_num x c hin hout) = y at h
  by_cases hy : 0 ≤ y
  · rw [Int.tdiv_eq_ediv hy (by norm_num)]
    omega
  · have e : y = -(-y) := by omega
    rw [e, Int.neg_tdiv, Int.tdiv_eq_ediv (by omega) (by norm_num)]
    omega

theorem band_out_zero (c : Fin 5 → Int) (hin hout : Fin 2 → Int)
    (h1 : ∀ m, hin m = 0) (h2 : ∀ m, hout m = 0) : band_out 0 c hin hout = 0 := by
  have e : long_wrap 0 = 0 := by decide
  simp [band_out, long_mul, long_add, long_sub, h1, h2, e]

theorem wet_zero {s : Rvb} (h : hist_zero s) : wet_l s 0 = 0 ∧ wet_r s 0 = 0 := by
  obtain ⟨h1, h2, h3, h4⟩ := h
  unfold wet_l wet_r band_l band_r
  simp only [band_out_zero _ _ _ (h1 _) (h2 _), band_out_zero _ _ _ (h3 _) (h4 _),
    Finset.sum_const_zero, and_self]

theorem shift_zero (h : Fin 2 → Int) (h0 : ∀ m, h m = 0) (m : Fin 2) : shift h 0 m = 0 := by
  unfold shift
  split
  · rfl
  · exact h0 0

theorem pair_val_silent {s : Rvb} {b : List Int} {i : Int} (hok : pair_ok s b i)
    (hb0 : cell b i.toNat = 0) (hb1 : cell b (i + 1).toNat = 0) (hh : hist_zero s)
    (hl : cell s.l_buf s.l_out.toNat = 0) (hr : cell s.r_buf s.r_out.toNat = 0) :
    (pair_val s b i).2 = b ∧ (pair_val s b i).1.l_buf = s.l_buf ∧
      (pair_val s b i).1.r_buf = s.r_buf ∧ hist_zero (pair_val s b i).1 := by
  have e0 : Int.tdiv 0 32 = 0 := by decide
  have hlr : l_rfl_val s b i = 0 := by
    rw [l_rfl_val_eq hok, hb0, hb1, hl]
    simp [sp_hits_l, e0, hit_zero]
  have hrr : r_rfl_val s b i = 0 := by
    rw [r_rfl_val_eq hok, hb0, hb1, hr]
    simp [sp_hits_r, e0, hit_zero]
  have hbuf : ∀ n, cell (pair_val s b i).2 n = cell b n := by
    intro n
    rw [pair_val_buffer_cell hok, hlr, hrr, (wet_zero hh).1, (wet_zero hh).2]
    simp [hit_zero]
  have hB : (pair_val s b i).2 = b := cell_ext (pair_val_length s b i).2.2 hbuf
  refine ⟨hB, ?_, ?_, ?_⟩
  · apply cell_ext (pair_val_length s b i).1
    intro n
    rw [pair_val_l_cell hok, drained_val_l_cell hok, hbuf, hb0, hb1]
    simp only [e0, sp_hits_l, hit_zero, add_zero, Finset.sum_const_zero]
    split
    · rename_i h
      rw [← h, hl]
    · rfl
  · apply cell_ext (pair_val_length s b i).2.1
    intro n
    rw [pair_val_r_cell hok, drained_val_r_cell hok, hbuf, hb0, hb1]
    simp only [e0, sp_hits_r, hit_zero, add_zero, Finset.sum_const_zero]
    split
    · rename_i h
      rw [← h, hr]
    · rfl
  · obtain ⟨h1, h2, h3, h4⟩ := hh
    refine ⟨?_, ?_, ?_, ?_⟩
    · intro j m
      rw [(pair_val_hist s b i j).1, hlr]
      exact shift_zero _ (h1 j) m
    · intro j m
      rw [(pair_val_hist s b i j).2.1, hlr]
      have : band_l s 0 j = 0 := band_out_zero _ _ _ (h1 j) (h2 j)
      rw [this]
      exact shift_zero _ (h2 j) m
    · intro j m
      rw [(pair_val_hist s b i j).2.2.1, hrr]
      exact shift_zero _ (h3 j) m
    · intro j m
      rw [(pair_val_hist s b i j).2.2.2, hrr]
      have : band_r s 0 j = 0 := band_out_zero _ _ _ (h3 j) (h4 j)
      rw [this]
      exact shift_zero _ (h4 j) m

theorem do_reverb_silent {s : Rvb} {b : List Int} (hs : Safe s) (he : 2 ∣ b.length)
    (hb : ∀ n, cell b n = 0) (hl : ∀ n, cell s.l_buf n = 0) (hr : ∀ n, cell s.r_buf n = 0)
    (hh : hist_zero s) :
    ∃ s', do_reverb s b b.length = some (s', b) ∧ Safe s' ∧ s'.l_buf = s.l_buf ∧
      s'.r_buf = s.r_buf ∧ hist_zero s' := by
  obtain ⟨r, i', hr', -, -, -, hS, hB, hL, hR, hH⟩ := loop_total (b.length : Int)
    (fun i s' b' => 2 ∣ i ∧ 0 ≤ i ∧ Safe s' ∧ b' = b ∧ s'.l_buf = s.l_buf ∧
      s'.r_buf = s.r_buf ∧ hist_zero s')
    (by
      rintro i s' b' ⟨h2, h0, hS, rfl, hL, hR, hH⟩ hlt
      have hin : pair_in b' i := ⟨h0, by omega⟩
      have hok := safe_pair_ok hS hin
      obtain ⟨e1, e2, e3, e4⟩ := pair_val_silent hok (hb _) (hb _) hH
        (by rw [hL]; exact hl _) (by rw [hR]; exact hr _)
      exact ⟨hok, by omega, by omega, safe_pair_val hS _ _, e1, e2.trans hL, e3.trans hR, e4⟩)
    (b.length : Int).toNat 0 s b ⟨by simp, le_rfl, hs, rfl, rfl, rfl, hh⟩ (by omega)
  refine ⟨r.1, ?_, hS, hL, hR, hH⟩
  rw [do_reverb, hr', ← hB]

/-- C1 (zero in, zero out).  For every record whose delay cells and filter histories are
all zero and whose cursors index cells of their delay lines (non-zero ring sizes within
the blocks; any coefficients), and for every sequence of even-length all-zero sample
blocks, the calls of `do_reverb` return, leave every block as it was (all zero), and end
in a record whose delay cells and filter histories are all zero. -/
theorem zero_in_zero_out (s : Rvb) (blocks : List (List Int)) (hs : Safe s)
    (hl : ∀ x ∈ s.l_buf, x = 0) (hr : ∀ x ∈ s.r_buf, x = 0) (hh : hist_zero s)
    (hb : ∀ b ∈ blocks, 2 ∣ b.length ∧ ∀ x ∈ b, x = 0) :
    ∃ s', do_reverb_blocks s blocks = some (s', blocks) ∧
      (∀ x ∈ s'.l_buf, x = 0) ∧ (∀ x ∈ s'.r_buf, x = 0) ∧ hist_zero s' := by
  induction blocks generalizing s with
  | nil => exact ⟨s, rfl, hl, hr, hh⟩
  | cons b bs ih =>
    obtain ⟨he, hz⟩ := hb b (List.mem_cons_self _ _)
    obtain ⟨s1, h1, hS1, hL1, hR1, hH1⟩ := do_reverb_silent hs he
      ((cell_zero_iff b).mp hz) ((cell_zero_iff _).mp hl) ((cell_zero_iff _).mp hr) hh
    obtain ⟨s2, h2, hL2, hR2, hH2⟩ := ih s1 hS1 (by rw [hL1]; exact hl)
      (by rw [hR1]; exact hr) hH1 (fun b' hb' => hb b' (List.mem_cons_of_mem _ hb'))
    refine ⟨s2, ?_, hL2, hR2, hH2⟩
    unfold do_reverb_blocks at h2 ⊢
    simp only [List.map_cons, do_reverb_seq, h1]
    simp only [Option.some_bind, h2]

/-- Witness of C1: three silent blocks through the record of rate 20 with zero guard
cells. -/
theorem zero_in_zero_out_witness :
    ∃ s', do_reverb_blocks (room20 coeff_44100 0 0) [[0, 0, 0, 0], [], [0, 0]]
        = some (s', [[0, 0, 0, 0], [], [0, 0]]) ∧
      (∀ x ∈ s'.l_buf, x = 0) ∧ (∀ x ∈ s'.r_buf, x = 0) ∧ hist_zero s' :=
  zero_in_zero_out (room20 coeff_44100 0 0) [[0, 0, 0, 0], [], [0, 0]] (by decide)
    (by decide) (by decide) (by decide) (by decide)

theorem inject_val_gain (tl tr : Int) (s : Rvb) (g : Int) :
    inject_val tl tr { s with gain := g } = { inject_val tl tr s with gain := g } := by
  have e : ∀ (t : Rvb) (j : Fin 4), inject_step_val tl tr { t with gain := g } j =
      { inject_step_val tl tr t j with gain := g } := fun _ _ => rfl
  simp only [inject_val, List.foldl, e]

theorem reinject_val_gain (tl tr : Int) (s : Rvb) (g : Int) :
    reinject_val tl tr { s with gain := g } = { reinject_val tl tr s with gain := g } := by
  have e : ∀ (t : Rvb) (j : Fin 4), reinject_step_val tl tr { t with gain := g } j =
      { reinject_step_val tl tr t j with gain := g } := fun _ _ => rfl
  simp only [reinject_val, List.foldl, e]

theorem filter_val_gain (l r i : Int) (s : Rvb) (b : List Int) (g : Int) :
    filter_val l r i { s with gain := g } b =
      ({ (filter_val l r i s b).1 with gain := g }, (filter_val l r i s b).2) := by
  have e : ∀ (t : Rvb) (c : List Int) (j : Fin 6),
      filter_step_val l r i ({ t with gain := g }, c) j =
      ({ (filter_step_val l r i (t, c) j).1 with gain := g },
        (filter_step_val l r i (t, c) j).2) := fun _ _ _ => rfl
  simp only [filter_val, List.foldl, e]

theorem pair_val_gain (s : Rvb) (buffer : List Int) (i g : Int) :
    pair_val { s with gain := g } buffer i =
      ({ (pair_val s buffer i).1 with gain := g }, (pair_val s buffer i).2) := by
  have e1 : l_rfl_val { s with gain := g } buffer i = l_rfl_val s buffer i := by
    unfold l_rfl_val
    rw [inject_val_gain]
  have e2 : r_rfl_val { s with gain := g } buffer i = r_rfl_val s buffer i := by
    unfold r_rfl_val
    rw [inject_val_gain]
  have e3 : drained_val { s with gain := g } buffer i =
      { drained_val s buffer i with gain := g } := by
    unfold drained_val
    rw [inject_val_gain]
    rfl
  have e4 : filtered_val { s with gain := g } buffer i =
      ({ (filtered_val s buffer i).1 with gain := g }, (filtered_val s buffer i).2) := by
    unfold filtered_val
    rw [e1, e2, e3, filter_val_gain]
  unfold pair_val
  rw [e4]
  simp only [reinject_val_gain]

theorem pair_ok_gain (s : Rvb) (buffer : List Int) (i g : Int) :
    pair_ok { s with gain := g } buffer i ↔ pair_ok s buffer i := Iff.rfl

theorem pair_val_bands {s : Rvb} {buffer : List Int} {i : Int} (hok : pair_ok s buffer i) :
    cell (pair_val s buffer i).2 i.toNat = cell buffer i.toNat + ∑ j : Fin 6,
      band_out (cell (inject_val (Int.tdiv (cell buffer i.toNat) 32)
        (Int.tdiv (cell buffer (i + 1).toNat) 32) s).l_buf s.l_out.toNat) (s.coeff j)
        (s.l_buf_flt_in j) (s.l_buf_flt_out j) ∧
    cell (pair_val s buffer i).2 (i + 1).toNat = cell buffer (i + 1).toNat + ∑ j : Fin 6,
      band_out (cell (inject_val (Int.tdiv (cell buffer i.toNat) 32)
        (Int.tdiv (cell buffer (i + 1).toNat) 32) s).r_buf s.r_out.toNat) (s.coeff j)
        (s.r_buf_flt_in j) (s.r_buf_flt_out j) := by
  obtain ⟨_, _, hne⟩ := pair_in_lt hok.1
  constructor
  · rw [pair_val_buffer_cell hok]
    simp only [hit, if_true, if_neg hne.symm, add_zero]
    rfl
  · rw [pair_val_buffer_cell hok]
    simp only [hit, if_true, if_neg hne, add_zero]
    rfl

theorem partial_sum_fit (old : Int) (f : Fin 6 → Int) (hold : |old| ≤ 4611686018427387904)
    (hf : ∀ j, -9007199254740992 ≤ f j ∧ f j ≤ 9007199254740992) (m : Nat) :
    in_long (partial_sum old f m) := by
  have hb : ∀ j : Fin 6, -9007199254740992 ≤ (if j.val < m then f j else 0) ∧
      (if j.val < m then f j else 0) ≤ 9007199254740992 := by
    intro j
    split
    · exact hf j
    · constructor <;> norm_num
  obtain ⟨o1, o2⟩ := abs_le.mp hold
  unfold partial_sum in_long
  rw [Fin.sum_univ_six]
  have b0 := hb 0
  have b1 := hb 1
  have b2 := hb 2
  have b3 := hb 3
  have b4 := hb 4
  have b5 := hb 5
  constructor <;> omega

/-- C4 as amended (parallel filter bank).  Whenever the body of the sample loop of
`do_reverb` returns for the pair at `buffer[i]`, `buffer[i+1]`, the speaker injection
returned a record `s1`; let `x = s1.l_buf[l_out]` be the value then drained from the left
delay line and, for the band `j`, let `N j = x*coeff[j][0] + in[j][0]*coeff[j][1] +
in[j][1]*coeff[j][2] - out[j][0]*coeff[j][3] - out[j][1]*coeff[j][4]` on the left histories
of the record before the step.
* If none of the six additions `buffer[i] += flt` leaves the range of `signed long int`
  (`partial_sum` is the sample after the first `m` additions), the new left sample is the old
  one plus the sum over the six bands of the value the band expression has in
  `signed long int`, which is `N j` reduced to 64 bits and then divided by 1024 (truncated),
  all bands taking the same `x`; if moreover every `N j` lies in the range of
  `signed long int`, the new left sample is the old one plus the sum over the six bands of
  `N j / 1024` (truncated).
* None of the six additions leaves the range when the old left sample is at most `2^62` in
  magnitude.

Likewise on the right with `r_out` and the right histories.  Changing the gain field changes
neither sample nor any other field, and the body does return on every memory-safe record
for a pair inside the block. -/
theorem filter_bank_output (s : Rvb) (buffer : List Int) (i : Int) :
    (∀ r, do_reverb_pair s buffer i = some r →
      ∃ s1, inject (Int.tdiv (cell buffer i.toNat) 32)
          (Int.tdiv (cell buffer (i + 1).toNat) 32) s = some s1 ∧
        ((∀ m, in_long (partial_sum (cell buffer i.toNat) (fun j =>
            band_out (cell s1.l_buf s.l_out.toNat) (s.coeff j) (s.l_buf_flt_in j)
              (s.l_buf_flt_out j)) m)) →
          cell r.2 i.toNat = cell buffer i.toNat + ∑ j : Fin 6,
            band_out (cell s1.l_buf s.l_out.toNat) (s.coeff j) (s.l_buf_flt_in j)
              (s.l_buf_flt_out j) ∧
          ((∀ j, in_long (band_num (cell s1.l_buf s.l_out.toNat) (s.coeff j)
              (s.l_buf_flt_in j) (s.l_buf_flt_out j))) →
            cell r.2 i.toNat = cell buffer i.toNat + ∑ j : Fin 6,
              band_exact (cell s1.l_buf s.l_out.toNat) (s.coeff j) (s.l_buf_flt_in j)
                (s.l_buf_flt_out j))) ∧
        (|cell buffer i.toNat| ≤ 4611686018427387904 →
          ∀ m, in_long (partial_sum (cell buffer i.toNat) (fun j =>
            band_out (cell s1.l_buf s.l_out.toNat) (s.coeff j) (s.l_buf_flt_in j)
              (s.l_buf_flt_out j)) m)) ∧
        ((∀ m, in_long (partial_sum (cell buffer (i + 1).toNat) (fun j =>
            band_out (cell s1.r_buf s.r_out.toNat) (s.coeff j) (s.r_buf_flt_in j)
              (s.r_buf_flt_out j)) m)) →
          cell r.2 (i + 1).toNat = cell buffer (i + 1).toNat + ∑ j : Fin 6,
            band_out (cell s1.r_buf s.r_out.toNat) (s.coeff j) (s.r_buf_flt_in j)
              (s.r_buf_flt_out j) ∧
          ((∀ j, in_long (band_num (cell s1.r_buf s.r_out.toNat) (s.coeff j)
              (s.r_buf_flt_in j) (s.r_buf_flt_out j))) →
            cell r.2 (i + 1).toNat = cell buffer (i + 1).toNat + ∑ j : Fin 6,
              band_exact (cell s1.r_buf s.r_out.toNat) (s.coeff j) (s.r_buf_flt_in j)
                (s.r_buf_flt_out j))) ∧
        (|cell buffer (i + 1).toNat| ≤ 4611686018427387904 →
          ∀ m, in_long (partial_sum (cell buffer (i + 1).toNat) (fun j =>
            band_out (cell s1.r_buf s.r_out.toNat) (s.coeff j) (s.r_buf_flt_in j)
              (s.r_buf_flt_out j)) m)) ∧
        ∀ g, do_reverb_pair { s with gain := g } buffer i =
          some ({ r.1 with gain := g }, r.2)) ∧
    (Safe s → pair_in buffer i → ∃ r, do_reverb_pair s buffer i = some r) := by
  constructor
  · intro r h
    obtain ⟨hok, rfl⟩ := pair_iff.mp h
    obtain ⟨e1, e2⟩ := pair_val_bands hok
    refine ⟨_, inject_iff.mpr ⟨hok.2.1, rfl⟩, fun _ => ⟨e1, fun hn => ?_⟩, fun hold => ?_,
      fun _ => ⟨e2, fun hn => ?_⟩, fun hold => ?_, ?_⟩
    · rw [e1]
      exact congrArg _ (Finset.sum_congr rfl (fun j _ => band_out_fit (hn j)))
    · exact partial_sum_fit _ _ hold (fun j => band_out_bound _ _ _ _)
    · rw [e2]
      exact congrArg _ (Finset.sum_congr rfl (fun j _ => band_out_fit (hn j)))
    · exact partial_sum_fit _ _ hold (fun j => band_out_bound _ _ _ _)
    · intro g
      rw [pair_iff]
      exact ⟨(pair_ok_gain s buffer i g).mpr hok, (pair_val_gain s buffer i g).symm⟩
  · intro hs hin
    exact ⟨_, pair_iff.mpr ⟨safe_pair_ok hs hin, rfl⟩⟩

/-- Witness of C4 as amended: the pair `[10000, -7000]` through the record of rate 20 with
the table of the rate 44100.  The left line drains `2 * 312 - 2 * 218 = 188`, no addition
leaves the range, every band numerator lies in the range of `signed long int`, and the six
bands add `188 + 184 + 173 + 142 + 88 + 36 = 811` to the left sample, by the formula over
the integers. -/
theorem filter_bank_output_witness :
    ∃ r s1, do_reverb_pair (room20 coeff_44100 5 6) [10000, -7000] 0 = some r ∧
      inject (Int.tdiv 10000 32) (Int.tdiv (-7000) 32) (room20 coeff_44100 5 6) = some s1 ∧
      cell s1.l_buf 0 = 188 ∧
      cell r.2 0 = 10000 + ∑ j : Fin 6, band_exact 188 (coeff_44100 j) (fun _ => 0) (fun _ => 0) ∧
      cell r.2 0 = 10811 ∧
      ∀ g, do_reverb_pair { room20 coeff_44100 5 6 with gain := g } [10000, -7000] 0 =
        some ({ r.1 with gain := g }, r.2) := by
  obtain ⟨h1, h2⟩ := filter_bank_output (room20 coeff_44100 5 6) [10000, -7000] 0
  obtain ⟨r, hr⟩ := h2 (by decide) (by decide)
  obtain ⟨s1, hs1, hl, hfit, _, _, hg⟩ := h1 r hr
  have hx : (inject (Int.tdiv 10000 32) (Int.tdiv (-7000) 32) (room20 coeff_44100 5 6)).map
      (fun t => cell t.l_buf 0) = some 188 := by decide
  have hs1b : inject (Int.tdiv 10000 32) (Int.tdiv (-7000) 32) (room20 coeff_44100 5 6)
      = some s1 := hs1
  rw [hs1b] at hx
  have ex : cell s1.l_buf 0 = 188 := by simpa using hx
  have e := (hl (hfit (by decide))).2 (by
    intro j
    have : cell s1.l_buf (room20 coeff_44100 5 6).l_out.toNat = 188 := ex
    rw [this]
    revert j
    decide)
  have ex2 : cell s1.l_buf (room20 coeff_44100 5 6).l_out.toNat = 188 := ex
  rw [ex2] at e
  have e2 : cell r.2 0 = 10000 + ∑ j : Fin 6, band_exact 188 (coeff_44100 j) (fun _ => 0)
      (fun _ => 0) := e
  exact ⟨r, s1, hr, hs1, ex, e2, e2.trans (by decide), hg⟩

/-- Counterexample to C4 as stated, on the record `init_reverb(20)` returns with its own
coefficient table, whose bands 1 to 5 have the coefficients `(-2^63, 0, -2^63, 0, -2^63)`.
For the pair `[10000, 0]` the left line drains `x = 2 * 312 = 624`.  The numerator
`624 * -2^63` of each of the bands 1 to 5 is outside the range of `signed long int`, where
the product is `0`; so these bands add nothing and the new left sample is
`10000 + 624 = 10624`, while the formula of the claim over the integers gives
`10624 - 5 * 624 * 2^53`. -/
theorem filter_bank_output_counterexample :
    ∃ s s1 r, init_reverb 20 coeff_20 (fun _ => 0) (fun _ => 0) = some s ∧
      inject (Int.tdiv 10000 32) (Int.tdiv 0 32) s = some s1 ∧
      do_reverb_pair s [10000, 0] 0 = some r ∧
      cell s1.l_buf s.l_out.toNat = 624 ∧ cell r.2 0 = 10624 ∧
      ¬ in_long (band_num (cell s1.l_buf s.l_out.toNat) (s.coeff 1) (s.l_buf_flt_in 1)
        (s.l_buf_flt_out 1)) ∧
      10000 + ∑ j : Fin 6, band_exact (cell s1.l_buf s.l_out.toNat) (s.coeff j)
        (s.l_buf_flt_in j) (s.l_buf_flt_out j) = 10624 - 5 * 624 * 2 ^ 53 ∧
      cell r.2 0 ≠ 10000 + ∑ j : Fin 6, band_exact (cell s1.l_buf s.l_out.toNat) (s.coeff j)
        (s.l_buf_flt_in j) (s.l_buf_flt_out j) := by
  have h1 : (inject (Int.tdiv 10000 32) (Int.tdiv 0 32) (room20 coeff_20 0 0)).isSome := by
    decide
  have h2 : (do_reverb_pair (room20 coeff_20 0 0) [10000, 0] 0).isSome := by decide
  obtain ⟨s1, hs1⟩ := Option.isSome_iff_exists.mp h1
  obtain ⟨r, hr⟩ := Option.isSome_iff_exists.mp h2
  have h3 : (inject (Int.tdiv 10000 32) (Int.tdiv 0 32) (room20 coeff_20 0 0)).map
      (fun t => cell t.l_buf 0) = some 624 := by decide
  have h4 : (do_reverb_pair (room20 coeff_20 0 0) [10000, 0] 0).map (fun r => cell r.2 0)
      = some 10624 := by decide
  rw [hs1] at h3
  rw [hr] at h4
  have e3 : cell s1.l_buf (room20 coeff_20 0 0).l_out.toNat = 624 := by simpa using h3
  have e4 : cell r.2 0 = 10624 := by simpa using h4
  have e5 : 10000 + ∑ j : Fin 6, band_exact 624 ((room20 coeff_20 0 0).coeff j)
      ((room20 coeff_20 0 0).l_buf_flt_in j) ((room20 coeff_20 0 0).l_buf_flt_out j)
      = 10624 - 5 * 624 * 2 ^ 53 := by decide
  refine ⟨_, s1, r, init_reverb_20 _ _ _, hs1, hr, e3, e4, ?_, ?_, ?_⟩
  · rw [e3]
    decide
  · rw [e3]
    exact e5
  · rw [e3, e4, e5]
    decide

/-- C5 (cross-channel re-injection).  Whenever the body of the sample loop returns the
record `r.1` and the block `r.2` for the pair at `i`: the first half of the body returned
a record `d` (after injection and draining), the filter loop returned a record `f` with the
block `r.2`, and the re-injection loop applied to `f` with `r.2[i+1] / 32` for the left
line and `r.2[i] / 32` for the right line (the wet-inclusive samples, division truncating
toward zero) returned `r.1`.  Every cell `n` of the left line gained `r.2[i+1] / 32` once
for each of the four cursors `l_in[j]` equal to `n`, every cell of the right line gained
`r.2[i] / 32` once for each cursor `r_in[j]` equal to `n`, and each cursor became
`(cursor + 1) % size` of its ring.  The body returns on every memory-safe record for a
pair inside the block. -/
theorem cross_reinjection (s : Rvb) (buffer : List Int) (i : Int) :
    (∀ r, do_reverb_pair s buffer i = some r →
      ∃ d f, pair_drain s buffer i = some d ∧ filter d.1 d.2.1 i d.2.2 buffer = some (f, r.2) ∧
        reinject (Int.tdiv (cell r.2 (i + 1).toNat) 32) (Int.tdiv (cell r.2 i.toNat) 32) f
          = some r.1 ∧
        f.l_buf = d.2.2.l_buf ∧ f.r_buf = d.2.2.r_buf ∧ f.l_in = s.l_in ∧ f.r_in = s.r_in ∧
        (∀ n, cell r.1.l_buf n = cell f.l_buf n +
          ∑ j : Fin 4, hit (s.l_in j) n (Int.tdiv (cell r.2 (i + 1).toNat) 32)) ∧
        (∀ n, cell r.1.r_buf n = cell f.r_buf n +
          ∑ j : Fin 4, hit (s.r_in j) n (Int.tdiv (cell r.2 i.toNat) 32)) ∧
        (∀ j, r.1.l_in j = Int.tmod (s.l_in j + 1) s.l_buf_size) ∧
        (∀ j, r.1.r_in j = Int.tmod (s.r_in j + 1) s.r_buf_size)) ∧
    (Safe s → pair_in buffer i → ∃ r, do_reverb_pair s buffer i = some r) ∧
    Int.tdiv (-31) 32 = 0 ∧ Int.tdiv (-33) 32 = -1 := by
  refine ⟨?_, ?_, by decide, by decide⟩
  · intro r h
    obtain ⟨hok, rfl⟩ := pair_iff.mp h
    obtain ⟨a, b, c, d, e⟩ := filtered_val_ok hok
    refine ⟨(l_rfl_val s buffer i, r_rfl_val s buffer i, drained_val s buffer i),
      (filtered_val s buffer i).1, pair_drain_iff.mpr ⟨⟨hok.1, hok.2.1, hok.2.2.1⟩, rfl⟩,
      ?_, ?_, b, c, d, e, ?_, ?_, ?_, ?_⟩
    · rw [filter_iff]
      exact ⟨hok.1, by unfold pair_val filtered_val; rfl⟩
    · rw [reinject_iff]
      exact ⟨a, by unfold pair_val; rfl⟩
    · intro n
      rw [pair_val_l_cell hok, b]
    · intro n
      rw [pair_val_r_cell hok, c]
    · intro j
      exact (pair_val_cursors s buffer i).2.2.2.2.1 j
    · intro j
      exact (pair_val_cursors s buffer i).2.2.2.2.2 j
  · intro hs hin
    exact ⟨_, pair_iff.mpr ⟨safe_pair_ok hs hin, rfl⟩⟩

/-- Witness of C5: the pair `[10000, -7000]` through the record of rate 20.  The samples
become `[10811, -7000]`; the left line gains `-7000 / 32 = -218` at `l_in = 1, 0, 1, 2`
and the right line `10811 / 32 = 337` at `r_in = 3, 2, 3, 2`. -/
theorem cross_reinjection_witness :
    ∃ r, do_reverb_pair (room20 coeff_44100 5 6) [10000, -7000] 0 = some r ∧
      r.2 = [10811, -7000] ∧ r.1.l_buf = [-218, -342, -119] ∧ r.1.r_buf = [0, 94, 550, 1086] ∧
      (∀ j, r.1.l_in j = ![0, 1, 0, 1] j) ∧ (∀ j, r.1.r_in j = ![1, 0, 1, 0] j) := by
  obtain ⟨h1, h2, _, _⟩ := cross_reinjection (room20 coeff_44100 5 6) [10000, -7000] 0
  obtain ⟨r, hr⟩ := h2 (by decide) (by decide)
  obtain ⟨_, _, _, _, _, _, _, _, _, _, _, h10, h11⟩ := h1 r hr
  have e : (do_reverb_pair (room20 coeff_44100 5 6) [10000, -7000] 0).map
      (fun r => (r.2, r.1.l_buf, r.1.r_buf)) =
      some ([10811, -7000], [-218, -342, -119], [0, 94, 550, 1086]) := by decide
  rw [hr] at e
  simp only [Option.map_some', Option.some.injEq, Prod.mk.injEq] at e
  refine ⟨r, hr, e.1, e.2.1, e.2.2, ?_, ?_⟩
  · intro j
    rw [h10 j]
    revert j
    decide
  · intro j
    rw [h11 j]
    revert j
    decide

theorem init_val_cursors (rate : Int) (coeff : Fin 6 → Fin 5 → Int) (l_mem r_mem : Nat → Int) :
    (init_val rate coeff l_mem r_mem).l_buf_size = scale_len rate (coef_RFN 3) ∧
    (init_val rate coeff l_mem r_mem).r_buf_size = scale_len rate (coef_RFN 4) ∧
    (init_val rate coeff l_mem r_mem).l_out = 0 ∧
    (init_val rate coeff l_mem r_mem).r_out = 0 ∧
    (∀ k, (init_val rate coeff l_mem r_mem).l_sp_in k = scale_len rate (coef_SPL k)) ∧
    (∀ k, (init_val rate coeff l_mem r_mem).r_sp_in k = scale_len rate (coef_SPR k)) ∧
    (∀ j, (init_val rate coeff l_mem r_mem).l_in j = scale_len rate (coef_RFN (lo4 j))) ∧
    (∀ j, (init_val rate coeff l_mem r_mem).r_in j = scale_len rate (coef_RFN (hi4 j))) := by
  obtain ⟨g1, g2, g3, g4, g5⟩ := delay_len_geom rate
  exact ⟨g4, g5, rfl, rfl, g1, g2, fun j => g3 (lo4 j), fun j => g3 (hi4 j)⟩

theorem init_val_guarded (rate : Int) (coeff : Fin 6 → Fin 5 → Int) (l_mem r_mem : Nat → Int) :
    Guarded (init_val rate coeff l_mem r_mem) ∧ hist_zero (init_val rate coeff l_mem r_mem) ∧
    (∀ n, n < (init_val rate coeff l_mem r_mem).l_buf_size.toNat →
      cell (init_val rate coeff l_mem r_mem).l_buf n = 0) ∧
    (∀ n, n < (init_val rate coeff l_mem r_mem).r_buf_size.toNat →
      cell (init_val rate coeff l_mem r_mem).r_buf n = 0) := by
  refine ⟨⟨?_, ?_⟩, ⟨fun _ _ => rfl, fun _ _ => rfl, fun _ _ => rfl, fun _ _ => rfl⟩, ?_, ?_⟩
  · simp [init_val, zeroed_length]
  · simp [init_val, zeroed_length]
  · intro n hn
    simp only [init_val] at hn ⊢
    rw [zeroed_cell]
    simp [hn]
  · intro n hn
    simp only [init_val] at hn ⊢
    rw [zeroed_cell]
    simp [hn]

theorem init_val_within {rate : Int} (hr : 0 ≤ rate) (coeff : Fin 6 → Fin 5 → Int)
    (l_mem r_mem : Nat → Int) : Within (init_val rate coeff l_mem r_mem) := by
  obtain ⟨c1, c2, c3, c4, c5, c6, c7, c8⟩ := init_val_cursors rate coeff l_mem r_mem
  obtain ⟨b1, b2, b3⟩ := coef_bounds
  have hsp : ∀ k, sp_size (init_val rate coeff l_mem r_mem) k =
      scale_len rate (if k.val < 4 then coef_RFN 3 else coef_RFN 4) := by
    intro k
    unfold sp_size
    rw [c1, c2]
    split <;> rfl
  have hL := (scale_len_mono hr (b3 3).1 (le_refl _)).1
  have hR := (scale_len_mono hr (b3 4).1 (le_refl _)).1
  unfold Within
  simp only [c1, c2, c3, c4, c5, c6, c7, c8, hsp]
  refine ⟨⟨le_rfl, hL⟩, ⟨le_rfl, hR⟩, fun k => scale_len_mono hr (b1 k).1 (b1 k).2,
    fun k => scale_len_mono hr (b2 k).1 (b2 k).2, fun j => ?_, fun j => ?_⟩
  · have := scale_len_mono hr (b3 (lo4 j)).1 (b3 (lo4 j)).2
    have h4 : (lo4 j).val < 4 := j.isLt
    simpa only [h4, if_true] using this
  · have := scale_len_mono hr (b3 (hi4 j)).1 (b3 (hi4 j)).2
    have h4 : ¬ (hi4 j).val < 4 := by simp [hi4]
    simpa only [h4, if_false] using this

theorem within_safe {s : Rvb} (hw : Within s) (hg : Guarded s) (hl : 1 ≤ s.l_buf_size)
    (hr : 1 ≤ s.r_buf_size) : Safe s := by
  obtain ⟨w1, w2, w3, w4, w5, w6⟩ := hw
  obtain ⟨g1, g2⟩ := hg
  have hsp : ∀ k (c : Int), 0 ≤ c → c ≤ sp_size s k → c.toNat < (sp_buf s k).length := by
    intro k c h0 h1
    unfold sp_size at h1
    unfold sp_buf
    split at h1
    · rename_i h
      simp only [h, if_true, g1]
      omega
    · rename_i h
      simp only [h, if_false, g2]
      omega
  refine ⟨⟨by omega, by omega⟩, ⟨by omega, by omega⟩, ⟨w1.1, by omega⟩, ⟨w2.1, by omega⟩,
    fun k => ⟨(w3 k).1, hsp k _ (w3 k).1 (w3 k).2⟩,
    fun k => ⟨(w4 k).1, hsp k _ (w4 k).1 (w4 k).2⟩,
    fun j => ⟨(w5 j).1, by have := (w5 j).2; omega⟩,
    fun j => ⟨(w6 j).1, by have := (w6 j).2; omega⟩⟩

theorem wrapped_within {s : Rvb} (h : Wrapped s) : Within s := by
  obtain ⟨_, _, w1, w2, w3, w4, w5, w6⟩ := h
  exact ⟨⟨w1.1, le_of_lt w1.2⟩, ⟨w2.1, le_of_lt w2.2⟩, fun k => ⟨(w3 k).1, le_of_lt (w3 k).2⟩,
    fun k => ⟨(w4 k).1, le_of_lt (w4 k).2⟩, fun j => ⟨(w5 j).1, le_of_lt (w5 j).2⟩,
    fun j => ⟨(w6 j).1, le_of_lt (w6 j).2⟩⟩

theorem pair_val_wrapped {s : Rvb} (hs : Safe s) (hl : 1 ≤ s.l_buf_size)
    (hr : 1 ≤ s.r_buf_size) (buffer : List Int) (i : Int) : Wrapped (pair_val s buffer i).1 := by
  obtain ⟨⟨l0, l1⟩, ⟨r0, r1⟩, lo, ro, lsp, rsp, li, ri⟩ := hs
  obtain ⟨c1, c2, c3, c4, c5, c6⟩ := pair_val_cursors s buffer i
  obtain ⟨f1, f2, _, _⟩ := pair_val_frame s buffer i
  have hsz : ∀ k, sp_size (pair_val s buffer i).1 k = sp_size s k := by
    intro k
    unfold sp_size
    rw [f1, f2]
  have hsp : ∀ k, 1 ≤ sp_size s k := by
    intro k
    unfold sp_size
    split <;> assumption
  unfold Wrapped
  simp only [c1, c2, c3, c4, c5, c6, f1, f2, hsz]
  exact ⟨hl, hr, ⟨(adv_range lo.1 l0).1, adv_lt hl⟩, ⟨(adv_range ro.1 r0).1, adv_lt hr⟩,
    fun k => ⟨(adv_range (lsp k).1 (by have := hsp k; omega)).1, adv_lt (hsp k)⟩,
    fun k => ⟨(adv_range (rsp k).1 (by have := hsp k; omega)).1, adv_lt (hsp k)⟩,
    fun j => ⟨(adv_range (li j).1 l0).1, adv_lt hl⟩,
    fun j => ⟨(adv_range (ri j).1 r0).1, adv_lt hr⟩⟩

set_option maxRecDepth 100000 in
theorem scale_44100 :
    (∀ k, scale_len 44100 (coef_SPL k) = ![1881, 474, 3135, 6607, 7513, 5635, 6776, 3771] k) ∧
    (∀ k, scale_len 44100 (coef_SPR k) = ![1437, 800, 3280, 6515, 7258, 5020, 6287, 3158] k) ∧
    (∀ k, scale_len 44100 (coef_RFN k) = ![4098, 1366, 3289, 6608, 7556, 6494, 7150, 5498] k) := by
  decide!

theorem do_reverb_cursors {s : Rvb} {buffer : List Int} {size : Int} (hs : Safe s)
    (hl : 1 ≤ s.l_buf_size) (hr : 1 ≤ s.r_buf_size) (he : 2 ∣ size)
    (hb : size ≤ buffer.length) :
    ∃ r, do_reverb s buffer size = some r ∧ Safe r.1 ∧ r.1.l_buf_size = s.l_buf_size ∧
      r.1.r_buf_size = s.r_buf_size ∧ (0 < size → Wrapped r.1) ∧ (size ≤ 0 → r.1 = s) := by
  obtain ⟨r, i', hr', hi', -, h0, hS, hL, hR, -, hW, hE⟩ := loop_total size
    (fun i s' b' => 2 ∣ i ∧ 0 ≤ i ∧ Safe s' ∧ s'.l_buf_size = s.l_buf_size ∧
      s'.r_buf_size = s.r_buf_size ∧ b'.length = buffer.length ∧ (0 < i → Wrapped s') ∧
      (i = 0 → s' = s))
    (by
      rintro i s' b' ⟨h2, h0, hS, hL, hR, hB, -, -⟩ hlt
      have hin : pair_in b' i := ⟨h0, by rw [hB]; omega⟩
      obtain ⟨f1, f2, _, _⟩ := pair_val_frame s' b' i
      exact ⟨safe_pair_ok hS hin, by omega, by omega, safe_pair_val hS _ _, f1.trans hL,
        f2.trans hR, by rw [(pair_val_length _ _ _).2.2, hB],
        fun _ => pair_val_wrapped hS (by rw [hL]; exact hl) (by rw [hR]; exact hr) _ _,
        fun h => by omega⟩)
    size.toNat 0 s buffer ⟨by simp, le_rfl, hs, rfl, rfl, rfl, fun h => by omega, fun _ => rfl⟩
    (by omega)
  refine ⟨r, hr', hS, hL, hR, fun hpos => hW (by omega), fun hneg => ?_⟩
  -- no pair is processed: the loop leaves at its first test
  have : do_reverb s buffer size = some (s, buffer) := by
    unfold do_reverb
    have hn : ¬ (0 : Int) < size := by omega
    cases h : size.toNat with
    | zero => simp [do_reverb_loop, hn]
    | succ n => simp [do_reverb_loop, hn]
  rw [do_reverb] at this
  rw [this] at hr'
  simp at hr'
  rw [← hr']

theorem do_reverb_blocks_cursors {s : Rvb} (blocks : List (List Int)) (hs : Safe s)
    (hl : 1 ≤ s.l_buf_size) (hr : 1 ≤ s.r_buf_size) (he : ∀ b ∈ blocks, 2 ∣ b.length) :
    ∃ q, do_reverb_blocks s blocks = some q ∧ Safe q.1 ∧
      ((∃ b ∈ blocks, b ≠ []) → Wrapped q.1) ∧ ((∀ b ∈ blocks, b = []) → q.1 = s) ∧
      (Wrapped s → Wrapped q.1) := by
  induction blocks generalizing s with
  | nil => exact ⟨(s, []), rfl, hs, by simp, fun _ => rfl, fun h => h⟩
  | cons b bs ih =>
    have he2 : (2 : Int) ∣ (b.length : Int) := Int.natCast_dvd_natCast.mpr (he b (List.mem_cons_self _ _))
    obtain ⟨r, h1, hS1, hL1, hR1, hW1, hE1⟩ := @do_reverb_cursors s b _ hs hl hr he2 le_rfl
    obtain ⟨q, h2, hS2, hW2, hE2, hK2⟩ := ih hS1 (by rw [hL1]; exact hl) (by rw [hR1]; exact hr)
      (fun b' hb' => he b' (List.mem_cons_of_mem _ hb'))
    have hrun : do_reverb_blocks s (b :: bs) = some (q.1, r.2 :: q.2) := by
      unfold do_reverb_blocks at h2 ⊢
      simp only [List.map_cons, do_reverb_seq, h1]
      simp only [Option.some_bind, h2]
    have hbs : b = [] → r.1 = s := by
      intro hb
      apply hE1
      simp [hb]
    have hbw : b ≠ [] → Wrapped r.1 := by
      intro hb
      apply hW1
      have : 0 < b.length := List.length_pos.mpr hb
      omega
    refine ⟨_, hrun, hS2, ?_, ?_, ?_⟩
    · rintro ⟨b', hb', hne⟩
      rcases List.mem_cons.mp hb' with rfl | hmem
      · exact hK2 (hbw hne)
      · exact hW2 ⟨b', hmem, hne⟩
    · intro hall
      have := hE2 (fun b' hb' => hall b' (List.mem_cons_of_mem _ hb'))
      simp only
      rw [this, hbs (hall b (List.mem_cons_self _ _))]
    · intro hw
      by_cases hb : b = []
      · apply hK2
        rw [hbs hb]
        exact hw
      · exact hK2 (hbw hb)

/-- C2 as amended (cursor invariant).  For every positive sample rate at which
`init_reverb` yields two non-empty rings: `init_reverb` returns a record in which every
cursor lies in the closed range `[0, size]` of its ring, the cursors `l_in[3]` and
`r_in[0]` of the two longest paths being equal to `size` (`init_reverb` does not wrap; the
guard cell takes that index); every sequence of `do_reverb` calls on even-length blocks
returns and ends in a record whose cursors lie in `[0, size]`; and as soon as one stereo
pair has been processed every cursor satisfies `0 <= cursor < size`. -/
theorem cursor_invariant (rate : Int) (coeff : Fin 6 → Fin 5 → Int) (l_mem r_mem : Nat → Int)
    (blocks : List (List Int)) (hrate : 0 < rate)
    (hl : 1 ≤ delay_len rate geom.MAXL_DST) (hr : 1 ≤ delay_len rate geom.MAXR_DST)
    (he : ∀ b ∈ blocks, 2 ∣ b.length) :
    ∃ s0 q, init_reverb rate coeff l_mem r_mem = some s0 ∧ Within s0 ∧
      s0.l_in 3 = s0.l_buf_size ∧ s0.r_in 0 = s0.r_buf_size ∧
      do_reverb_blocks s0 blocks = some q ∧ Within q.1 ∧
      ((∃ b ∈ blocks, b ≠ []) → Wrapped q.1) := by
  have hw := init_val_within (le_of_lt hrate) coeff l_mem r_mem
  obtain ⟨hg, -, -, -⟩ := init_val_guarded rate coeff l_mem r_mem
  obtain ⟨c1, c2, -, -, -, -, c7, c8⟩ := init_val_cursors rate coeff l_mem r_mem
  have hs := within_safe hw hg hl hr
  obtain ⟨q, hq, -, hW, hE, -⟩ := do_reverb_blocks_cursors blocks hs hl hr he
  refine ⟨_, q, init_reverb_eq rate coeff l_mem r_mem, hw, ?_, ?_, hq, ?_, hW⟩
  · rw [c7, c1]
    rfl
  · rw [c8, c2]
    rfl
  · by_cases h : ∃ b ∈ blocks, b ≠ []
    · exact wrapped_within (hW h)
    · have hall : ∀ b ∈ blocks, b = [] := by
        intro b hb
        by_contra hne
        exact h ⟨b, hb, hne⟩
      rw [hE hall]
      exact hw

/-- Witness of C2 as amended: rate 20, blocks of two pairs and one pair. -/
theorem cursor_invariant_witness :
    ∃ s0 q, init_reverb 20 coeff_44100 (fun _ => 0) (fun _ => 0) = some s0 ∧ Within s0 ∧
      s0.l_in 3 = s0.l_buf_size ∧ s0.r_in 0 = s0.r_buf_size ∧
      do_reverb_blocks s0 [[10000, -7000, 3, 40], [1, 2]] = some q ∧ Within q.1 ∧
      ((∃ b ∈ [[10000, -7000, 3, 40], [(1 : Int), 2]], b ≠ []) → Wrapped q.1) :=
  cursor_invariant 20 coeff_44100 (fun _ => 0) (fun _ => 0) [[10000, -7000, 3, 40], [1, 2]]
    (by decide) (by rw [delays_20.1]; decide) (by rw [delays_20.2.1]; decide) (by decide)

/-- Counterexample to C2 as stated: for the rate 44100 the record returned by
`init_reverb` has `l_buf_size = 6608` and `l_in[3] = 6608`, `r_buf_size = 7556` and
`r_in[0] = 7556`, so these cursors are not below the size of their ring. -/
theorem cursor_invariant_counterexample :
    ∃ s0, init_reverb 44100 coeff_44100 (fun _ => 0) (fun _ => 0) = some s0 ∧
      s0.l_buf_size = 6608 ∧ s0.l_in 3 = 6608 ∧ s0.r_buf_size = 7556 ∧ s0.r_in 0 = 7556 ∧
      ¬ Wrapped s0 := by
  obtain ⟨c1, c2, -, -, -, -, c7, c8⟩ :=
    init_val_cursors 44100 coeff_44100 (fun _ => 0) (fun _ => 0)
  obtain ⟨-, -, s3⟩ := scale_44100
  have e1 : (init_val 44100 coeff_44100 (fun _ => 0) (fun _ => 0)).l_buf_size = 6608 := by
    rw [c1, s3]
    rfl
  have e2 : (init_val 44100 coeff_44100 (fun _ => 0) (fun _ => 0)).r_buf_size = 7556 := by
    rw [c2, s3]
    rfl
  have e3 : (init_val 44100 coeff_44100 (fun _ => 0) (fun _ => 0)).l_in 3 = 6608 := by
    rw [c7, s3]
    rfl
  have e4 : (init_val 44100 coeff_44100 (fun _ => 0) (fun _ => 0)).r_in 0 = 7556 := by
    rw [c8, s3]
    rfl
  refine ⟨_, init_reverb_eq _ _ _ _, e1, e3, e2, e4, ?_⟩
  intro hw
  have := (hw.2.2.2.2.2.2.1 3).2
  rw [e1, e3] at this
  exact absurd this (by decide)

set_option maxRecDepth 100000 in
theorem scale_16000 :
    (∀ k, scale_len 16000 (coef_SPL k) = ![682, 172, 1137, 2397, 2726, 2044, 2458, 1368] k) ∧
    (∀ k, scale_len 16000 (coef_SPR k) = ![521, 290, 1190, 2363, 2633, 1821, 2281, 1145] k) ∧
    (∀ k, scale_len 16000 (coef_RFN k) = ![1486, 495, 1193, 2397, 2741, 2356, 2594, 1994] k) := by
  decide!

theorem do_reverb_single {s : Rvb} (a b : Int) (hs : Safe s) :
    do_reverb s [a, b] 2 = some (pair_val s [a, b] 0) ∧ pair_ok s [a, b] 0 := by
  have hin : pair_in [a, b] 0 := ⟨le_rfl, by simp⟩
  have hok := safe_pair_ok hs hin
  have hp : do_reverb_pair s [a, b] 0 = some (pair_val s [a, b] 0) := pair_iff.mpr ⟨hok, rfl⟩
  refine ⟨?_, hok⟩
  have e2 : (2 : Int).toNat = 2 := rfl
  unfold do_reverb
  rw [e2]
  simp [do_reverb_loop, hp]

theorem single_output {s : Rvb} {a b : Int} (hok : pair_ok s [a, b] 0) :
    (pair_val s [a, b] 0).2 =
      [a + wet_l s (cell s.l_buf s.l_out.toNat +
          sp_hits_l s (Int.tdiv a 32) (Int.tdiv b 32) s.l_out.toNat),
        b + wet_r s (cell s.r_buf s.r_out.toNat +
          sp_hits_r s (Int.tdiv a 32) (Int.tdiv b 32) s.r_out.toNat)] := by
  have e0 : cell [a, b] (0 : Int).toNat = a := rfl
  have e1 : cell [a, b] ((0 : Int) + 1).toNat = b := rfl
  apply cell_ext
  · rw [(pair_val_length s [a, b] 0).2.2]
    rfl
  · intro n
    rw [pair_val_buffer_cell hok, l_rfl_val_eq hok, r_rfl_val_eq hok, e0, e1]
    match n with
    | 0 => simp [hit, cell]
    | 1 => simp [hit, cell]
    | n + 2 => simp [hit, cell]

theorem sp_hits_zero {s : Rvb} (tl tr : Int)
    (hsp : ∀ j : Fin 4, s.l_sp_in (lo4 j) ≠ s.l_out ∧ s.r_sp_in (lo4 j) ≠ s.l_out ∧
      s.l_sp_in (hi4 j) ≠ s.r_out ∧ s.r_sp_in (hi4 j) ≠ s.r_out)
    (hs : Safe s) :
    sp_hits_l s tl tr s.l_out.toNat = 0 ∧ sp_hits_r s tl tr s.r_out.toNat = 0 := by
  obtain ⟨-, -, lo, ro, lsp, rsp, -, -⟩ := hs
  have key : ∀ (c d v : Int), 0 ≤ c → 0 ≤ d → c ≠ d → hit c d.toNat v = 0 := by
    intro c d v hc hd hne
    unfold hit
    have : c.toNat ≠ d.toNat := by omega
    simp [this]
  unfold sp_hits_l sp_hits_r
  constructor
  · apply Finset.sum_eq_zero
    intro j _
    rw [key _ _ _ (lsp _).1 lo.1 (hsp j).1, key _ _ _ (rsp _).1 lo.1 (hsp j).2.1]
    rfl
  · apply Finset.sum_eq_zero
    intro j _
    rw [key _ _ _ (lsp _).1 ro.1 (hsp j).2.2.1, key _ _ _ (rsp _).1 ro.1 (hsp j).2.2.2]
    rfl

theorem pass_through {s : Rvb} (a b : Int) (hs : Safe s) (hh : hist_zero s)
    (hl : cell s.l_buf s.l_out.toNat = 0) (hr : cell s.r_buf s.r_out.toNat = 0)
    (hsp : ∀ j : Fin 4, s.l_sp_in (lo4 j) ≠ s.l_out ∧ s.r_sp_in (lo4 j) ≠ s.l_out ∧
      s.l_sp_in (hi4 j) ≠ s.r_out ∧ s.r_sp_in (hi4 j) ≠ s.r_out) :
    ∃ s', do_reverb s [a, b] 2 = some (s', [a, b]) := by
  obtain ⟨h1, hok⟩ := do_reverb_single a b hs
  refine ⟨(pair_val s [a, b] 0).1, ?_⟩
  rw [h1]
  have := single_output hok
  rw [(sp_hits_zero _ _ hsp hs).1, (sp_hits_zero _ _ hsp hs).2, hl, hr] at this
  simp only [add_zero, (wet_zero hh).1, (wet_zero hh).2] at this
  exact congrArg some (Prod.ext rfl this)

theorem init_val_fresh {rate : Int} (hrate : 0 ≤ rate) (coeff : Fin 6 → Fin 5 → Int)
    (l_mem r_mem : Nat → Int)
    (hl : 1 ≤ scale_len rate (coef_RFN 3)) (hr : 1 ≤ scale_len rate (coef_RFN 4)) :
    Safe (init_val rate coeff l_mem r_mem) ∧ hist_zero (init_val rate coeff l_mem r_mem) ∧
    cell (init_val rate coeff l_mem r_mem).l_buf
      (init_val rate coeff l_mem r_mem).l_out.toNat = 0 ∧
    cell (init_val rate coeff l_mem r_mem).r_buf
      (init_val rate coeff l_mem r_mem).r_out.toNat = 0 := by
  obtain ⟨c1, c2, c3, c4, -, -, -, -⟩ := init_val_cursors rate coeff l_mem r_mem
  obtain ⟨hg, hh, z1, z2⟩ := init_val_guarded rate coeff l_mem r_mem
  refine ⟨within_safe (init_val_within hrate coeff l_mem r_mem) hg (by rw [c1]; exact hl)
    (by rw [c2]; exact hr), hh, ?_, ?_⟩
  · rw [c3]
    apply z1
    rw [c1]
    show 0 < _
    omega
  · rw [c4]
    apply z2
    rw [c2]
    show 0 < _
    omega

theorem init_val_apart {rate : Int} (coeff : Fin 6 → Fin 5 → Int) (l_mem r_mem : Nat → Int)
    (hsp : ∀ k, scale_len rate (coef_SPL k) ≠ 0 ∧ scale_len rate (coef_SPR k) ≠ 0)
    (j : Fin 4) :
    (init_val rate coeff l_mem r_mem).l_sp_in (lo4 j) ≠ (init_val rate coeff l_mem r_mem).l_out ∧
    (init_val rate coeff l_mem r_mem).r_sp_in (lo4 j) ≠ (init_val rate coeff l_mem r_mem).l_out ∧
    (init_val rate coeff l_mem r_mem).l_sp_in (hi4 j) ≠ (init_val rate coeff l_mem r_mem).r_out ∧
    (init_val rate coeff l_mem r_mem).r_sp_in (hi4 j) ≠ (init_val rate coeff l_mem r_mem).r_out := by
  obtain ⟨-, -, c3, c4, c5, c6, -, -⟩ := init_val_cursors rate coeff l_mem r_mem
  rw [c3, c4, c5, c5, c6, c6]
  exact ⟨(hsp _).1, (hsp _).2, (hsp _).1, (hsp _).2⟩

theorem init_pass_through {rate : Int} (hrate : 0 ≤ rate) (coeff : Fin 6 → Fin 5 → Int)
    (l_mem r_mem : Nat → Int) (a b : Int)
    (hl : 1 ≤ scale_len rate (coef_RFN 3)) (hr : 1 ≤ scale_len rate (coef_RFN 4))
    (hsp : ∀ k, scale_len rate (coef_SPL k) ≠ 0 ∧ scale_len rate (coef_SPR k) ≠ 0) :
    ∃ s', do_reverb (init_val rate coeff l_mem r_mem) [a, b] 2 = some (s', [a, b]) := by
  obtain ⟨hs, hh, z1, z2⟩ := init_val_fresh hrate coeff l_mem r_mem hl hr
  exact pass_through a b hs hh z1 z2 (init_val_apart coeff l_mem r_mem hsp)

/-- C3 as amended (first-call pass-through).  For every memory-safe record with zero
filter histories whose two drain cells `l_buf[l_out]` and `r_buf[r_out]` are zero and in
which no speaker injection cursor into a delay line equals that line's drain cursor, the
call of `do_reverb` on a single stereo pair drains zero from both lines and returns the
pair unchanged.  The record returned by `init_reverb(44100)` is such a record (for any
coefficient table and any contents of the fresh blocks): processing `[10000, 10000]`
with size 2 leaves `[10000, 10000]`. -/
theorem first_call_pass_through (s : Rvb) (a b : Int) (hs : Safe s) (hh : hist_zero s)
    (hl : cell s.l_buf s.l_out.toNat = 0) (hr : cell s.r_buf s.r_out.toNat = 0)
    (hsp : ∀ j : Fin 4, s.l_sp_in (lo4 j) ≠ s.l_out ∧ s.r_sp_in (lo4 j) ≠ s.l_out ∧
      s.l_sp_in (hi4 j) ≠ s.r_out ∧ s.r_sp_in (hi4 j) ≠ s.r_out) :
    (∃ s', do_reverb s [a, b] 2 = some (s', [a, b])) ∧
    (∀ (coeff : Fin 6 → Fin 5 → Int) (l_mem r_mem : Nat → Int),
      ∃ s0 s', init_reverb 44100 coeff l_mem r_mem = some s0 ∧
        do_reverb s0 [10000, 10000] 2 = some (s', [10000, 10000])) := by
  refine ⟨pass_through a b hs hh hl hr hsp, fun coeff l_mem r_mem => ?_⟩
  obtain ⟨s1, s2, s3⟩ := scale_44100
  obtain ⟨s', h⟩ := @init_pass_through 44100 (by decide) coeff l_mem r_mem 10000 10000
    (by rw [s3]; decide) (by rw [s3]; decide)
    (fun k => by rw [s1, s2]; revert k; decide)
  exact ⟨_, s', init_reverb_eq _ _ _ _, h⟩

/-- Witness of C3 as amended: the record returned by `init_reverb(16000)`. -/
theorem first_call_pass_through_witness :
    ∃ s', do_reverb (init_val 16000 coeff_16000 (fun _ => 0) (fun _ => 0)) [10000, 10000] 2
      = some (s', [10000, 10000]) :=
  (first_call_pass_through (init_val 16000 coeff_16000 (fun _ => 0) (fun _ => 0)) 10000 10000
    (init_val_fresh (by decide) _ _ _ (by rw [scale_16000.2.2]; decide)
      (by rw [scale_16000.2.2]; decide)).1
    (init_val_fresh (by decide) _ _ _ (by rw [scale_16000.2.2]; decide)
      (by rw [scale_16000.2.2]; decide)).2.1
    (init_val_fresh (by decide) _ _ _ (by rw [scale_16000.2.2]; decide)
      (by rw [scale_16000.2.2]; decide)).2.2.1
    (init_val_fresh (by decide) _ _ _ (by rw [scale_16000.2.2]; decide)
      (by rw [scale_16000.2.2]; decide)).2.2.2
    (init_val_apart _ _ _
      (fun k => by rw [scale_16000.1, scale_16000.2.1]; revert k; decide))).1

theorem reset_val_safe {s : Rvb} (hs : Safe s) : Safe (reset_val s) := by
  have e1 : (reset_val s).l_buf.length = s.l_buf.length := by simp [reset_val, zeroed_length]
  have e2 : (reset_val s).r_buf.length = s.r_buf.length := by simp [reset_val, zeroed_length]
  have e3 : ∀ k, (sp_buf (reset_val s) k).length = (sp_buf s k).length := by
    intro k
    unfold sp_buf
    split
    · exact e1
    · exact e2
  obtain ⟨a1, a2, a3, a4, a5, a6, a7, a8⟩ := hs
  unfold Safe
  simp only [e1, e2, e3]
  exact ⟨a1, a2, a3, a4, a5, a6, a7, a8⟩

theorem init_val_zero (rate : Int) (coeff : Fin 6 → Fin 5 → Int) :
    (∀ n, cell (init_val rate coeff (fun _ => 0) (fun _ => 0)).l_buf n = 0) ∧
    (∀ n, cell (init_val rate coeff (fun _ => 0) (fun _ => 0)).r_buf n = 0) := by
  have key : ∀ (m n : Nat), cell ((List.range m).map (fun _ => (0 : Int))) n = 0 := by
    intro m n
    unfold cell
    rw [List.getElem?_map]
    cases h : (List.range m)[n]? <;> simp
  constructor
  · intro n
    simp only [init_val, zeroed_cell, key]
    split <;> rfl
  · intro n
    simp only [init_val, zeroed_cell, key]
    split <;> rfl

theorem impulse_after_reset (s0 : Rvb) (hs0 : Safe s0) (hh0 : hist_zero s0)
    (za : ∀ n, cell s0.l_buf n = 0) (zb : ∀ n, cell s0.r_buf n = 0)
    (c3 : s0.l_out = 0) (c4 : s0.r_out = 0)
    (szl : s0.l_buf_size = 2397) (szr : s0.r_buf_size = 2741)
    (q1 : ∀ k, s0.l_sp_in k = ![682, 172, 1137, 2397, 2726, 2044, 2458, 1368] k)
    (q2 : ∀ k, s0.r_sp_in k = ![521, 290, 1190, 2363, 2633, 1821, 2281, 1145] k)
    (hc0 : s0.coeff = coeff_16000) :
    ∃ s1 s2 s3, do_reverb s0 [0, 0] 2 = some (s1, [0, 0]) ∧ reset_reverb s1 = some s2 ∧
      (∀ x ∈ s2.l_buf, x = 0) ∧ (∀ x ∈ s2.r_buf, x = 0) ∧ hist_zero s2 ∧
      do_reverb s2 [10000, 10000] 2 = some (s3, [11135, 10000]) := by
  -- the silent pair
  obtain ⟨r1, hok1⟩ := do_reverb_single 0 0 hs0
  obtain ⟨e1, e2, e3, e4⟩ := pair_val_silent hok1 rfl rfl hh0 (za _) (zb _)
  have hs1 := safe_pair_val hs0 [0, 0] 0
  obtain ⟨d1, d2, d3, d4, -, -⟩ := pair_val_cursors s0 [0, 0] 0
  obtain ⟨f1, f2, f3, -⟩ := pair_val_frame s0 [0, 0] 0
  generalize hs1eq : (pair_val s0 [0, 0] 0).1 = s1 at *
  -- the reset
  have hres : reset_reverb s1 = some (reset_val s1) := by
    rw [reset_iff]
    obtain ⟨⟨-, a1⟩, ⟨-, a2⟩, -⟩ := hs1
    exact ⟨⟨by omega, by omega⟩, rfl⟩
  have hs2 := reset_val_safe hs1
  have hh2 : hist_zero (reset_val s1) := ⟨fun _ _ => rfl, fun _ _ => rfl, fun _ _ => rfl,
    fun _ _ => rfl⟩
  have zl2 : ∀ n, cell (reset_val s1).l_buf n = 0 := by
    intro n
    simp only [reset_val, zeroed_cell, e2, za]
    split <;> rfl
  have zr2 : ∀ n, cell (reset_val s1).r_buf n = 0 := by
    intro n
    simp only [reset_val, zeroed_cell, e3, zb]
    split <;> rfl
  -- the cursors after the reset
  have o1 : (reset_val s1).l_out = 1 := by
    show s1.l_out = 1
    rw [d1, c3, szl]
    rfl
  have o2 : (reset_val s1).r_out = 1 := by
    show s1.r_out = 1
    rw [d2, c4, szr]
    rfl
  have p1 : ∀ k, (reset_val s1).l_sp_in k =
      ![683, 173, 1138, 1, 2727, 2045, 2459, 1369] k := by
    intro k
    show s1.l_sp_in k = _
    rw [d3, q1]
    unfold sp_size
    rw [szl, szr]
    revert k
    decide
  have p2 : ∀ k, (reset_val s1).r_sp_in k =
      ![522, 291, 1191, 2364, 2634, 1822, 2282, 1146] k := by
    intro k
    show s1.r_sp_in k = _
    rw [d4, q2]
    unfold sp_size
    rw [szl, szr]
    revert k
    decide
  -- the call on the impulse
  obtain ⟨r3, hok3⟩ := do_reverb_single 10000 10000 hs2
  have hout := single_output hok3
  have hc : (reset_val s1).coeff = coeff_16000 := f3.trans hc0
  have w1 : sp_hits_l (reset_val s1) (Int.tdiv 10000 32) (Int.tdiv 10000 32) 1 = 312 := by
    unfold sp_hits_l
    simp only [p1, p2, Fin.sum_univ_four]
    decide
  have w2 : sp_hits_r (reset_val s1) (Int.tdiv 10000 32) (Int.tdiv 10000 32) 1 = 0 := by
    unfold sp_hits_r
    simp only [p1, p2, Fin.sum_univ_four]
    decide
  have w3 : wet_l (reset_val s1) 312 = 1135 := by
    unfold wet_l band_l
    rw [hc]
    have i1 : (reset_val s1).l_buf_flt_in = fun _ _ => 0 := rfl
    have i2 : (reset_val s1).l_buf_flt_out = fun _ _ => 0 := rfl
    rw [i1, i2]
    simp only [Fin.sum_univ_six]
    decide
  have e10 : ((1 : Int)).toNat = 1 := rfl
  rw [o1, o2, e10, zl2, zr2, w1, w2, zero_add, zero_add, w3, (wet_zero hh2).2] at hout
  refine ⟨s1, reset_val s1, (pair_val (reset_val s1) [10000, 10000] 0).1, ?_, hres,
    (cell_zero_iff _).mpr zl2, (cell_zero_iff _).mpr zr2, hh2, ?_⟩
  · rw [r1]
    exact congrArg some (Prod.ext hs1eq e1)
  · rw [r3]
    exact congrArg some (Prod.ext rfl hout)

/-- Counterexample to C3 as stated, at the rate 16000.  There the left speaker path 3 has
the delay of the longest path (`l_sp_in[3] = l_buf_size = 2397`), so after one processed
pair its cursor is `2398 % 2397 = 1`, the value of the drain cursor `l_out`.  After
`init_reverb(16000)`, one silent pair and `reset_reverb` all delay cells and filter
histories are zero, and the call on `[10000, 10000]` injects `10000 / 32 = 312` at the
drain cell, drains it and returns `[11135, 10000]`: the left sample has gained
`312 + 297 + 254 + 170 + 78 + 24 = 1135`. -/
theorem first_call_pass_through_counterexample :
    ∃ s0 s1 s2 s3, init_reverb 16000 coeff_16000 (fun _ => 0) (fun _ => 0) = some s0 ∧
      do_reverb s0 [0, 0] 2 = some (s1, [0, 0]) ∧ reset_reverb s1 = some s2 ∧
      (∀ x ∈ s2.l_buf, x = 0) ∧ (∀ x ∈ s2.r_buf, x = 0) ∧ hist_zero s2 ∧
      do_reverb s2 [10000, 10000] 2 = some (s3, [11135, 10000]) := by
  obtain ⟨k1, k2, k3⟩ := scale_16000
  obtain ⟨hs0, hh0, -, -⟩ := @init_val_fresh 16000 (by decide) coeff_16000
    (fun _ => 0) (fun _ => 0) (by rw [k3]; decide) (by rw [k3]; decide)
  obtain ⟨c1, c2, c3, c4, c5, c6, -, -⟩ :=
    init_val_cursors 16000 coeff_16000 (fun _ => 0) (fun _ => 0)
  obtain ⟨za, zb⟩ := init_val_zero 16000 coeff_16000
  obtain ⟨s1, s2, s3, h⟩ := impulse_after_reset _ hs0 hh0 za zb c3 c4
    (by rw [c1, k3]; rfl) (by rw [c2, k3]; rfl) (fun k => by rw [c5, k1])
    (fun k => by rw [c6, k2]) rfl
  exact ⟨_, s1, s2, s3, init_reverb_eq _ _ _ _, h⟩

theorem reset_val_cells (s : Rvb) :
    (reset_val s).l_buf.length = s.l_buf.length ∧ (reset_val s).r_buf.length = s.r_buf.length ∧
    (∀ n, cell (reset_val s).l_buf n = if n < s.l_buf_size.toNat then 0 else cell s.l_buf n) ∧
    (∀ n, cell (reset_val s).r_buf n = if n < s.r_buf_size.toNat then 0 else cell s.r_buf n) ∧
    hist_zero (reset_val s) := by
  refine ⟨by simp [reset_val, zeroed_length], by simp [reset_val, zeroed_length], ?_, ?_,
    ⟨fun _ _ => rfl, fun _ _ => rfl, fun _ _ => rfl, fun _ _ => rfl⟩⟩
  · intro n
    simp only [reset_val, zeroed_cell]
    simp
  · intro n
    simp only [reset_val, zeroed_cell]
    simp

/-- C6 as amended (what `reset_reverb` zeroes).  On every record whose blocks hold at least
`l_buf_size` and `r_buf_size` cells, `reset_reverb` returns a record with blocks of the
same lengths in which the cells at the indices `0 .. size - 1` of each delay line are zero
and every other cell, the guard cell at index `size` in particular, keeps its value, and
in which all `6 x 2` cells of the four filter histories are zero. -/
theorem reset_reverb_zeroes (s : Rvb) (hl : s.l_buf_size.toNat ≤ s.l_buf.length)
    (hr : s.r_buf_size.toNat ≤ s.r_buf.length) :
    ∃ s', reset_reverb s = some s' ∧
      s'.l_buf.length = s.l_buf.length ∧ s'.r_buf.length = s.r_buf.length ∧
      (∀ n, cell s'.l_buf n = if n < s.l_buf_size.toNat then 0 else cell s.l_buf n) ∧
      (∀ n, cell s'.r_buf n = if n < s.r_buf_size.toNat then 0 else cell s.r_buf n) ∧
      hist_zero s' :=
  ⟨reset_val s, reset_iff.mpr ⟨⟨hl, hr⟩, rfl⟩, reset_val_cells s⟩

/-- Witness of C6 as amended: the record of rate 20 after the pair `[10000, -7000]`. -/
theorem reset_reverb_zeroes_witness :
    ∃ s', reset_reverb (pair_val (room20 coeff_44100 0 0) [10000, -7000] 0).1 = some s' ∧
      s'.l_buf = [0, 0, -124] ∧ s'.r_buf = [0, 0, 0, 1080] ∧ hist_zero s' := by
  obtain ⟨s', h, -, -, -, -, hh⟩ :=
    reset_reverb_zeroes (pair_val (room20 coeff_44100 0 0) [10000, -7000] 0).1
      (by decide) (by decide)
  have e : (reset_reverb (pair_val (room20 coeff_44100 0 0) [10000, -7000] 0).1).map
      (fun s => (s.l_buf, s.r_buf)) = some ([0, 0, -124], [0, 0, 0, 1080]) := by decide
  rw [h] at e
  simp only [Option.map_some', Option.some.injEq, Prod.mk.injEq] at e
  exact ⟨s', h, e.1, e.2, hh⟩

/-- Counterexample to C6 as stated: after `init_reverb(20)` on zeroed memory and the pair
`[10000, -7000]`, the guard cells hold `312 - 218 - 218 = -124` and `1080`; `reset_reverb`
returns them unchanged, so not every allocated cell is zero after it. -/
theorem reset_reverb_zeroes_counterexample :
    ((init_reverb 20 coeff_44100 (fun _ => 0) (fun _ => 0)).bind fun s0 =>
      (do_reverb s0 [10000, -7000] 2).bind fun r =>
      (reset_reverb r.1).map fun s2 => (s2.l_buf_size, s2.l_buf, s2.r_buf_size, s2.r_buf))
      = some (2, [0, 0, -124], 3, [0, 0, 0, 1080]) := by
  rw [init_reverb_20]
  decide

theorem same_ctrl_sp {s t : Rvb} (h : same_ctrl s t) (k : Fin 8) :
    sp_size s k = sp_size t k := by
  unfold sp_size
  rw [h.1, h.2.1]

theorem guard_eq_sp_len {s t : Rvb} (h : guard_eq s t) (k : Fin 8) :
    (sp_buf s k).length = (sp_buf t k).length := by
  unfold sp_buf
  split
  · exact h.2.1
  · exact h.2.2.1

theorem guard_eq_pair_ok {s t : Rvb} (h : guard_eq s t) (b : List Int) (i : Int) :
    pair_ok s b i ↔ pair_ok t b i := by
  have e := guard_eq_sp_len h
  obtain ⟨⟨a1, a2, a3, a4, a5, a6, a7, a8, -⟩, l1, l2, -, -⟩ := h
  unfold pair_ok inject_ok drain_ok reinject_ok
  simp only [a1, a2, a3, a4, a5, a6, a7, a8, l1, l2, e]

theorem guard_eq_rfl_val {s t : Rvb} (h : guard_eq s t) (hd : drain_off_guard s)
    {b : List Int} {i : Int} (hok : pair_ok s b i) :
    l_rfl_val s b i = l_rfl_val t b i ∧ r_rfl_val s b i = r_rfl_val t b i := by
  have hok' := (guard_eq_pair_ok h b i).mp hok
  obtain ⟨⟨a1, a2, a3, a4, a5, a6, -⟩, -, -, cl, cr⟩ := h
  obtain ⟨-, -, d1, d2⟩ := hd
  have n1 : s.l_buf_size ≠ 0 := hok.2.1.1
  have n2 : s.r_buf_size ≠ 0 := hok.2.1.2.1
  constructor
  · rw [l_rfl_val_eq hok, l_rfl_val_eq hok']
    unfold sp_hits_l
    rw [← a3, ← a5, ← a6, cl _ (by tauto)]
  · rw [r_rfl_val_eq hok, r_rfl_val_eq hok']
    unfold sp_hits_r
    rw [← a4, ← a5, ← a6, cr _ (by tauto)]

theorem same_ctrl_band {s t : Rvb} (h : same_ctrl s t) (x : Int) :
    (∀ j, band_l s x j = band_l t x j) ∧ (∀ j, band_r s x j = band_r t x j) ∧
    wet_l s x = wet_l t x ∧ wet_r s x = wet_r t x := by
  obtain ⟨-, -, -, -, -, -, -, -, -, a10, a11, a12, a13, a14⟩ := h
  unfold wet_l wet_r band_l band_r
  rw [a10, a11, a12, a13, a14]
  exact ⟨fun _ => rfl, fun _ => rfl, rfl, rfl⟩

theorem guard_eq_pair {s t : Rvb} (h : guard_eq s t) (hd : drain_off_guard s)
    {b : List Int} {i : Int} (hok : pair_ok s b i) :
    (pair_val s b i).2 = (pair_val t b i).2 ∧
    guard_eq (pair_val s b i).1 (pair_val t b i).1 ∧
    drain_off_guard (pair_val s b i).1 := by
  have hok' := (guard_eq_pair_ok h b i).mp hok
  obtain ⟨hl, hr⟩ := guard_eq_rfl_val h hd hok
  have hc := h.1
  obtain ⟨⟨a1, a2, a3, a4, a5, a6, a7, a8, a9, a10, a11, a12, a13, a14⟩, l1, l2, cl, cr⟩ := h
  obtain ⟨g1, g2, g3, g4⟩ := hd
  obtain ⟨bl, br, wl, wr⟩ := same_ctrl_band hc (l_rfl_val t b i)
  obtain ⟨-, -, -, wr'⟩ := same_ctrl_band hc (r_rfl_val t b i)
  obtain ⟨-, br', -, -⟩ := same_ctrl_band hc (r_rfl_val t b i)
  obtain ⟨f1, f2, f3, f4⟩ := pair_val_frame s b i
  obtain ⟨f1', f2', f3', f4'⟩ := pair_val_frame t b i
  obtain ⟨n1, n2, n3⟩ := pair_val_length s b i
  obtain ⟨n1', n2', n3'⟩ := pair_val_length t b i
  obtain ⟨c1, c2, c3, c4, c5, c6⟩ := pair_val_cursors s b i
  obtain ⟨c1', c2', c3', c4', c5', c6'⟩ := pair_val_cursors t b i
  have hbuf : (pair_val s b i).2 = (pair_val t b i).2 := by
    apply cell_ext (n3.trans n3'.symm)
    intro n
    rw [pair_val_buffer_cell hok, pair_val_buffer_cell hok', hl, hr, wl, wr']
  refine ⟨hbuf, ⟨⟨f1.trans (a1.trans f1'.symm), f2.trans (a2.trans f2'.symm), ?_, ?_, ?_, ?_,
    ?_, ?_, f4.trans (a9.trans f4'.symm), f3.trans (a10.trans f3'.symm), ?_, ?_, ?_, ?_⟩,
    n1.trans (l1.trans n1'.symm), n2.trans (l2.trans n2'.symm), ?_, ?_⟩, ?_⟩
  · rw [c1, c1', a1, a3]
  · rw [c2, c2', a2, a4]
  · funext k
    rw [c3, c3', same_ctrl_sp hc, a5]
  · funext k
    rw [c4, c4', same_ctrl_sp hc, a6]
  · funext j
    rw [c5, c5', a1, a7]
  · funext j
    rw [c6, c6', a2, a8]
  · funext k
    rw [(pair_val_hist s b i k).1, (pair_val_hist t b i k).1, hl, a11]
  · funext k
    rw [(pair_val_hist s b i k).2.1, (pair_val_hist t b i k).2.1, hl, a12, bl]
  · funext k
    rw [(pair_val_hist s b i k).2.2.1, (pair_val_hist t b i k).2.2.1, hr, a13]
  · funext k
    rw [(pair_val_hist s b i k).2.2.2, (pair_val_hist t b i k).2.2.2, hr, a14, br']
  · intro n hn
    rw [f1] at hn
    rw [pair_val_l_cell hok, pair_val_l_cell hok', drained_val_l_cell hok,
      drained_val_l_cell hok', hbuf, a3, a7]
    unfold sp_hits_l
    rw [a5, a6, cl n hn]
  · intro n hn
    rw [f2] at hn
    rw [pair_val_r_cell hok, pair_val_r_cell hok', drained_val_r_cell hok,
      drained_val_r_cell hok', hbuf, a4, a8]
    unfold sp_hits_r
    rw [a5, a6, cr n hn]
  · have n1 : s.l_buf_size ≠ 0 := hok.2.1.1
    have n2 : s.r_buf_size ≠ 0 := hok.2.1.2.1
    have o1 : 0 ≤ s.l_out := hok.2.2.1.2.2.1.1
    have o2 : 0 ≤ s.r_out := hok.2.2.1.2.2.2.1
    unfold drain_off_guard
    rw [f1, f2, c1, c2]
    refine ⟨g1, g2, Or.inr ?_, Or.inr ?_⟩
    · have := @adv_lt s.l_buf_size s.l_out (by omega)
      have := (adv_range o1 n1).1
      omega
    · have := @adv_lt s.r_buf_size s.r_out (by omega)
      have := (adv_range o2 n2).1
      omega

theorem pair_none_of_not_ok {s : Rvb} {b : List Int} {i : Int} (h : ¬ pair_ok s b i) :
    do_reverb_pair s b i = none := by
  cases hp : do_reverb_pair s b i with
  | none => rfl
  | some r => exact absurd (pair_iff.mp hp).1 h

theorem guard_eq_loop (size : Int) :
    ∀ (fuel : Nat) (i : Int) (s t : Rvb) (b : List Int), guard_eq s t → drain_off_guard s →
      outcome_eq (do_reverb_loop fuel i size s b) (do_reverb_loop fuel i size t b) := by
  intro fuel
  induction fuel with
  | zero =>
    intro i s t b h hd
    unfold do_reverb_loop
    by_cases hlt : i < size
    · exact Or.inl ⟨by simp [hlt], by simp [hlt]⟩
    · exact Or.inr ⟨(s, b), (t, b), by simp [hlt], by simp [hlt], rfl, h, hd⟩
  | succ fuel ih =>
    intro i s t b h hd
    unfold do_reverb_loop
    by_cases hlt : i < size
    · simp only [hlt, if_true]
      by_cases hok : pair_ok s b i
      · have hok' := (guard_eq_pair_ok h b i).mp hok
        obtain ⟨e1, e2, e3⟩ := guard_eq_pair h hd hok
        rw [pair_iff.mpr ⟨hok, rfl⟩, pair_iff.mpr ⟨hok', rfl⟩]
        simp only [Option.some_bind]
        rw [← e1]
        exact ih _ _ _ _ e2 e3
      · have hok' : ¬ pair_ok t b i := fun h' => hok ((guard_eq_pair_ok h b i).mpr h')
        rw [pair_none_of_not_ok hok, pair_none_of_not_ok hok']
        exact Or.inl ⟨rfl, rfl⟩
    · exact Or.inr ⟨(s, b), (t, b), by simp [hlt], by simp [hlt], rfl, h, hd⟩

theorem guard_eq_seq :
    ∀ (calls : List (List Int × Int)) (s t : Rvb), guard_eq s t → drain_off_guard s →
      outcome_eq (do_reverb_seq s calls) (do_reverb_seq t calls) := by
  intro calls
  induction calls with
  | nil =>
    intro s t h hd
    exact Or.inr ⟨(s, []), (t, []), rfl, rfl, rfl, h, hd⟩
  | cons c cs ih =>
    intro s t h hd
    unfold do_reverb_seq
    rcases guard_eq_loop c.2 c.2.toNat 0 s t c.1 h hd with ⟨h1, h2⟩ | ⟨a, b, h1, h2, e, g, d⟩
    · rw [do_reverb, do_reverb, h1, h2]
      exact Or.inl ⟨rfl, rfl⟩
    · rw [do_reverb, do_reverb, h1, h2]
      simp only [Option.some_bind]
      rcases ih a.1 b.1 g d with ⟨k1, k2⟩ | ⟨a', b', k1, k2, e', g', d'⟩
      · rw [k1, k2]
        exact Or.inl ⟨rfl, rfl⟩
      · rw [k1, k2]
        simp only [Option.some_bind]
        exact Or.inr ⟨_, _, rfl, rfl, by rw [e, e'], g', d'⟩

theorem init_val_guard_eq {rate : Int} (hrate : 0 ≤ rate) (coeff : Fin 6 → Fin 5 → Int)
    (lm1 rm1 lm2 rm2 : Nat → Int) :
    guard_eq (init_val rate coeff lm1 rm1) (init_val rate coeff lm2 rm2) ∧
    drain_off_guard (init_val rate coeff lm1 rm1) := by
  obtain ⟨c1, c2, c3, c4, -, -, -, -⟩ := init_val_cursors rate coeff lm1 rm1
  obtain ⟨-, -, b3⟩ := coef_bounds
  have hL := (scale_len_mono hrate (b3 3).1 (le_refl _)).1
  have hR := (scale_len_mono hrate (b3 4).1 (le_refl _)).1
  refine ⟨⟨⟨rfl, rfl, rfl, rfl, rfl, rfl, rfl, rfl, rfl, rfl, rfl, rfl, rfl, rfl⟩, ?_, ?_, ?_, ?_⟩,
    ?_⟩
  · simp [init_val, zeroed_length]
  · simp [init_val, zeroed_length]
  · intro n hn
    simp only [init_val] at hn ⊢
    rw [zeroed_cell, zeroed_cell]
    by_cases hlt : n < (delay_len rate geom.MAXL_DST).toNat
    · simp [hlt]
    · rw [cell_of_le (by simp only [List.length_map, List.length_range]; omega),
        cell_of_le (by simp only [List.length_map, List.length_range]; omega)]
  · intro n hn
    simp only [init_val] at hn ⊢
    rw [zeroed_cell, zeroed_cell]
    by_cases hlt : n < (delay_len rate geom.MAXR_DST).toNat
    · simp [hlt]
    · rw [cell_of_le (by simp only [List.length_map, List.length_range]; omega),
        cell_of_le (by simp only [List.length_map, List.length_range]; omega)]
  · unfold drain_off_guard
    rw [c1, c2, c3, c4]
    refine ⟨hL, hR, ?_, ?_⟩
    · by_cases h0 : scale_len rate (coef_RFN 3) = 0
      · exact Or.inl h0
      · refine Or.inr ?_
        simp only [Int.toNat_zero]
        omega
    · by_cases h0 : scale_len rate (coef_RFN 4) = 0
      · exact Or.inl h0
      · refine Or.inr ?_
        simp only [Int.toNat_zero]
        omega

/-- C9 (determinism). Two runs start from `init_reverb` at the same positive rate with the
same coefficient table but arbitrary, possibly different, contents of the allocated memory.
Both calls of `init_reverb` return, and the two records are related by `guard_eq`: every
field agrees and every delay cell agrees, the cell at index `l_buf_size` of `l_buf` and the
cell at index `r_buf_size` of `r_buf` apart. For the same sequence of even-length blocks
the two runs of `do_reverb` behave alike: either both are undefined, or both return, with
identical processed blocks and final records again related by `guard_eq`. When both rings
have at least one cell, the runs return. -/
theorem determinism (rate : Int) (coeff : Fin 6 → Fin 5 → Int) (lm1 rm1 lm2 rm2 : Nat → Int)
    (blocks : List (List Int)) (hrate : 0 < rate) (he : ∀ b ∈ blocks, 2 ∣ b.length) :
    ∃ s1 s2, init_reverb rate coeff lm1 rm1 = some s1 ∧
      init_reverb rate coeff lm2 rm2 = some s2 ∧ guard_eq s1 s2 ∧
      ((do_reverb_blocks s1 blocks = none ∧ do_reverb_blocks s2 blocks = none) ∨
        ∃ t1 t2 out, do_reverb_blocks s1 blocks = some (t1, out) ∧
          do_reverb_blocks s2 blocks = some (t2, out) ∧ guard_eq t1 t2) ∧
      (1 ≤ s1.l_buf_size → 1 ≤ s1.r_buf_size →
        ∃ t1 t2 out, do_reverb_blocks s1 blocks = some (t1, out) ∧
          do_reverb_blocks s2 blocks = some (t2, out) ∧ guard_eq t1 t2) := by
  obtain ⟨hg, hd⟩ := init_val_guard_eq (le_of_lt hrate) coeff lm1 rm1 lm2 rm2
  have hrel := guard_eq_seq (blocks.map fun b => (b, (b.length : Int))) _ _ hg hd
  have hcase : (do_reverb_blocks (init_val rate coeff lm1 rm1) blocks = none ∧
      do_reverb_blocks (init_val rate coeff lm2 rm2) blocks = none) ∨
      ∃ t1 t2 out, do_reverb_blocks (init_val rate coeff lm1 rm1) blocks = some (t1, out) ∧
        do_reverb_blocks (init_val rate coeff lm2 rm2) blocks = some (t2, out) ∧
        guard_eq t1 t2 := by
    rcases hrel with h | ⟨a, b, h1, h2, e, g, -⟩
    · exact Or.inl h
    · refine Or.inr ⟨a.1, b.1, a.2, h1, ?_, g⟩
      rw [e]
      exact h2
  refine ⟨_, _, init_reverb_eq rate coeff lm1 rm1, init_reverb_eq rate coeff lm2 rm2, hg,
    hcase, fun hl hr => ?_⟩
  have hw := init_val_within (le_of_lt hrate) coeff lm1 rm1
  obtain ⟨hgd, -, -, -⟩ := init_val_guarded rate coeff lm1 rm1
  obtain ⟨q, hq, -⟩ := do_reverb_blocks_cursors blocks (within_safe hw hgd hl hr) hl hr he
  rcases hcase with ⟨h1, -⟩ | h
  · rw [h1] at hq
    exact absurd hq (by simp)
  · exact h

/-- Witness for C9 at the rate 20 (rings of 2 and 3 cells), with guard cells 5 and 6 in one
run and -9 and 0 in the other: the two records returned by `init_reverb` differ. -/
theorem determinism_witness :
    init_reverb 20 coeff_44100 (fun _ => 5) (fun _ => 6) ≠
      init_reverb 20 coeff_44100 (fun _ => -9) (fun _ => 0) ∧
    ∃ s1 s2, init_reverb 20 coeff_44100 (fun _ => 5) (fun _ => 6) = some s1 ∧
      init_reverb 20 coeff_44100 (fun _ => -9) (fun _ => 0) = some s2 ∧ guard_eq s1 s2 ∧
      ((do_reverb_blocks s1 [[10000, -7000, 3, 40], [1, 2]] = none ∧
          do_reverb_blocks s2 [[10000, -7000, 3, 40], [1, 2]] = none) ∨
        ∃ t1 t2 out, do_reverb_blocks s1 [[10000, -7000, 3, 40], [1, 2]] = some (t1, out) ∧
          do_reverb_blocks s2 [[10000, -7000, 3, 40], [1, 2]] = some (t2, out) ∧
          guard_eq t1 t2) ∧
      (1 ≤ s1.l_buf_size → 1 ≤ s1.r_buf_size →
        ∃ t1 t2 out, do_reverb_blocks s1 [[10000, -7000, 3, 40], [1, 2]] = some (t1, out) ∧
          do_reverb_blocks s2 [[10000, -7000, 3, 40], [1, 2]] = some (t2, out) ∧
          guard_eq t1 t2) := by
  refine ⟨?_, determinism 20 coeff_44100 (fun _ => 5) (fun _ => 6) (fun _ => -9) (fun _ => 0)
    [[10000, -7000, 3, 40], [1, 2]] (by decide) (by decide)⟩
  rw [init_reverb_20, init_reverb_20]
  intro h
  have := congrArg (fun o : Option Rvb => o.map fun s => s.l_buf) h
  simp [room20] at this

theorem float_of_int_mono {r1 r2 : Int} (h0 : 0 ≤ r1) (h : r1 ≤ r2) :
    float_of_int r1 ≤ float_of_int r2 := by
  unfold float_of_int to_float
  exact round_signed_mono (by norm_num) (by norm_num) (mul_nonneg h0 (Int.ofNat_nonneg _))
    (mul_le_mul_of_nonneg_right h (Int.ofNat_nonneg _))

theorem scale_len_mono_rate {r1 r2 c : Int} (h0 : 0 ≤ r1) (h : r1 ≤ r2) (hc : 0 ≤ c) :
    scale_len r1 c ≤ scale_len r2 c := by
  unfold scale_len d_mul to_double
  have hF := float_of_int_nonneg h0
  exact (int_of_double_mono (round_signed_nonneg (mul_nonneg hF hc))
    (round_signed_mono (by norm_num) one_units_pos (mul_nonneg hF hc)
      (mul_le_mul_of_nonneg_right (float_of_int_mono h0 h) hc))).2

/-- C11 (buffer sizing monotonicity). For positive rates `r1 ≤ r2`, whatever the
coefficient tables and the contents of the fresh blocks, both calls of `init_reverb`
return, and the record for `r1` has `l_buf_size` and `r_buf_size` not larger than the
record for `r2`. -/
theorem buffer_size_monotone (r1 r2 : Int) (coeff1 coeff2 : Fin 6 → Fin 5 → Int)
    (lm1 rm1 lm2 rm2 : Nat → Int) (h1 : 0 < r1) (h : r1 ≤ r2) :
    ∃ s1 s2, init_reverb r1 coeff1 lm1 rm1 = some s1 ∧
      init_reverb r2 coeff2 lm2 rm2 = some s2 ∧
      s1.l_buf_size ≤ s2.l_buf_size ∧ s1.r_buf_size ≤ s2.r_buf_size := by
  obtain ⟨a1, a2, -⟩ := init_val_cursors r1 coeff1 lm1 rm1
  obtain ⟨b1, b2, -⟩ := init_val_cursors r2 coeff2 lm2 rm2
  obtain ⟨-, -, c3⟩ := coef_bounds
  refine ⟨_, _, init_reverb_eq r1 coeff1 lm1 rm1, init_reverb_eq r2 coeff2 lm2 rm2, ?_, ?_⟩
  · rw [a1, b1]
    exact scale_len_mono_rate (le_of_lt h1) h (c3 3).1
  · rw [a2, b2]
    exact scale_len_mono_rate (le_of_lt h1) h (c3 4).1

/-- Witness for C11: the rates 16000 and 44100. -/
theorem buffer_size_monotone_witness :
    ∃ s1 s2, init_reverb 16000 coeff_16000 (fun _ => 0) (fun _ => 0) = some s1 ∧
      init_reverb 44100 coeff_44100 (fun _ => 0) (fun _ => 0) = some s2 ∧
      s1.l_buf_size ≤ s2.l_buf_size ∧ s1.r_buf_size ≤ s2.r_buf_size :=
  buffer_size_monotone 16000 44100 coeff_16000 coeff_44100 (fun _ => 0) (fun _ => 0)
    (fun _ => 0) (fun _ => 0) (by decide) (by decide)

theorem int_part_of_nonneg {rate d : Int} (hp : 0 ≤ delay_prod rate d) :
    int_part rate d (delay_len rate d) := by
  have hu : (0 : Int) < one_units := Int.ofNat_pos.mpr one_units_pos
  have hne : (one_units : Int) ≠ 0 := ne_of_gt hu
  have hdl : delay_len rate d = int_of_double (delay_prod rate d) := rfl
  unfold int_part round_len
  rw [hdl]
  generalize delay_prod rate d = p at hp ⊢
  unfold int_of_double
  rw [Int.tdiv_eq_ediv hp (le_of_lt hu)]
  set U : Int := (one_units : Int) with hU
  set L : Int := p / U with hL
  have h1 : L * U ≤ p := Int.ediv_mul_le p hne
  have h2 : p < (L + 1) * U := Int.lt_ediv_add_one_mul_self p hu
  have h0 : 0 ≤ L := Int.ediv_nonneg hp (le_of_lt hu)
  have hc : c_round p = (2 * p + U) / (2 * U) := by
    unfold c_round
    have : ¬ p < 0 := by omega
    simp only [this, if_false]
  have h2u : (0 : Int) < 2 * U := by omega
  have hlo : L ≤ (2 * p + U) / (2 * U) := by
    apply Int.le_ediv_of_mul_le h2u
    nlinarith
  have hhi : (2 * p + U) / (2 * U) < L + 2 := by
    apply Int.ediv_lt_of_lt_mul h2u
    nlinarith
  have hiff : (2 * p + U) / (2 * U) = L + 1 ↔ U ≤ 2 * (p - L * U) := by
    constructor
    · intro h
      have := Int.ediv_mul_le (2 * p + U) (ne_of_gt h2u)
      rw [h] at this
      nlinarith
    · intro h
      have : L + 1 ≤ (2 * p + U) / (2 * U) := by
        apply Int.le_ediv_of_mul_le h2u
        nlinarith
      omega
  refine ⟨h0, h1, h2, ?_, ?_⟩
  · rw [hc]
    omega
  · rw [hc]
    exact hiff

theorem delay_prod_nonneg {rate : Int} (hr : 0 ≤ rate) :
    0 ≤ delay_prod rate geom.MAXL_DST ∧ 0 ≤ delay_prod rate geom.MAXR_DST ∧
    (∀ k, 0 ≤ delay_prod rate (geom.SPL_DST k)) ∧ (∀ k, 0 ≤ delay_prod rate (geom.SPR_DST k)) ∧
    (∀ k, 0 ≤ delay_prod rate (geom.RFN_DST k)) := by
  obtain ⟨g1, g2, g3, g4, g5⟩ := geom_coefs
  obtain ⟨b1, b2, b3⟩ := coef_bounds
  have hF := float_of_int_nonneg hr
  have key : ∀ c : Int, 0 ≤ c → 0 ≤ d_mul (float_of_int rate) c := fun c hc =>
    round_signed_nonneg (mul_nonneg hF hc)
  unfold delay_prod
  rw [g4, g5]
  refine ⟨?_, ?_, fun k => ?_, fun k => ?_, fun k => ?_⟩
  · rw [g3]
    exact key _ (b3 3).1
  · rw [g3]
    exact key _ (b3 4).1
  · rw [g1]
    exact key _ (b1 k).1
  · rw [g2]
    exact key _ (b2 k).1
  · rw [g3]
    exact key _ (b3 k).1

/-- C12 as amended (delay quantisation). For every positive rate `init_reverb` returns, and
each delay length of the record (both ring sizes and every cursor of `l_sp_in`, `r_sp_in`,
`l_in`, `r_in`) is the integer part of the `double` product
`(float)rate * (distance / 340.29)` of its path: `len <= product < len + 1`.  The nearest
integer `round_len` is `len` or `len + 1`, and it is `len + 1` exactly when the fraction
of the product is one half or more. -/
theorem delay_quantisation (rate : Int) (coeff : Fin 6 → Fin 5 → Int) (l_mem r_mem : Nat → Int)
    (hrate : 0 < rate) :
    ∃ s, init_reverb rate coeff l_mem r_mem = some s ∧
      int_part rate geom.MAXL_DST s.l_buf_size ∧ int_part rate geom.MAXR_DST s.r_buf_size ∧
      (∀ k, int_part rate (geom.SPL_DST k) (s.l_sp_in k)) ∧
      (∀ k, int_part rate (geom.SPR_DST k) (s.r_sp_in k)) ∧
      (∀ j, int_part rate (geom.RFN_DST (lo4 j)) (s.l_in j)) ∧
      (∀ j, int_part rate (geom.RFN_DST (hi4 j)) (s.r_in j)) := by
  obtain ⟨p1, p2, p3, p4, p5⟩ := delay_prod_nonneg (le_of_lt hrate)
  exact ⟨_, init_reverb_eq rate coeff l_mem r_mem, int_part_of_nonneg p1, int_part_of_nonneg p2,
    fun k => int_part_of_nonneg (p3 k), fun k => int_part_of_nonneg (p4 k),
    fun j => int_part_of_nonneg (p5 _), fun j => int_part_of_nonneg (p5 _)⟩

/-- Witness of C12 as amended: the rate 44100. -/
theorem delay_quantisation_witness :
    ∃ s, init_reverb 44100 coeff_44100 (fun _ => 0) (fun _ => 0) = some s ∧
      int_part 44100 geom.MAXL_DST s.l_buf_size ∧ int_part 44100 geom.MAXR_DST s.r_buf_size ∧
      (∀ k, int_part 44100 (geom.SPL_DST k) (s.l_sp_in k)) ∧
      (∀ k, int_part 44100 (geom.SPR_DST k) (s.r_sp_in k)) ∧
      (∀ j, int_part 44100 (geom.RFN_DST (lo4 j)) (s.l_in j)) ∧
      (∀ j, int_part 44100 (geom.RFN_DST (hi4 j)) (s.r_in j)) :=
  delay_quantisation 44100 coeff_44100 (fun _ => 0) (fun _ => 0) (by decide)

set_option maxRecDepth 100000 in
theorem round_44100 :
    c_round (d_mul (float_of_int 44100) (coef_RFN 4)) = 7557 ∧
    c_round (d_mul (float_of_int 44100) (coef_SPL 4)) = 7514 := by
  decide!

/-- Counterexample to C12 as stated: for the rate 44100 the product for the longest right
path is about 7556.64; `init_reverb` stores `r_buf_size = 7556`, the nearest integer is
7557.  Likewise `l_sp_in[4] = 7513` for a product of about 7513.70. -/
theorem delay_quantisation_counterexample :
    ∃ s, init_reverb 44100 coeff_44100 (fun _ => 0) (fun _ => 0) = some s ∧
      s.r_buf_size = 7556 ∧ round_len 44100 geom.MAXR_DST = 7557 ∧
      s.l_sp_in 4 = 7513 ∧ round_len 44100 (geom.SPL_DST 4) = 7514 := by
  obtain ⟨g1, -, g3, -, g5⟩ := geom_coefs
  obtain ⟨-, c2, -, -, c5, -⟩ := init_val_cursors 44100 coeff_44100 (fun _ => 0) (fun _ => 0)
  obtain ⟨s1, -, s3⟩ := scale_44100
  refine ⟨_, init_reverb_eq _ _ _ _, ?_, ?_, ?_, ?_⟩
  · rw [c2, s3]
    rfl
  · unfold round_len delay_prod
    rw [g5, g3]
    exact round_44100.1
  · rw [c5, s1]
    rfl
  · unfold round_len delay_prod
    rw [g1]
    exact round_44100.2

theorem loop_eq_pairs (size : Int) :
    ∀ (fuel : Nat) (i : Int) (s : Rvb) (b : List Int), trip_count i size ≤ fuel →
      do_reverb_loop fuel i size s b = do_reverb_pairs (trip_count i size) i s b := by
  intro fuel
  induction fuel with
  | zero =>
    intro i s b h
    have h0 : trip_count i size = 0 := by omega
    have hlt : ¬ i < size := by
      unfold trip_count at h0
      omega
    rw [h0]
    simp [do_reverb_loop, do_reverb_pairs, hlt]
  | succ fuel ih =>
    intro i s b h
    unfold do_reverb_loop
    by_cases hlt : i < size
    · have hk : trip_count i size = trip_count (i + 2) size + 1 := by
        unfold trip_count
        omega
      rw [hk]
      simp only [hlt, if_true, do_reverb_pairs]
      congr 1
      funext st
      exact ih _ _ _ (by omega)
    · have h0 : trip_count i size = 0 := by
        unfold trip_count
        omega
      rw [h0]
      simp [do_reverb_pairs, hlt]

theorem do_reverb_eq_pairs (s : Rvb) (b : List Int) (size : Int) :
    do_reverb s b size = do_reverb_pairs (trip_count 0 size) 0 s b := by
  unfold do_reverb
  apply loop_eq_pairs
  unfold trip_count
  omega

theorem filter_val_fst (l r i i' : Int) (s : Rvb) (b b' : List Int) :
    (filter_val l r i s b).1 = (filter_val l r i' s b').1 := rfl

theorem cell_append (a x : List Int) (n : Nat) :
    cell (a ++ x) n = if n < a.length then cell a n else cell x (n - a.length) := by
  unfold cell
  by_cases h : n < a.length
  · simp [h, List.getElem?_append_left h]
  · simp [h, List.getElem?_append_right (not_lt.mp h)]

theorem hit_self (c : Int) (v : Int) : hit c c.toNat v = v := by
  simp [hit]

theorem hit_ne {c : Int} {n : Nat} (h : c.toNat ≠ n) (v : Int) : hit c n v = 0 := by
  simp [hit, h]

theorem rfl_val_congr {s : Rvb} {b b' : List Int} {i i' : Int}
    (e0 : cell b i.toNat = cell b' i'.toNat)
    (e1 : cell b (i + 1).toNat = cell b' (i' + 1).toNat) :
    l_rfl_val s b i = l_rfl_val s b' i' ∧ r_rfl_val s b i = r_rfl_val s b' i' ∧
    drained_val s b i = drained_val s b' i' := by
  unfold l_rfl_val r_rfl_val drained_val
  rw [e0, e1]
  exact ⟨rfl, rfl, rfl⟩

theorem filtered_val_cells {s : Rvb} {b : List Int} {i : Int} (h : pair_in b i) :
    cell (filtered_val s b i).2 i.toNat =
      cell b i.toNat + ∑ j : Fin 6, band_l (drained_val s b i) (l_rfl_val s b i) j ∧
    cell (filtered_val s b i).2 (i + 1).toNat =
      cell b (i + 1).toNat + ∑ j : Fin 6, band_r (drained_val s b i) (r_rfl_val s b i) j := by
  obtain ⟨-, -, hne⟩ := pair_in_lt h
  unfold filtered_val
  rw [filter_val_cell h, filter_val_cell h, hit_self, hit_self, hit_ne hne, hit_ne hne.symm]
  constructor <;> ring

theorem pair_val_fst_congr {s : Rvb} {b b' : List Int} {i i' : Int} (h : pair_in b i)
    (h' : pair_in b' i') (e0 : cell b i.toNat = cell b' i'.toNat)
    (e1 : cell b (i + 1).toNat = cell b' (i' + 1).toNat) :
    (pair_val s b i).1 = (pair_val s b' i').1 := by
  obtain ⟨el, er, ed⟩ := rfl_val_congr (s := s) e0 e1
  obtain ⟨c0, c1⟩ := filtered_val_cells (s := s) h
  obtain ⟨c0', c1'⟩ := filtered_val_cells (s := s) h'
  have hF : (filtered_val s b i).1 = (filtered_val s b' i').1 := by
    unfold filtered_val
    rw [el, er, ed]
    exact filter_val_fst _ _ _ _ _ _ _
  show reinject_val _ _ (filtered_val s b i).1 = reinject_val _ _ (filtered_val s b' i').1
  rw [c0, c1, c0', c1', hF, el, er, ed, e0, e1]

theorem pair_embed (s : Rvb) (p b x : List Int) (i : Int) (hi : 0 ≤ i)
    (h : x = [] ∨ pair_in b i) :
    do_reverb_pair s (p ++ b ++ x) (p.length + i) =
      (do_reverb_pair s b i).map fun r => (r.1, p ++ r.2 ++ x) := by
  have t0 : ((p.length : Int) + i).toNat = p.length + i.toNat := by omega
  have t1 : ((p.length : Int) + i + 1).toNat = p.length + i.toNat + 1 := by omega
  have t2 : (i + 1).toNat = i.toNat + 1 := by omega
  by_cases hin : pair_in b i
  · have hb : i.toNat + 1 < b.length := by
      have := hin.2
      omega
    have hin' : pair_in (p ++ b ++ x) (p.length + i) := by
      refine ⟨by omega, ?_⟩
      simp only [List.length_append]
      omega
    have e0 : cell (p ++ b ++ x) ((p.length : Int) + i).toNat = cell b i.toNat := by
      rw [t0, cell_append, cell_append]
      simp only [List.length_append]
      have a1 : p.length + i.toNat < p.length + b.length := by omega
      have a2 : ¬ p.length + i.toNat < p.length := by omega
      simp only [a1, a2, if_true, if_false, Nat.add_sub_cancel_left]
    have e1 : cell (p ++ b ++ x) ((p.length : Int) + i + 1).toNat = cell b (i + 1).toNat := by
      rw [t1, t2, cell_append, cell_append]
      simp only [List.length_append]
      have a1 : p.length + i.toNat + 1 < p.length + b.length := by omega
      have a2 : ¬ p.length + i.toNat + 1 < p.length := by omega
      have a3 : p.length + i.toNat + 1 - p.length = i.toNat + 1 := by omega
      simp only [a1, a2, if_true, if_false, a3]
    by_cases hok : pair_ok s b i
    · have hok' : pair_ok s (p ++ b ++ x) (p.length + i) := ⟨hin', hok.2⟩
      obtain ⟨el, er, -⟩ := rfl_val_congr (s := s) e0 e1
      rw [pair_iff.mpr ⟨hok, rfl⟩, pair_iff.mpr ⟨hok', rfl⟩]
      simp only [Option.map_some']
      refine congrArg some (Prod.ext (pair_val_fst_congr hin' hin e0 e1) ?_)
      apply cell_ext
      · simp only [List.length_append, (pair_val_length _ _ _).2.2]
      · intro n
        simp only [cell_append, List.length_append, (pair_val_length _ _ _).2.2,
          pair_val_buffer_cell hok, pair_val_buffer_cell hok', el, er, hit, t0, t1, t2]
        by_cases c1 : n < p.length
        · have a1 : n < p.length + b.length := by omega
          have a2 : ¬ p.length + i.toNat = n := by omega
          have a3 : ¬ p.length + i.toNat + 1 = n := by omega
          simp only [c1, a1, a2, a3, if_true, if_false, add_zero]
        · by_cases c2 : n < p.length + b.length
          · have a2 : (p.length + i.toNat = n) = (i.toNat = n - p.length) := by
              apply propext
              omega
            have a3 : (p.length + i.toNat + 1 = n) = (i.toNat + 1 = n - p.length) := by
              apply propext
              omega
            simp only [c1, c2, a2, a3, if_true, if_false]
          · have a2 : ¬ p.length + i.toNat = n := by omega
            have a3 : ¬ p.length + i.toNat + 1 = n := by omega
            simp only [c2, a2, a3, if_false, add_zero]
    · have hok' : ¬ pair_ok s (p ++ b ++ x) (p.length + i) := fun h' => hok ⟨hin, h'.2⟩
      rw [pair_none_of_not_ok hok, pair_none_of_not_ok hok']
      rfl
  · have hx : x = [] := h.resolve_right hin
    subst hx
    have hin' : ¬ pair_in (p ++ b ++ []) (p.length + i) := by
      intro h'
      apply hin
      refine ⟨hi, ?_⟩
      have := h'.2
      simp only [List.length_append, List.length_nil] at this
      omega
    rw [pair_none_of_not_ok (fun h' => hin h'.1), pair_none_of_not_ok (fun h' => hin' h'.1)]
    rfl

theorem pairs_length :
    ∀ (k : Nat) (i : Int) (s : Rvb) (b : List Int) (r : Rvb × List Int),
      do_reverb_pairs k i s b = some r → r.2.length = b.length := by
  intro k
  induction k with
  | zero =>
    intro i s b r h
    simp only [do_reverb_pairs, Option.some.injEq] at h
    subst h
    rfl
  | succ k ih =>
    intro i s b r h
    unfold do_reverb_pairs at h
    obtain ⟨st, h1, h2⟩ := Option.bind_eq_some.mp h
    obtain ⟨-, hv⟩ := pair_iff.mp h1
    rw [ih _ _ _ _ h2, hv]
    exact (pair_val_length _ _ _).2.2

theorem pairs_succ (k : Nat) (i : Int) (s : Rvb) (b : List Int) :
    do_reverb_pairs (k + 1) i s b =
      (do_reverb_pair s b i).bind fun st => do_reverb_pairs k (i + 2) st.1 st.2 := rfl

theorem pairs_add (k2 : Nat) :
    ∀ (k1 : Nat) (i : Int) (s : Rvb) (b : List Int),
      do_reverb_pairs (k1 + k2) i s b =
        (do_reverb_pairs k1 i s b).bind fun r => do_reverb_pairs k2 (i + 2 * k1) r.1 r.2 := by
  intro k1
  induction k1 with
  | zero =>
    intro i s b
    simp [do_reverb_pairs]
  | succ k1 ih =>
    intro i s b
    have e : k1 + 1 + k2 = (k1 + k2) + 1 := by omega
    rw [e, pairs_succ, pairs_succ]
    cases do_reverb_pair s b i with
    | none => rfl
    | some st =>
      simp only [Option.some_bind]
      rw [ih]
      have e2 : i + 2 + 2 * (k1 : Int) = i + 2 * ((k1 + 1 : Nat) : Int) := by
        push_cast
        ring
      rw [e2]

theorem pairs_embed (p x : List Int) :
    ∀ (k : Nat) (i : Int) (s : Rvb) (b : List Int), 0 ≤ i →
      (x = [] ∨ i + 2 * k ≤ b.length) →
      do_reverb_pairs k (p.length + i) s (p ++ b ++ x) =
        (do_reverb_pairs k i s b).map fun r => (r.1, p ++ r.2 ++ x) := by
  intro k
  induction k with
  | zero =>
    intro i s b _ _
    rfl
  | succ k ih =>
    intro i s b hi h
    rw [pairs_succ, pairs_succ]
    have hp : x = [] ∨ pair_in b i := by
      rcases h with h | h
      · exact Or.inl h
      · refine Or.inr ⟨hi, ?_⟩
        push_cast at h
        omega
    rw [pair_embed s p b x i hi hp]
    cases hd : do_reverb_pair s b i with
    | none => rfl
    | some st =>
      simp only [Option.map_some', Option.some_bind]
      have hl : st.2.length = b.length := by
        rw [(pair_iff.mp hd).2]
        exact (pair_val_length _ _ _).2.2
      have := ih (i + 2) st.1 st.2 (by omega) (by
        rcases h with h | h
        · exact Or.inl h
        · refine Or.inr ?_
          rw [hl]
          push_cast at h ⊢
          omega)
      rw [← this, add_assoc]

theorem trip_count_nat (n : Nat) : trip_count 0 n = (n + 1) / 2 := by
  unfold trip_count
  omega

theorem do_reverb_append (s : Rvb) (b x : List Int) (k : Nat) (hk : 2 * k ≤ b.length) :
    do_reverb s (b ++ x) (2 * k : Nat) =
      (do_reverb s b (2 * k : Nat)).map fun r => (r.1, r.2 ++ x) := by
  have e : trip_count 0 ((2 * k : Nat) : Int) = k := by
    rw [trip_count_nat]
    omega
  rw [do_reverb_eq_pairs, do_reverb_eq_pairs, e]
  have := pairs_embed [] x k 0 s b le_rfl (Or.inr (by omega))
  simpa using this

theorem do_reverb_odd_none (s : Rvb) (b : List Int) (k : Nat) (hb : b.length = 2 * k + 1) :
    do_reverb s b (2 * k + 1 : Nat) = none := by
  have e : trip_count 0 ((2 * k + 1 : Nat) : Int) = k + 1 := by
    rw [trip_count_nat]
    omega
  rw [do_reverb_eq_pairs, e, pairs_add 1 k 0 s b]
  cases hp : do_reverb_pairs k 0 s b with
  | none => rfl
  | some r =>
    have hl := pairs_length _ _ _ _ _ hp
    have hin : ¬ pair_in r.2 (0 + 2 * (k : Int)) := by
      intro h
      have := h.2
      omega
    simp only [Option.some_bind, pairs_succ]
    rw [pair_none_of_not_ok (fun h => hin h.1)]
    rfl

/-- C13 as amended (odd-length policy). The sample loop of `do_reverb(rvb, buffer, n)` runs
`(n + 1) / 2` iterations, for the pairs at the indices `0, 2, ...`.
* For an even `n` these are `n / 2` iterations on the indices below `n`: on a block of `n`
  samples followed by any further cells `x` the call does what it does on the `n` samples
  alone and leaves `x` as it is, and on a memory-safe record it returns.
* For an odd `n` the call is the call with `n + 1`: the last iteration processes
  `buffer[n - 1]` together with `buffer[n]`.  On a block of exactly `n` samples that
  iteration leaves the block, and the call is undefined. -/
theorem odd_length_policy (s : Rvb) (b x : List Int) (n : Nat) :
    do_reverb s b n = do_reverb_pairs ((n + 1) / 2) 0 s b ∧
    (2 ∣ n → b.length = n →
      do_reverb s (b ++ x) n = (do_reverb s b n).map fun r => (r.1, r.2 ++ x)) ∧
    (2 ∣ n → n ≤ b.length → Safe s → ∃ r, do_reverb s b n = some r) ∧
    (¬ 2 ∣ n → do_reverb s b n = do_reverb s b (n + 1)) ∧
    (¬ 2 ∣ n → b.length = n → do_reverb s b n = none) := by
  refine ⟨?_, ?_, ?_, ?_, ?_⟩
  · rw [do_reverb_eq_pairs, trip_count_nat]
  · rintro ⟨k, rfl⟩ hb
    exact do_reverb_append s b x k (by omega)
  · intro h2 hb hs
    obtain ⟨r, hr, -⟩ := @do_reverb_total s b (n : Int) hs
      (Int.natCast_dvd_natCast.mpr h2) (by exact_mod_cast hb)
    exact ⟨r, hr⟩
  · intro h2
    rw [do_reverb_eq_pairs, do_reverb_eq_pairs]
    have e1 := trip_count_nat n
    have e2 := trip_count_nat (n + 1)
    push_cast at e2
    rw [e1, e2]
    congr 1
    omega
  · intro h2 hb
    obtain ⟨k, hk⟩ : ∃ k, n = 2 * k + 1 := ⟨n / 2, by omega⟩
    subst hk
    exact do_reverb_odd_none s b k hb

/-- Witness of C13 as amended, on the record of rate 20: a call with the even size 4 on five
cells leaves the fifth alone, and a call with the odd size 3 on three cells is undefined. -/
theorem odd_length_policy_witness :
    do_reverb (room20 coeff_44100 0 0) ([10000, -7000, 3, 40] ++ [7]) (4 : Nat) =
      (do_reverb (room20 coeff_44100 0 0) [10000, -7000, 3, 40] (4 : Nat)).map
        (fun r => (r.1, r.2 ++ [7])) ∧
    do_reverb (room20 coeff_44100 0 0) [10000, -7000, 3] (3 : Nat) = none :=
  ⟨(odd_length_policy (room20 coeff_44100 0 0) [10000, -7000, 3, 40] [7] 4).2.1
      (by decide) rfl,
    (odd_length_policy (room20 coeff_44100 0 0) [10000, -7000, 3] [] 3).2.2.2.2
      (by decide) rfl⟩

/-- Counterexample to C13 as stated, on the record of rate 20 with the odd size 3.  The call
on four cells shows what the loop does: the trailing sample `buffer[2] = 3` becomes
`-1699` and the cell `buffer[3] = 40` behind the three samples becomes `449`, so the
trailing sample is processed and `buffer[3]` is read and written.  On a block of exactly
three samples the first pair is processed and the second iteration leaves the block: the
call is undefined, it is not refused. -/
theorem odd_length_policy_counterexample :
    (do_reverb (room20 coeff_44100 0 0) [10000, -7000, 3, 40] 3).map (fun r => r.2)
      = some [10811, -7000, -1699, 449] ∧
    (do_reverb_pairs 1 0 (room20 coeff_44100 0 0) [10000, -7000, 3]).map (fun r => r.2)
      = some [10811, -7000, 3] ∧
    (do_reverb_pairs 1 0 (room20 coeff_44100 0 0) [10000, -7000, 3]).bind
      (fun r => load r.2 3) = none ∧
    (do_reverb (room20 coeff_44100 0 0) [10000, -7000, 3] 3).map (fun r => r.2) = none := by
  decide!

theorem do_reverb_inv (P : Rvb → Prop)
    (hpair : ∀ s b i, P s → pair_ok s b i → P (pair_val s b i).1)
    {s : Rvb} {b : List Int} {size : Int} {r : Rvb × List Int} (h0 : P s)
    (h : do_reverb s b size = some r) : P r.1 := by
  obtain ⟨_, -, hP⟩ := loop_inv size (fun _ s' _ => P s')
    (fun i s' b' hs' _ hok => hpair s' b' i hs' hok) size.toNat 0 s b r h0 h
  exact hP

theorem do_reverb_seq_inv (P : Rvb → Prop)
    (hpair : ∀ s b i, P s → pair_ok s b i → P (pair_val s b i).1)
    {s : Rvb} {calls : List (List Int × Int)} {q : Rvb × List (List Int)} (h0 : P s)
    (h : do_reverb_seq s calls = some q) : P q.1 :=
  seq_inv P (fun _ _ _ _ hs hr => do_reverb_inv P hpair hs hr) calls s q h0 h

theorem shift_apply (h : Fin 2 → Int) (x : Int) : shift h x 0 = x ∧ shift h x 1 = h 0 := by
  constructor <;> simp [shift]

/-- C15 (filter history shift).
* Whenever the body of the sample loop returns for a pair, with `l_rfl` and `r_rfl` the
  values drained from the two delay lines, each band `j` has its left input history
  shifted (`in[j][1]` holds the former `in[j][0]`, `in[j][0]` holds `l_rfl`) and its left
  output history shifted (`out[j][1]` holds the former `out[j][0]`, `out[j][0]` the band
  expression on `l_rfl` and the former histories); likewise on the right with `r_rfl`.
* The body returns on every memory-safe record for a pair inside the block.
* In every record reached from the result of `reset_reverb` by calls of `do_reverb`, the
  input history of a channel is the same for all six bands. -/
theorem filter_history_shift (s : Rvb) (buffer : List Int) (i : Int) :
    (∀ r, do_reverb_pair s buffer i = some r →
      ∃ d, pair_drain s buffer i = some d ∧ ∀ j,
        r.1.l_buf_flt_in j 1 = s.l_buf_flt_in j 0 ∧ r.1.l_buf_flt_in j 0 = d.1 ∧
        r.1.l_buf_flt_out j 1 = s.l_buf_flt_out j 0 ∧
        r.1.l_buf_flt_out j 0 =
          band_out d.1 (s.coeff j) (s.l_buf_flt_in j) (s.l_buf_flt_out j) ∧
        r.1.r_buf_flt_in j 1 = s.r_buf_flt_in j 0 ∧ r.1.r_buf_flt_in j 0 = d.2.1 ∧
        r.1.r_buf_flt_out j 1 = s.r_buf_flt_out j 0 ∧
        r.1.r_buf_flt_out j 0 =
          band_out d.2.1 (s.coeff j) (s.r_buf_flt_in j) (s.r_buf_flt_out j)) ∧
    (Safe s → pair_in buffer i → ∃ r, do_reverb_pair s buffer i = some r) ∧
    (∀ s1 calls q, reset_reverb s = some s1 → do_reverb_seq s1 calls = some q →
      ∀ j k, q.1.l_buf_flt_in j = q.1.l_buf_flt_in k ∧
        q.1.r_buf_flt_in j = q.1.r_buf_flt_in k) := by
  refine ⟨?_, ?_, ?_⟩
  · intro r hr
    obtain ⟨hok, hv⟩ := pair_iff.mp hr
    subst hv
    refine ⟨_, pair_drain_iff.mpr ⟨⟨hok.1, hok.2.1, hok.2.2.1⟩, rfl⟩, fun j => ?_⟩
    obtain ⟨h1, h2, h3, h4⟩ := pair_val_hist s buffer i j
    rw [h1, h2, h3, h4]
    exact ⟨(shift_apply _ _).2, (shift_apply _ _).1, (shift_apply _ _).2, (shift_apply _ _).1,
      (shift_apply _ _).2, (shift_apply _ _).1, (shift_apply _ _).2, (shift_apply _ _).1⟩
  · intro hs hin
    exact ⟨_, pair_iff.mpr ⟨safe_pair_ok hs hin, rfl⟩⟩
  · intro s1 calls q h1 h2
    obtain ⟨-, hv⟩ := reset_iff.mp h1
    refine do_reverb_seq_inv
      (fun t => ∀ j k, t.l_buf_flt_in j = t.l_buf_flt_in k ∧ t.r_buf_flt_in j = t.r_buf_flt_in k)
      ?_ ?_ h2
    · intro t b i' ht _ j k
      rw [(pair_val_hist t b i' j).1, (pair_val_hist t b i' k).1,
        (pair_val_hist t b i' j).2.2.1, (pair_val_hist t b i' k).2.2.1, (ht j k).1, (ht j k).2]
      exact ⟨rfl, rfl⟩
    · intro j k
      subst hv
      exact ⟨rfl, rfl⟩

/-- Witness for C15 on the record of rate 20: after the pair `[10000, -7000]` every band
holds the drained values 188 and 0 in its input histories, and band 1 holds its output
`(188 * 1005) / 1024 = 184`. -/
theorem filter_history_shift_witness :
    ∃ r, do_reverb_pair (room20 coeff_44100 5 6) [10000, -7000] 0 = some r ∧
      (∀ j, r.1.l_buf_flt_in j 0 = 188 ∧ r.1.l_buf_flt_in j 1 = 0 ∧
        r.1.r_buf_flt_in j 0 = 0) ∧ r.1.l_buf_flt_out 1 0 = 184 := by
  obtain ⟨r, hr⟩ := (filter_history_shift (room20 coeff_44100 5 6) [10000, -7000] 0).2.1
    (by decide) (by decide)
  have e : (do_reverb_pair (room20 coeff_44100 5 6) [10000, -7000] 0).map
      (fun r => (decide (∀ j, r.1.l_buf_flt_in j 0 = 188 ∧ r.1.l_buf_flt_in j 1 = 0 ∧
        r.1.r_buf_flt_in j 0 = 0), r.1.l_buf_flt_out 1 0)) = some (true, 184) := by decide
  rw [hr] at e
  simp only [Option.map_some', Option.some.injEq, Prod.mk.injEq, decide_eq_true_eq] at e
  exact ⟨r, hr, e.1, e.2⟩

theorem do_reverb_split (s : Rvb) (a b : List Int) (ka : Nat) (ha : a.length = 2 * ka) :
    do_reverb s (a ++ b) ((a ++ b).length : Nat) =
      (do_reverb s a (a.length : Nat)).bind fun r =>
        (do_reverb r.1 b (b.length : Nat)).map fun q => (q.1, r.2 ++ q.2) := by
  have e1 : trip_count 0 (((a ++ b).length : Nat) : Int) = ka + (b.length + 1) / 2 := by
    rw [trip_count_nat, List.length_append]
    omega
  have e2 : trip_count 0 ((a.length : Nat) : Int) = ka := by
    rw [trip_count_nat]
    omega
  have e3 : trip_count 0 ((b.length : Nat) : Int) = (b.length + 1) / 2 := trip_count_nat _
  rw [do_reverb_eq_pairs, do_reverb_eq_pairs, e1, e2, pairs_add]
  have h1 := pairs_embed [] b ka 0 s a le_rfl (Or.inr (by omega))
  simp only [List.length_nil, Nat.cast_zero, add_zero, List.nil_append] at h1
  rw [h1]
  cases hp : do_reverb_pairs ka 0 s a with
  | none => rfl
  | some r =>
    have hl := pairs_length _ _ _ _ _ hp
    simp only [Option.map_some', Option.some_bind]
    rw [do_reverb_eq_pairs, e3]
    have h2 := pairs_embed r.2 [] ((b.length + 1) / 2) 0 r.1 b le_rfl (Or.inl rfl)
    simp only [List.append_nil, add_zero] at h2
    have e4 : (0 : Int) + 2 * (ka : Int) = (r.2.length : Int) := by omega
    rw [e4, h2]

/-- C16 (block-splitting invariance). For every record and every two sample blocks `a`, `b`
with `a` of even length, one call of `do_reverb` on `a ++ b` gives what the call on `a`
followed by the call on `b` gives: the same final record and the two processed blocks one
after the other; both sides are undefined together.  A call with size 0 returns the record
and the block unchanged.  On a memory-safe record with `b` of even length the calls
return. -/
theorem block_splitting (s : Rvb) (a b : List Int) (ha : 2 ∣ a.length) :
    do_reverb s (a ++ b) ((a ++ b).length : Nat) =
      ((do_reverb s a (a.length : Nat)).bind fun r =>
        (do_reverb r.1 b (b.length : Nat)).map fun q => (q.1, r.2 ++ q.2)) ∧
    do_reverb s b 0 = some (s, b) ∧
    (Safe s → 2 ∣ b.length →
      ∃ r q, do_reverb s a (a.length : Nat) = some r ∧
        do_reverb r.1 b (b.length : Nat) = some q ∧
        do_reverb s (a ++ b) ((a ++ b).length : Nat) = some (q.1, r.2 ++ q.2)) := by
  obtain ⟨ka, hka⟩ := ha
  have hsplit := do_reverb_split s a b ka hka
  refine ⟨hsplit, rfl, fun hs hb => ?_⟩
  obtain ⟨r, hr, hsr, -⟩ := @do_reverb_total s a (a.length : Nat) hs
    (Int.natCast_dvd_natCast.mpr ⟨ka, hka⟩) le_rfl
  obtain ⟨q, hq, -, -⟩ := @do_reverb_total r.1 b (b.length : Nat) hsr
    (Int.natCast_dvd_natCast.mpr hb) le_rfl
  refine ⟨r, q, hr, hq, ?_⟩
  rw [hsplit, hr]
  simp only [Option.some_bind, hq, Option.map_some']

/-- Witness for C16 on the record of rate 20: the blocks `[10000, -7000]` and `[3, 40]`. -/
theorem block_splitting_witness :
    ∃ r q, do_reverb (room20 coeff_44100 5 6) [10000, -7000] (2 : Nat) = some r ∧
      do_reverb r.1 [3, 40] (2 : Nat) = some q ∧
      do_reverb (room20 coeff_44100 5 6) ([10000, -7000] ++ [3, 40]) (4 : Nat)
        = some (q.1, r.2 ++ q.2) ∧ r.2 ++ q.2 = [10811, -7000, -1699, 449] := by
  obtain ⟨r, q, hr, hq, h⟩ := (block_splitting (room20 coeff_44100 5 6) [10000, -7000] [3, 40]
    (by decide)).2.2 (by decide) (by decide)
  have e : (do_reverb (room20 coeff_44100 5 6) ([10000, -7000] ++ [3, 40]) (4 : Nat)).map
      (fun p => p.2) = some [10811, -7000, -1699, 449] := by decide!
  refine ⟨r, q, hr, hq, h, ?_⟩
  have h' : do_reverb (room20 coeff_44100 5 6) ([10000, -7000] ++ [3, 40]) (4 : Nat)
      = some (q.1, r.2 ++ q.2) := h
  rw [h'] at e
  simpa using e

theorem do_reverb_guarded {s : Rvb} {b : List Int} {size : Int} {r : Rvb × List Int}
    (hg : Guarded s) (h : do_reverb s b size = some r) : Guarded r.1 := by
  have := do_reverb_inv
    (fun t => t.l_buf.length = s.l_buf.length ∧ t.r_buf.length = s.r_buf.length ∧
      t.l_buf_size = s.l_buf_size ∧ t.r_buf_size = s.r_buf_size)
    (fun t b' i ht _ => by
      obtain ⟨f1, f2, -, -⟩ := pair_val_frame t b' i
      obtain ⟨n1, n2, -⟩ := pair_val_length t b' i
      exact ⟨n1.trans ht.1, n2.trans ht.2.1, f1.trans ht.2.2.1, f2.trans ht.2.2.2⟩)
    ⟨rfl, rfl, rfl, rfl⟩ h
  obtain ⟨a1, a2, a3, a4⟩ := this
  unfold Guarded
  rw [a1, a2, a3, a4]
  exact hg

/-- C17 (guard-slot safety). On every record with `l_buf_size >= 1` and `r_buf_size >= 1`
whose cursors lie in the closed range `[0, size]` of their ring and whose blocks have the
`size + 1` cells that `init_reverb` allocates, `do_reverb` with an even size on a sample
block that holds `size` samples returns: no remainder is taken by zero and no access leaves
the `size + 1` cells.  The blocks keep their `size + 1` cells, the cursors stay in
`[0, size]`, and when at least one pair was processed every cursor lies in
`[0, size)`. -/
theorem guard_slot_safety (s : Rvb) (buffer : List Int) (size : Int)
    (hl : 1 ≤ s.l_buf_size) (hr : 1 ≤ s.r_buf_size) (hw : Within s) (hg : Guarded s)
    (he : 2 ∣ size) (hb : size ≤ buffer.length) :
    ∃ r, do_reverb s buffer size = some r ∧ Guarded r.1 ∧ Within r.1 ∧
      (0 < size → Wrapped r.1) := by
  obtain ⟨r, h, -, -, -, hW, hE⟩ := do_reverb_cursors (within_safe hw hg hl hr) hl hr he hb
  refine ⟨r, h, do_reverb_guarded hg h, ?_, hW⟩
  by_cases h0 : 0 < size
  · exact wrapped_within (hW h0)
  · rw [hE (by omega)]
    exact hw

/-- Witness for C17: the record `init_reverb` returns for the rate 20, where the cursors
`l_sp_in[3]`, `l_in[3]` equal `l_buf_size = 2` and `l_sp_in[4]`, `r_in[0]` equal
`r_buf_size = 3`. -/
theorem guard_slot_safety_witness :
    ∃ r, do_reverb (room20 coeff_44100 5 6) [10000, -7000, 3, 40] 4 = some r ∧
      Guarded r.1 ∧ Within r.1 ∧ ((0 : Int) < 4 → Wrapped r.1) :=
  guard_slot_safety (room20 coeff_44100 5 6) [10000, -7000, 3, 40] 4 (by decide) (by decide)
    (by decide) (by decide) (by decide) (by decide)

theorem adv_emod {size c : Int} (hs : 1 ≤ size) (hc : 0 ≤ c) : adv size c = (c + 1) % size := by
  unfold adv
  exact Int.tmod_eq_emod (by omega) (by omega)

theorem wrapped_safe {s : Rvb} (hw : Wrapped s) (hl : s.l_buf_size.toNat ≤ s.l_buf.length)
    (hr : s.r_buf_size.toNat ≤ s.r_buf.length) : Safe s := by
  obtain ⟨w1, w2, w3, w4, w5, w6, w7, w8⟩ := hw
  have hsp : ∀ k (c : Int), 0 ≤ c → c < sp_size s k → c.toNat < (sp_buf s k).length := by
    intro k c h0 h1
    unfold sp_size at h1
    unfold sp_buf
    split <;> simp_all <;> omega
  refine ⟨⟨by omega, by omega⟩, ⟨by omega, by omega⟩, ⟨w3.1, by omega⟩, ⟨w4.1, by omega⟩,
    fun k => ⟨(w5 k).1, hsp k _ (w5 k).1 (w5 k).2⟩,
    fun k => ⟨(w6 k).1, hsp k _ (w6 k).1 (w6 k).2⟩,
    fun j => ⟨(w7 j).1, ?_⟩, fun j => ⟨(w8 j).1, ?_⟩⟩
  · have := w7 j
    omega
  · have := w8 j
    omega

theorem emod_step (c k n : Int) : ((c + k) % n + 1) % n = (c + (k + 1)) % n := by
  rw [Int.emod_add_emod, add_assoc]

theorem emod_offset (w r k n : Int) : ((w + k) % n - (r + k) % n) % n = (w - r) % n := by
  rw [← Int.sub_emod]
  congr 1
  ring

theorem advanced_offsets {s t : Rvb} {k : Int} (h : advanced s t k) : same_offsets s t := by
  obtain ⟨a1, a2, a3, a4, a5, a6⟩ := h
  intro j
  have l4 : sp_size s (lo4 j) = s.l_buf_size := by simp [sp_size, lo4]
  have h4 : sp_size s (hi4 j) = s.r_buf_size := by simp [sp_size, hi4]
  rw [a1, a2, a3, a3, a4, a4, a5, a6, l4, h4]
  exact ⟨emod_offset _ _ _ _, emod_offset _ _ _ _, emod_offset _ _ _ _, emod_offset _ _ _ _,
    emod_offset _ _ _ _, emod_offset _ _ _ _⟩

theorem advanced_zero {s : Rvb} (hw : Wrapped s) : advanced s s 0 := by
  obtain ⟨-, -, w3, w4, w5, w6, w7, w8⟩ := hw
  unfold advanced
  simp only [add_zero]
  exact ⟨(Int.emod_eq_of_lt w3.1 w3.2).symm, (Int.emod_eq_of_lt w4.1 w4.2).symm,
    fun j => (Int.emod_eq_of_lt (w5 j).1 (w5 j).2).symm,
    fun j => (Int.emod_eq_of_lt (w6 j).1 (w6 j).2).symm,
    fun j => (Int.emod_eq_of_lt (w7 j).1 (w7 j).2).symm,
    fun j => (Int.emod_eq_of_lt (w8 j).1 (w8 j).2).symm⟩

theorem advanced_pair {s t : Rvb} {k : Int} (h : advanced s t k) (hw : Wrapped t)
    (hL : t.l_buf_size = s.l_buf_size) (hR : t.r_buf_size = s.r_buf_size)
    (b : List Int) (i : Int) : advanced s (pair_val t b i).1 (k + 1) := by
  obtain ⟨a1, a2, a3, a4, a5, a6⟩ := h
  obtain ⟨w1, w2, w3, w4, w5, w6, w7, w8⟩ := hw
  obtain ⟨c1, c2, c3, c4, c5, c6⟩ := pair_val_cursors t b i
  have hsp : ∀ j, sp_size t j = sp_size s j := by
    intro j
    unfold sp_size
    rw [hL, hR]
  have hsp1 : ∀ j, 1 ≤ sp_size t j := by
    intro j
    unfold sp_size
    split
    · exact w1
    · exact w2
  refine ⟨?_, ?_, fun j => ?_, fun j => ?_, fun j => ?_, fun j => ?_⟩
  · rw [c1, adv_emod w1 w3.1, a1, hL, emod_step]
  · rw [c2, adv_emod w2 w4.1, a2, hR, emod_step]
  · rw [c3, adv_emod (hsp1 j) (w5 j).1, a3, hsp, emod_step]
  · rw [c4, adv_emod (hsp1 j) (w6 j).1, a4, hsp, emod_step]
  · rw [c5, adv_emod w1 (w7 j).1, a5, hL, emod_step]
  · rw [c6, adv_emod w2 (w8 j).1, a6, hR, emod_step]

/-- C18 (lockstep cursors). On a record whose cursors all lie in `[0, size)` of their ring
and whose blocks hold the rings, `do_reverb` on `k` stereo pairs returns, and every cursor
`c` of a ring of size `n` has become `(c + k) mod n`.  Hence the distance
`(writeCursor - readCursor) mod n` from the drain cursor to each write cursor of the same
ring is the same before and after the call, and the cursors still lie in `[0, size)`. -/
theorem lockstep_cursors (s : Rvb) (buffer : List Int) (k : Nat) (hw : Wrapped s)
    (hl : s.l_buf_size.toNat ≤ s.l_buf.length) (hr : s.r_buf_size.toNat ≤ s.r_buf.length)
    (hb : 2 * k ≤ buffer.length) :
    ∃ r, do_reverb s buffer (2 * k : Nat) = some r ∧ advanced s r.1 k ∧
      same_offsets s r.1 ∧ Wrapped r.1 := by
  have hs := wrapped_safe hw hl hr
  obtain ⟨r, i', hr', hi', -, -, hle, -, hW, -, -, -, k', hk', hadv⟩ :=
    loop_total ((2 * k : Nat) : Int)
      (fun i s' b' => 2 ∣ i ∧ 0 ≤ i ∧ i ≤ ((2 * k : Nat) : Int) ∧ Safe s' ∧ Wrapped s' ∧
        s'.l_buf_size = s.l_buf_size ∧ s'.r_buf_size = s.r_buf_size ∧
        b'.length = buffer.length ∧ ∃ k' : Int, i = 2 * k' ∧ advanced s s' k')
      (by
        rintro i s' b' ⟨h2, h0, hle, hS, hW, hL, hR, hB, k', hk', hadv⟩ hlt
        have hin : pair_in b' i := ⟨h0, by rw [hB]; omega⟩
        obtain ⟨f1, f2, -, -⟩ := pair_val_frame s' b' i
        exact ⟨safe_pair_ok hS hin, by omega, by omega, by omega, safe_pair_val hS _ _,
          pair_val_wrapped hS hW.1 hW.2.1 _ _, f1.trans hL, f2.trans hR,
          by rw [(pair_val_length _ _ _).2.2, hB], k' + 1, by omega,
          advanced_pair hadv hW hL hR _ _⟩)
      ((2 * k : Nat) : Int).toNat 0 s buffer
      ⟨by simp, le_rfl, by omega, hs, hw, rfl, rfl, rfl, 0, by simp, advanced_zero hw⟩
      (by omega)
  have hk : k' = k := by omega
  rw [hk] at hadv
  exact ⟨r, hr', hadv, advanced_offsets hadv, hW⟩

/-- Witness for C18: the record of rate 20 after its first pair (rings of 2 and 3 cells),
advanced by three more pairs. -/
theorem lockstep_cursors_witness :
    ∃ r, do_reverb (pair_val (room20 coeff_44100 5 6) [10000, -7000] 0).1
        [1, 2, 3, 4, 5, 6] (2 * 3 : Nat) = some r ∧
      advanced (pair_val (room20 coeff_44100 5 6) [10000, -7000] 0).1 r.1 (3 : Nat) ∧
      same_offsets (pair_val (room20 coeff_44100 5 6) [10000, -7000] 0).1 r.1 ∧
      Wrapped r.1 :=
  lockstep_cursors (pair_val (room20 coeff_44100 5 6) [10000, -7000] 0).1 [1, 2, 3, 4, 5, 6] 3
    (by decide) (by decide) (by decide) (by decide)

theorem band_out_unity (x c d : Int) (k : Fin 5 → Int) (h : Fin 2 → Int)
    (hk : k = ![1024, c, d, c, d]) (hx : in_long (1024 * x)) : band_out x k h h = x := by
  subst hk
  rw [band_out_eq]
  have e : band_num x ![1024, c, d, c, d] h h = 1024 * x := by
    unfold band_num
    simp only [Matrix.cons_val_zero, Matrix.cons_val_one, Matrix.head_cons, Matrix.cons_val_two,
      Matrix.tail_cons, Matrix.cons_val_three, Matrix.cons_val_four]
    ring
  rw [e, long_wrap_fit hx]
  exact Int.mul_tdiv_cancel_left x (by norm_num)

theorem band0_pair_l {s : Rvb} {c d : Int} (h1 : s.coeff 0 = ![1024, c, d, c, d])
    (h2 : s.l_buf_flt_in 0 = s.l_buf_flt_out 0) (b : List Int) (i : Int)
    (hx : in_long (1024 * l_rfl_val s b i)) :
    band_l s (l_rfl_val s b i) 0 = l_rfl_val s b i ∧
    (pair_val s b i).1.l_buf_flt_in 0 = (pair_val s b i).1.l_buf_flt_out 0 := by
  have e1 : band_l s (l_rfl_val s b i) 0 = l_rfl_val s b i := by
    unfold band_l
    rw [← h2]
    exact band_out_unity _ c d _ _ h1 hx
  obtain ⟨p1, p2, -, -⟩ := pair_val_hist s b i 0
  exact ⟨e1, by rw [p1, p2, e1, h2]⟩

theorem band0_pair_r {s : Rvb} {c d : Int} (h1 : s.coeff 0 = ![1024, c, d, c, d])
    (h2 : s.r_buf_flt_in 0 = s.r_buf_flt_out 0) (b : List Int) (i : Int)
    (hx : in_long (1024 * r_rfl_val s b i)) :
    band_r s (r_rfl_val s b i) 0 = r_rfl_val s b i ∧
    (pair_val s b i).1.r_buf_flt_in 0 = (pair_val s b i).1.r_buf_flt_out 0 := by
  have e1 : band_r s (r_rfl_val s b i) 0 = r_rfl_val s b i := by
    unfold band_r
    rw [← h2]
    exact band_out_unity _ c d _ _ h1 hx
  obtain ⟨-, -, p3, p4⟩ := pair_val_hist s b i 0
  exact ⟨e1, by rw [p3, p4, e1, h2]⟩

theorem pair_val_wet {s : Rvb} {b : List Int} {i : Int} (hok : pair_ok s b i) :
    cell (pair_val s b i).2 i.toNat = cell b i.toNat + wet_l s (l_rfl_val s b i) ∧
    cell (pair_val s b i).2 (i + 1).toNat =
      cell b (i + 1).toNat + wet_r s (r_rfl_val s b i) := by
  obtain ⟨-, -, hne⟩ := pair_in_lt hok.1
  rw [pair_val_buffer_cell hok, pair_val_buffer_cell hok, hit_self, hit_self, hit_ne hne,
    hit_ne hne.symm]
  constructor <;> ring

theorem band0_pairs_l {c d : Int} :
    ∀ (k : Nat) (i : Int) (s : Rvb) (b : List Int) (r : Rvb × List Int),
      s.coeff 0 = ![1024, c, d, c, d] → s.l_buf_flt_in 0 = s.l_buf_flt_out 0 →
      drains_fit l_rfl_val k i s b → do_reverb_pairs k i s b = some r →
      r.1.l_buf_flt_in 0 = r.1.l_buf_flt_out 0 := by
  intro k
  induction k with
  | zero =>
    intro i s b r _ h2 _ h
    simp only [do_reverb_pairs, Option.some.injEq] at h
    subst h
    exact h2
  | succ k ih =>
    intro i s b r h1 h2 hf h
    rw [pairs_succ] at h
    obtain ⟨st, hst, hk⟩ := Option.bind_eq_some.mp h
    obtain ⟨-, hv⟩ := pair_iff.mp hst
    subst hv
    exact ih _ _ _ r (by rw [(pair_val_frame s b i).2.2.1]; exact h1)
      (band0_pair_l h1 h2 b i hf.1).2 hf.2 hk

theorem band0_pairs_r {c d : Int} :
    ∀ (k : Nat) (i : Int) (s : Rvb) (b : List Int) (r : Rvb × List Int),
      s.coeff 0 = ![1024, c, d, c, d] → s.r_buf_flt_in 0 = s.r_buf_flt_out 0 →
      drains_fit r_rfl_val k i s b → do_reverb_pairs k i s b = some r →
      r.1.r_buf_flt_in 0 = r.1.r_buf_flt_out 0 := by
  intro k
  induction k with
  | zero =>
    intro i s b r _ h2 _ h
    simp only [do_reverb_pairs, Option.some.injEq] at h
    subst h
    exact h2
  | succ k ih =>
    intro i s b r h1 h2 hf h
    rw [pairs_succ] at h
    obtain ⟨st, hst, hk⟩ := Option.bind_eq_some.mp h
    obtain ⟨-, hv⟩ := pair_iff.mp hst
    subst hv
    exact ih _ _ _ r (by rw [(pair_val_frame s b i).2.2.1]; exact h1)
      (band0_pair_r h1 h2 b i hf.1).2 hf.2 hk

/-- C20 as amended (band-0 pass-through).  Let band 0 have the coefficients
`(1024, c, d, c, d)`.
* Whenever the body of the sample loop returns for a pair, with `l_rfl`, `r_rfl` the values
  drained from the delay lines: on a channel whose band-0 input history equals its band-0
  output history and whose drained value `x` satisfies `-2^53 <= x < 2^53` (the product
  `1024 * x` is a `signed long int`), the band expression of band 0 is exactly the drained
  value, the two histories are equal again afterwards, and the new sample is the old one
  plus the drained value plus the outputs of the bands 1 to 5.  The coefficients of band 0
  are unchanged.
* The body returns on every memory-safe record for a pair inside the block.
* The equality of the band-0 histories of a channel is kept by every call of `do_reverb`
  in which every value drained on that channel satisfies `-2^53 <= x < 2^53`
  (`drains_fit`), and it holds after `reset_reverb`. -/
theorem band0_pass_through (s : Rvb) (buffer : List Int) (i c d : Int)
    (hc : s.coeff 0 = ![1024, c, d, c, d]) :
    (∀ r, do_reverb_pair s buffer i = some r →
      ∃ dr, pair_drain s buffer i = some dr ∧ r.1.coeff 0 = ![1024, c, d, c, d] ∧
        (s.l_buf_flt_in 0 = s.l_buf_flt_out 0 → in_long (1024 * dr.1) →
          band_out dr.1 (s.coeff 0) (s.l_buf_flt_in 0) (s.l_buf_flt_out 0) = dr.1 ∧
          r.1.l_buf_flt_in 0 = r.1.l_buf_flt_out 0 ∧
          cell r.2 i.toNat = cell buffer i.toNat + dr.1 + ∑ j : Fin 5,
            band_out dr.1 (s.coeff j.succ) (s.l_buf_flt_in j.succ) (s.l_buf_flt_out j.succ)) ∧
        (s.r_buf_flt_in 0 = s.r_buf_flt_out 0 → in_long (1024 * dr.2.1) →
          band_out dr.2.1 (s.coeff 0) (s.r_buf_flt_in 0) (s.r_buf_flt_out 0) = dr.2.1 ∧
          r.1.r_buf_flt_in 0 = r.1.r_buf_flt_out 0 ∧
          cell r.2 (i + 1).toNat = cell buffer (i + 1).toNat + dr.2.1 + ∑ j : Fin 5,
            band_out dr.2.1 (s.coeff j.succ) (s.r_buf_flt_in j.succ)
              (s.r_buf_flt_out j.succ))) ∧
    (Safe s → pair_in buffer i → ∃ r, do_reverb_pair s buffer i = some r) ∧
    (∀ size q, do_reverb s buffer size = some q →
      (s.l_buf_flt_in 0 = s.l_buf_flt_out 0 →
        drains_fit l_rfl_val (trip_count 0 size) 0 s buffer →
        q.1.l_buf_flt_in 0 = q.1.l_buf_flt_out 0) ∧
      (s.r_buf_flt_in 0 = s.r_buf_flt_out 0 →
        drains_fit r_rfl_val (trip_count 0 size) 0 s buffer →
        q.1.r_buf_flt_in 0 = q.1.r_buf_flt_out 0)) ∧
    (∀ s1, reset_reverb s = some s1 →
      s1.l_buf_flt_in 0 = s1.l_buf_flt_out 0 ∧ s1.r_buf_flt_in 0 = s1.r_buf_flt_out 0) := by
  refine ⟨?_, ?_, ?_, ?_⟩
  · intro r hr
    obtain ⟨hok, hv⟩ := pair_iff.mp hr
    subst hv
    obtain ⟨w1, w2⟩ := pair_val_wet hok
    refine ⟨_, pair_drain_iff.mpr ⟨⟨hok.1, hok.2.1, hok.2.2.1⟩, rfl⟩, ?_, fun h hx => ?_,
      fun h hx => ?_⟩
    · rw [(pair_val_frame s buffer i).2.2.1]
      exact hc
    · obtain ⟨e1, e2⟩ := band0_pair_l hc h buffer i hx
      refine ⟨e1, e2, ?_⟩
      rw [w1]
      unfold wet_l
      rw [Fin.sum_univ_succ, e1, add_assoc]
      rfl
    · obtain ⟨e1, e2⟩ := band0_pair_r hc h buffer i hx
      refine ⟨e1, e2, ?_⟩
      rw [w2]
      unfold wet_r
      rw [Fin.sum_univ_succ, e1, add_assoc]
      rfl
  · intro hs hin
    exact ⟨_, pair_iff.mpr ⟨safe_pair_ok hs hin, rfl⟩⟩
  · intro size q hq
    rw [do_reverb_eq_pairs] at hq
    exact ⟨fun h hf => band0_pairs_l _ _ _ _ q hc h hf hq,
      fun h hf => band0_pairs_r _ _ _ _ q hc h hf hq⟩
  · intro s1 h1
    obtain ⟨-, hv⟩ := reset_iff.mp h1
    subst hv
    exact ⟨rfl, rfl⟩

/-- Witness for C20 as amended on the record of rate 20 with the table of the rate 44100,
whose band 0 is `(1024, -2020, 997, -2020, 997)`: the pair `[10000, -7000]` returns, the
drained values are within `-2^53 .. 2^53 - 1`, and the band-0 histories of both channels
are equal afterwards; so they are after the call on the block `[10000, -7000, 3, 4]`. -/
theorem band0_pass_through_witness :
    ∃ r q, do_reverb_pair (room20 coeff_44100 5 6) [10000, -7000] 0 = some r ∧
      r.1.l_buf_flt_in 0 = r.1.l_buf_flt_out 0 ∧ r.1.r_buf_flt_in 0 = r.1.r_buf_flt_out 0 ∧
      do_reverb (room20 coeff_44100 5 6) [10000, -7000, 3, 4] 4 = some q ∧
      q.1.l_buf_flt_in 0 = q.1.l_buf_flt_out 0 ∧ q.1.r_buf_flt_in 0 = q.1.r_buf_flt_out 0 := by
  have h := band0_pass_through (room20 coeff_44100 5 6) [10000, -7000] 0 (-2020) 997
    (by decide)
  obtain ⟨r, hr⟩ := h.2.1 (by decide) (by decide)
  obtain ⟨dr, hdr, -, hl, hrt⟩ := h.1 r hr
  have hx : (pair_drain (room20 coeff_44100 5 6) [10000, -7000] 0).map
      (fun d => decide (in_long (1024 * d.1) ∧ in_long (1024 * d.2.1))) = some true := by
    decide
  rw [hdr] at hx
  have hx2 : in_long (1024 * dr.1) ∧ in_long (1024 * dr.2.1) := by simpa using hx
  have hq : (do_reverb (room20 coeff_44100 5 6) [10000, -7000, 3, 4] 4).isSome := by decide
  obtain ⟨q, hq⟩ := Option.isSome_iff_exists.mp hq
  have f1 : drains_fit l_rfl_val (trip_count 0 4) 0 (room20 coeff_44100 5 6)
      [10000, -7000, 3, 4] := ⟨by decide, by decide, trivial⟩
  have f2 : drains_fit r_rfl_val (trip_count 0 4) 0 (room20 coeff_44100 5 6)
      [10000, -7000, 3, 4] := ⟨by decide, by decide, trivial⟩
  have h4 := band0_pass_through (room20 coeff_44100 5 6) [10000, -7000, 3, 4] 0 (-2020) 997
    (by decide)
  obtain ⟨c1, c2⟩ := h4.2.2.1 4 q hq
  exact ⟨r, q, hr, (hl rfl hx2.1).2.1, (hrt rfl hx2.2).2.1, hq, c1 rfl f1, c2 rfl f2⟩

/-- Counterexample to C20 as stated, on the record `init_reverb(20)` returns with its own
coefficient table, whose band 0 is `(1024, 0, -1023, 0, -1023)`; the band-0 histories are
equal (all zero).  For the pair `[2^57, 0]` the left line drains `2 * 2^52 = 2^53`.  In
`signed long int` the product `2^53 * 1024` is `-2^63`, so band 0 puts out `-2^53`, not the
drained value, and afterwards the band-0 input history holds `2^53` while the band-0 output
history holds `-2^53`. -/
theorem band0_pass_through_counterexample :
    ∃ s r dr, init_reverb 20 coeff_20 (fun _ => 0) (fun _ => 0) = some s ∧
      s.coeff 0 = ![1024, 0, -1023, 0, -1023] ∧ s.l_buf_flt_in 0 = s.l_buf_flt_out 0 ∧
      do_reverb_pair s [144115188075855872, 0] 0 = some r ∧
      pair_drain s [144115188075855872, 0] 0 = some dr ∧ dr.1 = 9007199254740992 ∧
      band_out dr.1 (s.coeff 0) (s.l_buf_flt_in 0) (s.l_buf_flt_out 0) = -9007199254740992 ∧
      r.1.l_buf_flt_in 0 0 = 9007199254740992 ∧ r.1.l_buf_flt_out 0 0 = -9007199254740992 := by
  have h1 : (pair_drain (room20 coeff_20 0 0) [144115188075855872, 0] 0).isSome := by decide
  have h2 : (do_reverb_pair (room20 coeff_20 0 0) [144115188075855872, 0] 0).isSome := by
    decide
  obtain ⟨dr, hdr⟩ := Option.isSome_iff_exists.mp h1
  obtain ⟨r, hr⟩ := Option.isSome_iff_exists.mp h2
  have h3 : (pair_drain (room20 coeff_20 0 0) [144115188075855872, 0] 0).map (fun d => d.1)
      = some 9007199254740992 := by decide
  have h4 : (do_reverb_pair (room20 coeff_20 0 0) [144115188075855872, 0] 0).map
      (fun r => (r.1.l_buf_flt_in 0 0, r.1.l_buf_flt_out 0 0))
      = some (9007199254740992, -9007199254740992) := by decide
  rw [hdr] at h3
  rw [hr] at h4
  have e3 : dr.1 = 9007199254740992 := by simpa using h3
  have e4 : r.1.l_buf_flt_in 0 0 = 9007199254740992 ∧
      r.1.l_buf_flt_out 0 0 = -9007199254740992 := by simpa using h4
  refine ⟨_, r, dr, init_reverb_20 _ _ _, by decide, rfl, hr, hdr, e3, ?_, e4.1, e4.2⟩
  rw [e3]
  decide

theorem clear_hit {t m w size : Int} {n : Nat} (h : clear_of t m w size) (h1 : t ≤ n)
    (h2 : (n : Int) < m) (v : Int) : hit w n v = 0 := by
  obtain ⟨a, -, c⟩ := h
  apply hit_ne
  omega

theorem clear_adv {t m w size : Int} (h : clear_of t m w size) (h0 : 0 ≤ t) :
    clear_of (t + 1) m (adv size w) size := by
  obtain ⟨a, b, c⟩ := h
  rw [adv_emod (by omega) a]
  by_cases hw : w + 1 < size
  · rw [Int.emod_eq_of_lt (by omega) hw]
    exact ⟨by omega, hw, by omega⟩
  · have e : w + 1 = size := by omega
    rw [e, Int.emod_self]
    exact ⟨le_rfl, by omega, Or.inl (by omega)⟩

theorem clear_in_hit {t m w size : Int} {n : Nat} (h : clear_in t m w size) (h1 : t < n)
    (h2 : (n : Int) < m) (v : Int) : hit w n v = 0 := by
  obtain ⟨a, -, c⟩ := h
  apply hit_ne
  omega

theorem clear_in_adv {t m w size : Int} (h : clear_in t m w size) (h0 : 0 ≤ t)
    (hs : 2 ≤ size) : clear_in (t + 1) m (adv size w) size := by
  obtain ⟨a, b, c⟩ := h
  rw [adv_emod (by omega) a]
  by_cases hw : w + 1 < size
  · rw [Int.emod_eq_of_lt (by omega) hw]
    exact ⟨by omega, by omega, by omega⟩
  · by_cases e : w + 1 = size
    · rw [e, Int.emod_self]
      exact ⟨le_rfl, by omega, Or.inl (by omega)⟩
    · have e2 : w = size := by omega
      rw [e2, Int.add_emod_self_left, Int.emod_eq_of_lt (by omega) (by omega)]
      exact ⟨by omega, by omega, Or.inl (by omega)⟩

theorem sp_hits_clear {s : Rvb} {t m : Int} {n : Nat} (h1 : t ≤ n) (h2 : (n : Int) < m)
    (hl : ∀ k, clear_of t m (s.l_sp_in k) (sp_size s k))
    (hr : ∀ k, clear_of t m (s.r_sp_in k) (sp_size s k)) (tl tr : Int) :
    sp_hits_l s tl tr n = 0 ∧ sp_hits_r s tl tr n = 0 := by
  unfold sp_hits_l sp_hits_r
  constructor
  · apply Finset.sum_eq_zero
    intro j _
    rw [clear_hit (hl _) h1 h2, clear_hit (hr _) h1 h2, add_zero]
  · apply Finset.sum_eq_zero
    intro j _
    rw [clear_hit (hl _) h1 h2, clear_hit (hr _) h1 h2, add_zero]

theorem pre_delay_drained {s : Rvb} {m t : Int} (h : pre_delay m t s) (h0 : 0 ≤ t)
    (hm : t < m) {b : List Int} {i : Int} (hok : pair_ok s b i) :
    l_rfl_val s b i = 0 ∧ r_rfl_val s b i = 0 := by
  obtain ⟨-, o1, o2, -, -, hz, c1, c2, -, -⟩ := h
  have e1 : s.l_out.toNat = t.toNat := by rw [o1]
  have e2 : s.r_out.toNat = t.toNat := by rw [o2]
  have n1 : t ≤ (t.toNat : Int) := by omega
  have n2 : ((t.toNat : Nat) : Int) < m := by omega
  obtain ⟨z1, z2⟩ := hz t.toNat n1 n2
  obtain ⟨s1, s2⟩ := sp_hits_clear n1 n2 c1 c2 (Int.tdiv (cell b i.toNat) 32)
    (Int.tdiv (cell b (i + 1).toNat) 32)
  rw [l_rfl_val_eq hok, r_rfl_val_eq hok, e1, e2, z1, z2, s1, s2]
  exact ⟨rfl, rfl⟩

theorem pre_delay_step {s : Rvb} {m t : Int} (h : pre_delay m t s) (h0 : 0 ≤ t)
    (hm : t < m) {b : List Int} {i : Int} (hok : pair_ok s b i) :
    (pair_val s b i).2 = b ∧ pre_delay m (t + 1) (pair_val s b i).1 := by
  obtain ⟨dl, dr⟩ := pre_delay_drained h h0 hm hok
  obtain ⟨hh, o1, o2, m1, m2, hz, c1, c2, c3, c4⟩ := h
  obtain ⟨w1, w2⟩ := wet_zero hh
  obtain ⟨f1, f2, -, -⟩ := pair_val_frame s b i
  obtain ⟨q1, q2, q3, q4, q5, q6⟩ := pair_val_cursors s b i
  have hsp : ∀ k, sp_size (pair_val s b i).1 k = sp_size s k := by
    intro k
    unfold sp_size
    rw [f1, f2]
  have hb : (pair_val s b i).2 = b := by
    apply cell_ext (pair_val_length s b i).2.2
    intro n
    rw [pair_val_buffer_cell hok, dl, dr, w1, w2, hit_zero, hit_zero, add_zero, add_zero]
  refine ⟨hb, ⟨?_, ?_, ?_, ?_⟩, ?_, ?_, by rw [f1]; exact m1, by rw [f2]; exact m2, ?_, ?_,
    ?_, ?_, ?_⟩
  · intro j k
    rw [(pair_val_hist s b i j).1, dl]
    exact shift_zero _ (hh.1 j) k
  · intro j k
    rw [(pair_val_hist s b i j).2.1, dl]
    have : band_l s 0 j = 0 := band_out_zero _ _ _ (hh.1 j) (hh.2.1 j)
    rw [this]
    exact shift_zero _ (hh.2.1 j) k
  · intro j k
    rw [(pair_val_hist s b i j).2.2.1, dr]
    exact shift_zero _ (hh.2.2.1 j) k
  · intro j k
    rw [(pair_val_hist s b i j).2.2.2, dr]
    have : band_r s 0 j = 0 := band_out_zero _ _ _ (hh.2.2.1 j) (hh.2.2.2 j)
    rw [this]
    exact shift_zero _ (hh.2.2.2 j) k
  · rw [q1, o1, adv_emod (by omega) h0]
    exact Int.emod_eq_of_lt (by omega) (by omega)
  · rw [q2, o2, adv_emod (by omega) h0]
    exact Int.emod_eq_of_lt (by omega) (by omega)
  · intro n n1 n2
    have n0 : t ≤ (n : Int) := by omega
    obtain ⟨z1, z2⟩ := hz n n0 n2
    obtain ⟨s1, s2⟩ := sp_hits_clear n0 n2 c1 c2 (Int.tdiv (cell b i.toNat) 32)
      (Int.tdiv (cell b (i + 1).toNat) 32)
    have r1 : ∑ j : Fin 4, hit (s.l_in j) n
        (Int.tdiv (cell (pair_val s b i).2 (i + 1).toNat) 32) = 0 :=
      Finset.sum_eq_zero fun j _ => clear_in_hit (c3 j) (by omega) n2 _
    have r2 : ∑ j : Fin 4, hit (s.r_in j) n
        (Int.tdiv (cell (pair_val s b i).2 i.toNat) 32) = 0 :=
      Finset.sum_eq_zero fun j _ => clear_in_hit (c4 j) (by omega) n2 _
    rw [pair_val_l_cell hok, pair_val_r_cell hok, r1, r2, drained_val_l_cell hok,
      drained_val_r_cell hok, z1, z2, s1, s2]
    simp
  · intro k
    rw [q3, hsp]
    exact clear_adv (c1 k) h0
  · intro k
    rw [q4, hsp]
    exact clear_adv (c2 k) h0
  · intro j
    rw [q5, f1]
    exact clear_in_adv (c3 j) h0 (by omega)
  · intro j
    rw [q6, f2]
    exact clear_in_adv (c4 j) h0 (by omega)

theorem pre_delay_loop {s : Rvb} (b : List Int) {m : Nat} (hs : Safe s)
    (h0 : pre_delay m 0 s) (he : 2 ∣ b.length) :
    ∃ r, do_reverb s b b.length = some r ∧ r.2.length = b.length ∧
      ∀ n, n < 2 * m → cell r.2 n = cell b n := by
  obtain ⟨r, i', hr', -, -, -, -, hB, hC, -⟩ := loop_total (b.length : Int)
    (fun i s' b' => 2 ∣ i ∧ 0 ≤ i ∧ Safe s' ∧ b'.length = b.length ∧
      (∀ n : Nat, n < 2 * m → cell b' n = cell b n) ∧
      (∀ t : Int, i = 2 * t → t ≤ m → pre_delay m t s'))
    (by
      rintro i s' b' ⟨h2, hi0, hS, hB, hC, hP⟩ hlt
      have hin : pair_in b' i := ⟨hi0, by rw [hB]; omega⟩
      have hok := safe_pair_ok hS hin
      obtain ⟨t, ht⟩ := h2
      refine ⟨hok, by omega, by omega, safe_pair_val hS _ _,
        by rw [(pair_val_length _ _ _).2.2, hB], ?_, ?_⟩
      · intro n hn
        by_cases hc : t < m
        · rw [(pre_delay_step (hP t ht (by omega)) (by omega) hc hok).1]
          exact hC n hn
        · rw [pair_val_buffer_cell hok, hit_ne (by omega), hit_ne (by omega), add_zero,
            add_zero]
          exact hC n hn
      · intro t' ht' hle
        have e : t' = t + 1 := by omega
        rw [e]
        exact (pre_delay_step (hP t ht (by omega)) (by omega) (by omega) hok).2)
    (b.length : Int).toNat 0 s b
    ⟨by simp, le_rfl, hs, rfl, fun _ _ => rfl, fun t ht _ => by
      have e : t = 0 := by omega
      rw [e]
      exact h0⟩
    (by omega)
  exact ⟨r, hr', hB, hC⟩

theorem init_pre_delay (coeff : Fin 6 → Fin 5 → Int) (l_mem r_mem : Nat → Int) :
    Safe (init_val 44100 coeff l_mem r_mem) ∧
    pre_delay (474 : Nat) 0 (init_val 44100 coeff l_mem r_mem) := by
  obtain ⟨c1, c2, c3, c4, c5, c6, c7, c8⟩ := init_val_cursors 44100 coeff l_mem r_mem
  obtain ⟨s1, s2, s3⟩ := scale_44100
  obtain ⟨hs, hh, -, -⟩ := @init_val_fresh 44100 (by decide) coeff l_mem r_mem
    (by rw [s3]; decide) (by rw [s3]; decide)
  obtain ⟨-, -, z1, z2⟩ := init_val_guarded 44100 coeff l_mem r_mem
  have e1 : (init_val 44100 coeff l_mem r_mem).l_buf_size = 6608 := by
    rw [c1, s3]
    rfl
  have e2 : (init_val 44100 coeff l_mem r_mem).r_buf_size = 7556 := by
    rw [c2, s3]
    rfl
  have hsp : ∀ k, sp_size (init_val 44100 coeff l_mem r_mem) k =
      if k.val < 4 then 6608 else 7556 := by
    intro k
    unfold sp_size
    rw [e1, e2]
  refine ⟨hs, hh, c3, c4, by rw [e1]; decide, by rw [e2]; decide,
    fun n _ hn => ⟨z1 n (by rw [e1]; omega), z2 n (by rw [e2]; omega)⟩,
    fun k => ?_, fun k => ?_, fun j => ?_, fun j => ?_⟩
  · rw [c5, hsp, s1]
    unfold clear_of
    revert k
    decide
  · rw [c6, hsp, s2]
    unfold clear_of
    revert k
    decide
  · rw [c7, e1, s3]
    unfold clear_in
    revert j
    decide
  · rw [c8, e2, s3]
    unfold clear_in
    revert j
    decide

/-- C19 (pre-delay). Let the record have zero filter histories, zero cells in both rings,
drain cursors `l_out = r_out = 0`, blocks that hold the rings, and every write cursor `c`
(of `l_sp_in`, `r_sp_in`, `l_in`, `r_in`) with `m <= c < size` of its ring, for an
`m >= 1`.  Then `do_reverb` on a whole block of even length returns, and the first `m`
stereo pairs (the samples at the indices below `2 * m`) of the processed block are the
ones of the input block.  The record `init_reverb` returns for the rate 44100 has the
re-injection cursors `l_in[3]`, `r_in[0]` on the guard cells, which are written after the
draining of a pair; there the same holds with `m = 474`, the shortest delay `l_sp_in[1]`. -/
theorem pre_delay_pass (s : Rvb) (b : List Int) (m : Nat) (hm : 1 ≤ m)
    (hl : s.l_buf_size.toNat ≤ s.l_buf.length) (hr : s.r_buf_size.toNat ≤ s.r_buf.length)
    (hh : hist_zero s)
    (hzl : ∀ n, n < s.l_buf_size.toNat → cell s.l_buf n = 0)
    (hzr : ∀ n, n < s.r_buf_size.toNat → cell s.r_buf n = 0)
    (ho : s.l_out = 0 ∧ s.r_out = 0)
    (hc1 : ∀ k, (m : Int) ≤ s.l_sp_in k ∧ s.l_sp_in k < sp_size s k)
    (hc2 : ∀ k, (m : Int) ≤ s.r_sp_in k ∧ s.r_sp_in k < sp_size s k)
    (hc3 : ∀ j, (m : Int) ≤ s.l_in j ∧ s.l_in j < s.l_buf_size)
    (hc4 : ∀ j, (m : Int) ≤ s.r_in j ∧ s.r_in j < s.r_buf_size)
    (he : 2 ∣ b.length) :
    (∃ r, do_reverb s b b.length = some r ∧ r.2.length = b.length ∧
      ∀ n, n < 2 * m → cell r.2 n = cell b n) ∧
    (∀ (coeff : Fin 6 → Fin 5 → Int) (l_mem r_mem : Nat → Int),
      ∃ s0 r, init_reverb 44100 coeff l_mem r_mem = some s0 ∧
        do_reverb s0 b b.length = some r ∧ r.2.length = b.length ∧
        ∀ n, n < 2 * 474 → cell r.2 n = cell b n) := by
  have sl : (m : Int) < s.l_buf_size := lt_of_le_of_lt (hc3 0).1 (hc3 0).2
  have sr : (m : Int) < s.r_buf_size := lt_of_le_of_lt (hc4 0).1 (hc4 0).2
  have hw : Wrapped s := ⟨by omega, by omega, ⟨by omega, by omega⟩, ⟨by omega, by omega⟩,
    fun k => ⟨by have := hc1 k; omega, (hc1 k).2⟩, fun k => ⟨by have := hc2 k; omega, (hc2 k).2⟩,
    fun j => ⟨by have := hc3 j; omega, (hc3 j).2⟩, fun j => ⟨by have := hc4 j; omega, (hc4 j).2⟩⟩
  have hs := wrapped_safe hw hl hr
  have h0 : pre_delay m 0 s := ⟨hh, ho.1, ho.2, sl, sr,
    fun n _ n2 => ⟨hzl n (by omega), hzr n (by omega)⟩,
    fun k => ⟨by have := hc1 k; omega, (hc1 k).2, Or.inr (hc1 k).1⟩,
    fun k => ⟨by have := hc2 k; omega, (hc2 k).2, Or.inr (hc2 k).1⟩,
    fun j => ⟨by have := hc3 j; omega, le_of_lt (hc3 j).2, Or.inr (hc3 j).1⟩,
    fun j => ⟨by have := hc4 j; omega, le_of_lt (hc4 j).2, Or.inr (hc4 j).1⟩⟩
  refine ⟨pre_delay_loop b hs h0 he, fun coeff l_mem r_mem => ?_⟩
  obtain ⟨is, ip⟩ := init_pre_delay coeff l_mem r_mem
  obtain ⟨r, h1, h2, h3⟩ := pre_delay_loop b is ip he
  exact ⟨_, r, init_reverb_eq _ _ _ _, h1, h2, h3⟩

/-- Witness for C19 on a record with rings of 4 and 5 cells and `m = 2`: the first two pairs
of a block of three pairs are returned unchanged, and the third pair is not. -/
theorem pre_delay_pass_witness :
    (∃ r, do_reverb room_delay [10000, -7000, 300, 40, 50, 60] (6 : Nat) = some r ∧
      r.2.length = 6 ∧ ∀ n, n < 2 * 2 → cell r.2 n = cell [10000, -7000, 300, 40, 50, 60] n) ∧
    (do_reverb room_delay [10000, -7000, 300, 40, 50, 60] 6).map (fun r => r.2)
      = some [10000, -7000, 300, 40, -1021, 4516] := by
  refine ⟨(pre_delay_pass room_delay [10000, -7000, 300, 40, 50, 60] 2 (by decide) (by decide)
    (by decide) (by decide) (by decide) (by decide) (by decide) (by decide) (by decide)
    (by decide) (by decide) (by decide)).1, ?_⟩
  decide!

theorem cell_replicate (k n : Nat) : cell (List.replicate k (0 : Int)) n = 0 := by
  unfold cell
  by_cases h : n < k
  · simp [List.getElem?_replicate, h]
  · simp [List.getElem?_replicate, h]

theorem do_reverb_rest {s : Rvb} (hs : Safe s) (hw : Wrapped s) (hq : settled s) (k : Nat) :
    ∃ r, do_reverb s (List.replicate (2 * k) 0) (2 * k : Nat) = some r ∧
      r.2 = List.replicate (2 * k) 0 ∧ r.1.l_buf = s.l_buf ∧ r.1.r_buf = s.r_buf ∧
      settled r.1 ∧ Safe r.1 ∧ Wrapped r.1 := by
  obtain ⟨r, i', hr', -, -, -, hS, hW, hL, hR, hl, hrr, hh, hB⟩ :=
    loop_total ((2 * k : Nat) : Int)
      (fun i s' b' => 2 ∣ i ∧ 0 ≤ i ∧ Safe s' ∧ Wrapped s' ∧ s'.l_buf_size = s.l_buf_size ∧
        s'.r_buf_size = s.r_buf_size ∧ s'.l_buf = s.l_buf ∧ s'.r_buf = s.r_buf ∧
        hist_zero s' ∧ b' = List.replicate (2 * k) 0)
      (by
        rintro i s' b' ⟨h2, h0, hS, hW, hL, hR, hl, hr, hh, hB⟩ hlt
        have hin : pair_in b' i := ⟨h0, by rw [hB, List.length_replicate]; omega⟩
        have hok := safe_pair_ok hS hin
        obtain ⟨f1, f2, -, -⟩ := pair_val_frame s' b' i
        have z1 : cell s'.l_buf s'.l_out.toNat = 0 := by
          rw [hl]
          apply hq.2.1
          have := hW.2.2.1
          omega
        have z2 : cell s'.r_buf s'.r_out.toNat = 0 := by
          rw [hr]
          apply hq.2.2
          have := hW.2.2.2.1
          omega
        obtain ⟨e1, e2, e3, e4⟩ := pair_val_silent hok (by rw [hB]; exact cell_replicate _ _)
          (by rw [hB]; exact cell_replicate _ _) hh z1 z2
        exact ⟨hok, by omega, by omega, safe_pair_val hS _ _,
          pair_val_wrapped hS hW.1 hW.2.1 _ _, f1.trans hL, f2.trans hR, e2.trans hl,
          e3.trans hr, e4, e1.trans hB⟩)
      ((2 * k : Nat) : Int).toNat 0 s (List.replicate (2 * k) 0)
      ⟨by simp, le_rfl, hs, hw, rfl, rfl, rfl, rfl, hq.1, rfl⟩ (by omega)
  refine ⟨r, hr', hB, hl, hrr, ⟨hh, ?_, ?_⟩, hS, hW⟩
  · rw [hl, hL]
    exact hq.2.1
  · rw [hrr, hR]
    exact hq.2.2

theorem guard_fixed {s : Rvb} (hw : Wrapped s) {b : List Int} {i : Int} (hok : pair_ok s b i) :
    cell (pair_val s b i).1.l_buf s.l_buf_size.toNat = cell s.l_buf s.l_buf_size.toNat ∧
    cell (pair_val s b i).1.r_buf s.r_buf_size.toNat = cell s.r_buf s.r_buf_size.toNat := by
  obtain ⟨w1, w2, w3, w4, w5, w6, w7, w8⟩ := hw
  have l4 : ∀ j, sp_size s (lo4 j) = s.l_buf_size := fun j => by simp [sp_size, lo4]
  have h4 : ∀ j, sp_size s (hi4 j) = s.r_buf_size := fun j => by simp [sp_size, hi4]
  constructor
  · rw [pair_val_l_cell hok, drained_val_l_cell hok]
    have a1 : ¬ s.l_out.toNat = s.l_buf_size.toNat := by omega
    have a2 : sp_hits_l s (Int.tdiv (cell b i.toNat) 32) (Int.tdiv (cell b (i + 1).toNat) 32)
        s.l_buf_size.toNat = 0 := by
      unfold sp_hits_l
      apply Finset.sum_eq_zero
      intro j _
      have := w5 (lo4 j)
      have := w6 (lo4 j)
      rw [l4] at *
      rw [hit_ne (by omega), hit_ne (by omega), add_zero]
    have a3 : ∑ j : Fin 4, hit (s.l_in j) s.l_buf_size.toNat
        (Int.tdiv (cell (pair_val s b i).2 (i + 1).toNat) 32) = 0 := by
      apply Finset.sum_eq_zero
      intro j _
      have := w7 j
      exact hit_ne (by omega) _
    rw [if_neg a1, a2, a3, add_zero, add_zero]
  · rw [pair_val_r_cell hok, drained_val_r_cell hok]
    have a1 : ¬ s.r_out.toNat = s.r_buf_size.toNat := by omega
    have a2 : sp_hits_r s (Int.tdiv (cell b i.toNat) 32) (Int.tdiv (cell b (i + 1).toNat) 32)
        s.r_buf_size.toNat = 0 := by
      unfold sp_hits_r
      apply Finset.sum_eq_zero
      intro j _
      have := w5 (hi4 j)
      have := w6 (hi4 j)
      rw [h4] at *
      rw [hit_ne (by omega), hit_ne (by omega), add_zero]
    have a3 : ∑ j : Fin 4, hit (s.r_in j) s.r_buf_size.toNat
        (Int.tdiv (cell (pair_val s b i).2 i.toNat) 32) = 0 := by
      apply Finset.sum_eq_zero
      intro j _
      have := w8 j
      exact hit_ne (by omega) _
    rw [if_neg a1, a2, a3, add_zero, add_zero]

theorem cell_map_range (f : Nat → Int) (n m : Nat) (h : m < n) :
    cell ((List.range n).map f) m = f m := by
  unfold cell
  simp [List.getElem?_map, List.getElem?_range h]

theorem init_val_guard_cell {rate : Int} (coeff : Fin 6 → Fin 5 → Int) (l_mem r_mem : Nat → Int)
    (hr : 0 ≤ (init_val rate coeff l_mem r_mem).r_buf_size) :
    cell (init_val rate coeff l_mem r_mem).r_buf
      (init_val rate coeff l_mem r_mem).r_buf_size.toNat =
      r_mem (init_val rate coeff l_mem r_mem).r_buf_size.toNat := by
  simp only [init_val] at hr ⊢
  rw [zeroed_cell, cell_map_range _ _ _ (by omega)]
  simp

theorem impulse_first (coeff : Fin 6 → Fin 5 → Int) (l_mem r_mem : Nat → Int) (k : Nat)
    (hok : pair_ok (init_val 44100 coeff l_mem r_mem) (impulse_block k) 0) :
    cell (pair_val (init_val 44100 coeff l_mem r_mem) (impulse_block k) 0).1.r_buf 7556
      = r_mem 7556 + 312 ∧
    (pair_val (init_val 44100 coeff l_mem r_mem) (impulse_block k) 0).2 = impulse_block k := by
  obtain ⟨-, c2, -, c4, c5, c6, -, c8⟩ := init_val_cursors 44100 coeff l_mem r_mem
  obtain ⟨s1, s2, s3⟩ := scale_44100
  have e2 : (init_val 44100 coeff l_mem r_mem).r_buf_size = 7556 := by
    rw [c2, s3]
    rfl
  have hg := @init_val_guard_cell 44100 coeff l_mem r_mem (by rw [e2]; decide)
  have e7 : (7556 : Int).toNat = 7556 := rfl
  rw [e2, e7] at hg
  have hb := (pre_delay_step (init_pre_delay coeff l_mem r_mem).2 le_rfl (by decide) hok).1
  refine ⟨?_, hb⟩
  have a1 : ¬ (init_val 44100 coeff l_mem r_mem).r_out.toNat = 7556 := by
    rw [c4]
    decide
  have hv : ∀ j : Fin 4,
      ((![1881, 474, 3135, 6607, 7513, 5635, 6776, 3771] : Fin 8 → Int) (hi4 j)).toNat ≠ 7556 ∧
      ((![1437, 800, 3280, 6515, 7258, 5020, 6287, 3158] : Fin 8 → Int) (hi4 j)).toNat ≠ 7556 := by
    decide
  have a2 : sp_hits_r (init_val 44100 coeff l_mem r_mem)
      (Int.tdiv (cell (impulse_block k) (0 : Int).toNat) 32)
      (Int.tdiv (cell (impulse_block k) ((0 : Int) + 1).toNat) 32) 7556 = 0 := by
    unfold sp_hits_r
    apply Finset.sum_eq_zero
    intro j _
    rw [c5, c6, s1, s2, hit_ne (hv j).1, hit_ne (hv j).2, add_zero]
  have a3 : ∑ j : Fin 4, hit ((init_val 44100 coeff l_mem r_mem).r_in j) 7556
      (Int.tdiv (cell (impulse_block k) (0 : Int).toNat) 32) = 312 := by
    have e : Int.tdiv (cell (impulse_block k) (0 : Int).toNat) 32 = 312 := by
      simp [impulse_block, cell]
      decide
    rw [e]
    simp only [c8, s3]
    decide
  rw [pair_val_r_cell hok, drained_val_r_cell hok, if_neg a1, a2, hb, a3, add_zero, hg]

theorem impulse_guard (coeff : Fin 6 → Fin 5 → Int) (l_mem r_mem : Nat → Int) (k : Nat) :
    ∃ r, do_reverb (init_val 44100 coeff l_mem r_mem) (impulse_block k)
        ((impulse_block k).length : Nat) = some r ∧
      cell r.1.r_buf 7556 = r_mem 7556 + 312 := by
  obtain ⟨hs0, -⟩ := init_pre_delay coeff l_mem r_mem
  obtain ⟨-, c2, -⟩ := init_val_cursors 44100 coeff l_mem r_mem
  obtain ⟨-, -, s3⟩ := scale_44100
  have e2 : (init_val 44100 coeff l_mem r_mem).r_buf_size = 7556 := by
    rw [c2, s3]
    rfl
  have e1 : (init_val 44100 coeff l_mem r_mem).l_buf_size = 6608 := by
    rw [(init_val_cursors 44100 coeff l_mem r_mem).1, s3]
    rfl
  have hlen : (impulse_block k).length = 2 * k + 2 := by
    simp [impulse_block]
  obtain ⟨r, i', hr', hi', -, -, -, -, -, -, -, hG⟩ :=
    loop_total (((impulse_block k).length : Nat) : Int)
      (fun i s' b' => 2 ∣ i ∧ 0 ≤ i ∧ Safe s' ∧ b'.length = (impulse_block k).length ∧
        s'.l_buf_size = 6608 ∧ s'.r_buf_size = 7556 ∧
        (i = 0 → s' = init_val 44100 coeff l_mem r_mem ∧ b' = impulse_block k) ∧
        (2 ≤ i → Wrapped s' ∧ cell s'.r_buf 7556 = r_mem 7556 + 312))
      (by
        rintro i s' b' ⟨h2, h0, hS, hB, hL, hR, hI, hG⟩ hlt
        have hin : pair_in b' i := ⟨h0, by rw [hB]; omega⟩
        have hok := safe_pair_ok hS hin
        obtain ⟨f1, f2, -, -⟩ := pair_val_frame s' b' i
        have hW := pair_val_wrapped hS (by rw [hL]; decide) (by rw [hR]; decide) b' i
        refine ⟨hok, by omega, by omega, safe_pair_val hS _ _,
          by rw [(pair_val_length _ _ _).2.2, hB], f1.trans hL, f2.trans hR,
          fun h => by omega, fun _ => ⟨hW, ?_⟩⟩
        by_cases hi : i = 0
        · obtain ⟨es, eb⟩ := hI hi
          subst hi
          subst es
          subst eb
          exact (impulse_first coeff l_mem r_mem k hok).1
        · obtain ⟨hW', hc⟩ := hG (by omega)
          have := (guard_fixed hW' hok).2
          rw [hR] at this
          exact this.trans hc)
      (((impulse_block k).length : Nat) : Int).toNat 0 (init_val 44100 coeff l_mem r_mem)
      (impulse_block k)
      ⟨by simp, le_rfl, hs0, rfl, e1, e2, fun _ => ⟨rfl, rfl⟩, fun h => by omega⟩ (by omega)
  exact ⟨r, hr', (hG (by omega)).2⟩

theorem impulse_block_add (n k : Nat) :
    impulse_block (n + k) = impulse_block n ++ List.replicate (2 * k) 0 := by
  unfold impulse_block
  rw [Nat.mul_add, List.replicate_add]
  rfl

theorem impulse_block_length (n : Nat) : (impulse_block n).length = 2 * (n + 1) := by
  simp [impulse_block]
  ring

theorem first_pair_ok {s : Rvb} {n : Nat} {r : Rvb × List Int}
    (h : do_reverb s (impulse_block n) ((impulse_block n).length : Nat) = some r) :
    pair_ok s (impulse_block n) 0 := by
  have e : trip_count 0 (((impulse_block n).length : Nat) : Int) = n + 1 := by
    rw [trip_count_nat, impulse_block_length]
    omega
  rw [do_reverb_eq_pairs, e, pairs_succ] at h
  obtain ⟨st, h1, -⟩ := Option.bind_eq_some.mp h
  exact (pair_iff.mp h1).1

theorem getD_ofFn {n : Nat} (f : Fin n → Int) (k : Fin n) : (List.ofFn f).getD k 0 = f k := by
  rw [List.getD_eq_getElem?_getD, List.getElem?_ofFn]
  unfold List.ofFnNthVal
  simp [k.isLt]

theorem hist_cols (f : Fin 6 → Fin 2 → Int) :
    (fun j m => if m = 0 then f j 0 else f j 1) = f := by
  funext j m
  fin_cases m <;> simp

theorem unsnap_snap (s : Rvb) : unsnap s.coeff (snap s) = s := by
  cases s
  simp only [unsnap, snap, entry, List.getD_cons_zero, List.getD_cons_succ, getD_ofFn,
    hist_cols]

theorem snap_call {c : Fin 6 → Fin 5 → Int} {d d' : List (List Int)} {b o : List Int}
    {n : Int}
    (h : (do_reverb (unsnap c d) b n).map (fun r => (snap r.1, r.2)) = some (d', o)) :
    do_reverb (unsnap c d) b n = some (unsnap c d', o) := by
  cases hr : do_reverb (unsnap c d) b n with
  | none =>
    rw [hr] at h
    simp at h
  | some r =>
    rw [hr] at h
    simp only [Option.map_some', Option.some.injEq, Prod.mk.injEq] at h
    have hc : r.1.coeff = c := (do_reverb_frame_call _ _ _ _ hr).2.2.1
    have e := unsnap_snap r.1
    rw [hc, h.1] at e
    exact congrArg some (Prod.ext e.symm h.2)

theorem call_append {s : Rvb} {a b : List Int} {r q : Rvb × List Int} (ha : 2 ∣ a.length)
    (h1 : do_reverb s a (a.length : Nat) = some r)
    (h2 : do_reverb r.1 b (b.length : Nat) = some q) :
    do_reverb s (a ++ b) ((a ++ b).length : Nat) = some (q.1, r.2 ++ q.2) := by
  obtain ⟨k, hk⟩ := ha
  rw [do_reverb_split s a b k hk, h1]
  simp only [Option.some_bind, h2, Option.map_some']

theorem settled_stays {rate : Int} {coeff : Fin 6 → Fin 5 → Int} {l_mem r_mem : Nat → Int}
    {N : Nat} {s0 : Rvb} {r : Rvb × List Int} (k : Nat) (hrate : 0 < rate)
    (h0 : init_reverb rate coeff l_mem r_mem = some s0)
    (hN : do_reverb s0 (impulse_block N) ((impulse_block N).length : Nat) = some r)
    (hq : settled r.1) :
    ∃ r', do_reverb s0 (impulse_block (N + k)) ((impulse_block (N + k)).length : Nat)
        = some r' ∧
      r'.2 = r.2 ++ List.replicate (2 * k) 0 ∧ r'.1.l_buf = r.1.l_buf ∧
      r'.1.r_buf = r.1.r_buf ∧ settled r'.1 := by
  rw [init_reverb_eq] at h0
  have es : s0 = init_val rate coeff l_mem r_mem := (Option.some.inj h0).symm
  have hok := first_pair_ok hN
  have hw : Within s0 := by
    rw [es]
    exact init_val_within (le_of_lt hrate) coeff l_mem r_mem
  have hg : Guarded s0 := by
    rw [es]
    exact (init_val_guarded rate coeff l_mem r_mem).1
  obtain ⟨c1, c2, -⟩ := init_val_cursors rate coeff l_mem r_mem
  obtain ⟨-, -, b3⟩ := coef_bounds
  have hl : 1 ≤ s0.l_buf_size := by
    have h1 : s0.l_buf_size ≠ 0 := hok.2.1.1
    have h2 : 0 ≤ s0.l_buf_size := by
      rw [es, c1]
      exact (scale_len_mono (le_of_lt hrate) (b3 3).1 (le_refl _)).1
    omega
  have hr : 1 ≤ s0.r_buf_size := by
    have h1 : s0.r_buf_size ≠ 0 := hok.2.1.2.1
    have h2 : 0 ≤ s0.r_buf_size := by
      rw [es, c2]
      exact (scale_len_mono (le_of_lt hrate) (b3 4).1 (le_refl _)).1
    omega
  have hs0 := within_safe hw hg hl hr
  obtain ⟨r2, h2, hS, -, -, hW, -⟩ := @do_reverb_cursors s0 (impulse_block N)
    ((impulse_block N).length : Nat) hs0 hl hr
    (by rw [impulse_block_length]; exact ⟨(N : Int) + 1, by push_cast; ring⟩) le_rfl
  rw [hN] at h2
  have e2 : r2 = r := (Option.some.inj h2).symm
  subst e2
  obtain ⟨r3, h3, b3', l3, r3', q3, -, -⟩ := do_reverb_rest hS
    (hW (by rw [impulse_block_length]; omega)) hq k
  have hsplit := do_reverb_split s0 (impulse_block N) (List.replicate (2 * k) 0) (N + 1)
    (impulse_block_length N)
  rw [List.length_replicate] at hsplit
  rw [impulse_block_add]
  refine ⟨(r3.1, r2.2 ++ r3.2), ?_, by rw [b3'], l3, r3', q3⟩
  rw [hsplit, hN]
  simp only [Option.some_bind, h3, Option.map_some']

theorem settled_guard_eq {s t : Rvb} (h : guard_eq s t) (hq : settled s) : settled t := by
  obtain ⟨⟨a1, a2, -, -, -, -, -, -, -, -, a11, a12, a13, a14⟩, -, -, cl, cr⟩ := h
  obtain ⟨⟨h1, h2, h3, h4⟩, ql, qr⟩ := hq
  refine ⟨⟨?_, ?_, ?_, ?_⟩, ?_, ?_⟩
  · rw [← a11]
    exact h1
  · rw [← a12]
    exact h2
  · rw [← a13]
    exact h3
  · rw [← a14]
    exact h4
  · intro n hn
    rw [← a1] at hn
    rw [← cl n (by omega)]
    exact ql n hn
  · intro n hn
    rw [← a2] at hn
    rw [← cr n (by omega)]
    exact qr n hn

theorem run_any_mem {rate : Int} (hrate : 0 ≤ rate) (coeff : Fin 6 → Fin 5 → Int)
    (l_mem r_mem : Nat → Int) {b : List Int} {n : Int} {r : Rvb × List Int}
    (h : do_reverb (init_val rate coeff (fun _ => 0) (fun _ => 0)) b n = some r) :
    ∃ r', do_reverb (init_val rate coeff l_mem r_mem) b n = some r' ∧ r'.2 = r.2 ∧
      guard_eq r.1 r'.1 := by
  obtain ⟨g, d⟩ := init_val_guard_eq hrate coeff (fun _ => 0) (fun _ => 0) l_mem r_mem
  rcases guard_eq_loop n n.toNat 0 _ _ b g d with ⟨h1, -⟩ | ⟨a, c, h1, h2, e, g2, -⟩
  · rw [do_reverb, h1] at h
    exact absurd h (by simp)
  · rw [do_reverb, h1] at h
    have ea : a = r := Option.some.inj h
    subst ea
    exact ⟨c, h2, e.symm, g2⟩

theorem do_reverb_length {s : Rvb} {b : List Int} {n : Int} {r : Rvb × List Int}
    (h : do_reverb s b n = some r) : r.2.length = b.length := by
  rw [do_reverb_eq_pairs] at h
  exact pairs_length _ _ _ _ _ h

theorem run_prefix {s : Rvb} {n k : Nat} {r : Rvb × List Int}
    (h : do_reverb s (impulse_block (n + k)) ((impulse_block (n + k)).length : Nat) = some r) :
    ∃ r0, do_reverb s (impulse_block n) ((impulse_block n).length : Nat) = some r0 ∧
      r0.2 = r.2.take (2 * (n + 1)) := by
  rw [impulse_block_add, do_reverb_split s (impulse_block n) (List.replicate (2 * k) 0) (n + 1)
    (impulse_block_length n)] at h
  obtain ⟨r0, h1, h2⟩ := Option.bind_eq_some.mp h
  obtain ⟨q, -, h3⟩ := Option.map_eq_some'.mp h2
  refine ⟨r0, h1, ?_⟩
  have hl := do_reverb_length h1
  rw [impulse_block_length] at hl
  rw [← h3, ← hl, List.take_left]

theorem snap_20_start : room20 coeff_20 0 0 = unsnap coeff_20 snap_0 := by
  have h := unsnap_snap (room20 coeff_20 0 0)
  have hs : snap (room20 coeff_20 0 0) = snap_0 := by decide
  rw [hs] at h
  exact h.symm

set_option maxRecDepth 1000000 in
theorem decay_run_20 :
    (do_reverb (unsnap coeff_20 snap_0) (impulse_block 9)
      ((impulse_block 9).length : Nat)).map (fun r => (snap r.1, r.2))
      = some (snap_20, out_20) := by
  decide!

theorem take_pad (o : List Int) (n : Nat) (h : o.length = 20) :
    (9 ≤ n → (o ++ List.replicate (2 * n) 0).take (2 * (n + 1)) =
      o ++ List.replicate (2 * (n - 9)) 0) ∧
    (n < 9 → (o ++ List.replicate (2 * n) 0).take (2 * (n + 1)) = o.take (2 * (n + 1))) := by
  constructor
  · intro hn
    rw [List.take_append_eq_append_take, List.take_of_length_le (by omega), List.take_replicate, h]
    congr 2
    omega
  · intro hn
    rw [List.take_append_of_le_length (by omega)]

theorem out_20_bound : ∀ x ∈ out_20, |x| ≤ 10624 := by
  decide

theorem decay_20 (l_mem r_mem : Nat → Int) (n : Nat) :
    ∃ r, do_reverb (room20 coeff_20 (l_mem 2) (r_mem 3)) (impulse_block n)
        ((impulse_block n).length : Nat) = some r ∧
      r.2 = (out_20 ++ List.replicate (2 * n) 0).take (2 * (n + 1)) ∧
      (∀ x ∈ r.2, |x| ≤ 10624) ∧ (9 ≤ n → settled r.1) := by
  have i0 := init_reverb_20 coeff_20 (fun _ => 0) (fun _ => 0)
  have i1 := init_reverb_20 coeff_20 l_mem r_mem
  have e0 : init_val 20 coeff_20 (fun _ => 0) (fun _ => 0) = room20 coeff_20 0 0 := by
    rw [init_reverb_eq] at i0
    exact Option.some.inj i0
  have e1 : init_val 20 coeff_20 l_mem r_mem = room20 coeff_20 (l_mem 2) (r_mem 3) := by
    rw [init_reverb_eq] at i1
    exact Option.some.inj i1
  have h9 := snap_call decay_run_20
  rw [← snap_20_start, ← e0] at h9
  obtain ⟨r9, g1, g2, g3⟩ := run_any_mem (by decide) coeff_20 l_mem r_mem h9
  rw [e1] at g1
  have q9 : settled r9.1 := settled_guard_eq g3 (by decide)
  have o9 : r9.2 = out_20 := g2
  have hlen : out_20.length = 20 := rfl
  obtain ⟨t1, t2⟩ := take_pad out_20 n hlen
  have hb : ∀ x ∈ (out_20 ++ List.replicate (2 * n) 0).take (2 * (n + 1)), |x| ≤ 10624 := by
    intro x hx
    rcases List.mem_append.mp (List.mem_of_mem_take hx) with h | h
    · exact out_20_bound x h
    · rw [(List.mem_replicate.mp h).2]
      decide
  by_cases hn : 9 ≤ n
  · obtain ⟨r, h1, h2, -, -, h5⟩ := settled_stays (n - 9) (by decide) i1 g1 q9
    have en : 9 + (n - 9) = n := by omega
    rw [en] at h1
    have eo : r.2 = (out_20 ++ List.replicate (2 * n) 0).take (2 * (n + 1)) := by
      rw [h2, o9, t1 hn]
    refine ⟨r, h1, eo, ?_, fun _ => h5⟩
    rw [eo]
    exact hb
  · have en : n + (9 - n) = 9 := by omega
    rw [← en] at g1
    obtain ⟨r0, h1, h2⟩ := run_prefix g1
    have eo : r0.2 = (out_20 ++ List.replicate (2 * n) 0).take (2 * (n + 1)) := by
      rw [h2, o9, t2 (by omega)]
    refine ⟨r0, h1, eo, ?_, fun h => absurd h hn⟩
    rw [eo]
    exact hb

set_option maxRecDepth 100000 in
theorem scale_8 :
    (∀ k, scale_len 8 (coef_SPL k) = ![0, 0, 0, 1, 1, 1, 1, 0] k) ∧
    (∀ k, scale_len 8 (coef_SPR k) = ![0, 0, 0, 1, 1, 0, 1, 0] k) ∧
    (∀ k, scale_len 8 (coef_RFN k) = ![0, 0, 0, 1, 1, 1, 1, 0] k) := by
  decide!

theorem delays_8 :
    delay_len 8 geom.MAXL_DST = 1 ∧ delay_len 8 geom.MAXR_DST = 1 ∧
    (∀ k, delay_len 8 (geom.SPL_DST k) = ![0, 0, 0, 1, 1, 1, 1, 0] k) ∧
    (∀ k, delay_len 8 (geom.SPR_DST k) = ![0, 0, 0, 1, 1, 0, 1, 0] k) ∧
    (∀ k, delay_len 8 (geom.RFN_DST k) = ![0, 0, 0, 1, 1, 1, 1, 0] k) := by
  obtain ⟨g1, g2, g3, g4, g5⟩ := delay_len_geom 8
  obtain ⟨s1, s2, s3⟩ := scale_8
  refine ⟨by rw [g4, s3]; rfl, by rw [g5, s3]; rfl, ?_, ?_, ?_⟩
  · intro k
    rw [g1, s1]
  · intro k
    rw [g2, s2]
  · intro k
    rw [g3, s3]

theorem init_reverb_8 (coeff : Fin 6 → Fin 5 → Int) (l_mem r_mem : Nat → Int) :
    init_reverb 8 coeff l_mem r_mem = some (room8 coeff (l_mem 1) (r_mem 1)) := by
  rw [init_reverb_eq]
  obtain ⟨h1, h2, h3, h4, h5⟩ := delays_8
  have e1 : zeroed (1 : Int).toNat 0 ((List.range ((1 : Int) + 1).toNat).map l_mem)
      = [0, l_mem 1] := rfl
  have e2 : zeroed (1 : Int).toNat 0 ((List.range ((1 : Int) + 1).toNat).map r_mem)
      = [0, r_mem 1] := rfl
  have e3 : (fun j : Fin 4 => (![0, 0, 0, 1, 1, 1, 1, 0] : Fin 8 → Int) (lo4 j))
      = ![0, 0, 0, 1] := by
    funext j
    fin_cases j <;> rfl
  have e4 : (fun j : Fin 4 => (![0, 0, 0, 1, 1, 1, 1, 0] : Fin 8 → Int) (hi4 j))
      = ![1, 1, 1, 0] := by
    funext j
    fin_cases j <;> rfl
  unfold init_val room8
  simp only [h1, h2, h3, h4, h5, e1, e2, e3, e4]

theorem snap_8_start : room8 coeff_8 0 0 = unsnap coeff_8 snap_8 := by
  have h := unsnap_snap (room8 coeff_8 0 0)
  have hs : snap (room8 coeff_8 0 0) = snap_8 := by decide
  rw [hs] at h
  exact h.symm

set_option maxRecDepth 1000000 in
theorem cycle_head_8 :
    (do_reverb (unsnap coeff_8 snap_8) (impulse_block 5)
      ((impulse_block 5).length : Nat)).map (fun r => (snap r.1, r.2))
      = some (snap_8a, out_8 ++ [0, -1]) := by
  decide!

set_option maxRecDepth 1000000 in
theorem cycle_loop_8 :
    (do_reverb (unsnap coeff_8 snap_8a) [0, 0, 0, 0]
      (([0, 0, 0, 0] : List Int).length : Nat)).map (fun r => (snap r.1, r.2))
      = some (snap_8a, [-1, -1, 0, -1]) := by
  decide!

theorem cycle_8 (m : Nat) :
    ∃ o, do_reverb (room8 coeff_8 0 0) (impulse_block (5 + 2 * m))
        ((impulse_block (5 + 2 * m)).length : Nat) = some (unsnap coeff_8 snap_8a, o ++ [0, -1]) ∧
      o.length = 10 + 4 * m := by
  induction m with
  | zero =>
    have h := snap_call cycle_head_8
    rw [← snap_8_start] at h
    exact ⟨out_8, h, rfl⟩
  | succ m ih =>
    obtain ⟨o, h1, h2⟩ := ih
    have h3 := snap_call cycle_loop_8
    have hd : 2 ∣ (impulse_block (5 + 2 * m)).length := by
      rw [impulse_block_length]
      exact ⟨_, rfl⟩
    have h4 := call_append hd h1 h3
    have eb : impulse_block (5 + 2 * (m + 1)) = impulse_block (5 + 2 * m) ++ [0, 0, 0, 0] := by
      have : 5 + 2 * (m + 1) = (5 + 2 * m) + 2 := by ring
      rw [this, impulse_block_add]
      rfl
    rw [eb]
    refine ⟨o ++ [0, -1, -1, -1], ?_, ?_⟩
    · rw [h4]
      simp
    · simp [h2]
      ring

theorem cycle_8_facts (m : Nat) :
    ∃ r, do_reverb (room8 coeff_8 0 0) (impulse_block (5 + 2 * m))
        ((impulse_block (5 + 2 * m)).length : Nat) = some r ∧
      cell r.2 (2 * (5 + 2 * m) + 1) = -1 ∧ r.1.l_buf_flt_out 1 1 = -1 ∧
      (∀ n, n < r.1.l_buf_size.toNat → cell r.1.l_buf n = 0) ∧
      (∀ n, n < r.1.r_buf_size.toNat → cell r.1.r_buf n = 0) := by
  obtain ⟨o, h1, h2⟩ := cycle_8 m
  have f1 : (unsnap coeff_8 snap_8a).l_buf_flt_out 1 1 = -1 := by decide
  have f2 : ∀ n, n < (unsnap coeff_8 snap_8a).l_buf_size.toNat →
      cell (unsnap coeff_8 snap_8a).l_buf n = 0 := by decide
  have f3 : ∀ n, n < (unsnap coeff_8 snap_8a).r_buf_size.toNat →
      cell (unsnap coeff_8 snap_8a).r_buf n = 0 := by decide
  refine ⟨_, h1, ?_, f1, f2, f3⟩
  have e : 2 * (5 + 2 * m) + 1 = o.length + 1 := by omega
  simp only [cell]
  rw [e, List.getElem?_append_right (by omega)]
  simp
theorem cycle_8_mem (l_mem r_mem : Nat → Int) (m : Nat) :
    ∃ r, do_reverb (room8 coeff_8 (l_mem 1) (r_mem 1)) (impulse_block (5 + 2 * m))
        ((impulse_block (5 + 2 * m)).length : Nat) = some r ∧
      cell r.2 (2 * (5 + 2 * m) + 1) = -1 ∧ r.1.l_buf_flt_out 1 1 = -1 := by
  have i0 := init_reverb_8 coeff_8 (fun _ => 0) (fun _ => 0)
  have i1 := init_reverb_8 coeff_8 l_mem r_mem
  have e0 : init_val 8 coeff_8 (fun _ => 0) (fun _ => 0) = room8 coeff_8 0 0 := by
    rw [init_reverb_eq] at i0
    exact Option.some.inj i0
  have e1 : init_val 8 coeff_8 l_mem r_mem = room8 coeff_8 (l_mem 1) (r_mem 1) := by
    rw [init_reverb_eq] at i1
    exact Option.some.inj i1
  obtain ⟨r, h1, h2, h3, -, -⟩ := cycle_8_facts m
  rw [← e0] at h1
  obtain ⟨r', g1, g2, g3⟩ := run_any_mem (by decide) coeff_8 l_mem r_mem h1
  rw [e1] at g1
  refine ⟨r', g1, by rw [g2]; exact h2, ?_⟩
  rw [← g3.1.2.2.2.2.2.2.2.2.2.2.2.1]
  exact h3

theorem wet_bound (s : Rvb) (x : Int) :
    |wet_l s x| ≤ 54043195528445952 ∧ |wet_r s x| ≤ 54043195528445952 := by
  have hl : ∀ j, -9007199254740992 ≤ band_l s x j ∧ band_l s x j ≤ 9007199254740992 :=
    fun j => band_out_bound _ _ _ _
  have hr : ∀ j, -9007199254740992 ≤ band_r s x j ∧ band_r s x j ≤ 9007199254740992 :=
    fun j => band_out_bound _ _ _ _
  unfold wet_l wet_r
  rw [Fin.sum_univ_six, Fin.sum_univ_six, abs_le, abs_le]
  have l0 := hl 0
  have l1 := hl 1
  have l2 := hl 2
  have l3 := hl 3
  have l4 := hl 4
  have l5 := hl 5
  have r0 := hr 0
  have r1 := hr 1
  have r2 := hr 2
  have r3 := hr 3
  have r4 := hr 4
  have r5 := hr 5
  refine ⟨⟨?_, ?_⟩, ⟨?_, ?_⟩⟩ <;> omega

theorem output_bound {s : Rvb} {b : List Int} {size : Int} {r : Rvb × List Int}
    (h : do_reverb s b size = some r) (n : Nat) :
    |cell r.2 n - cell b n| ≤ 54043195528445952 := by
  obtain ⟨i', -, -, hP⟩ := loop_inv size
    (fun i _ b' => 0 ≤ i ∧ ∀ n : Nat, (i ≤ n → cell b' n = cell b n) ∧
      |cell b' n - cell b n| ≤ 54043195528445952)
    (by
      rintro i s' b' ⟨h0, hc⟩ _ hok
      refine ⟨by omega, fun m => ?_⟩
      obtain ⟨c1, c2⟩ := hc m
      obtain ⟨w1, w2⟩ := wet_bound s' (l_rfl_val s' b' i)
      obtain ⟨-, w3⟩ := wet_bound s' (r_rfl_val s' b' i)
      rw [pair_val_buffer_cell hok]
      unfold hit
      by_cases e1 : i.toNat = m
      · have e2 : ¬ (i + 1).toNat = m := by omega
        rw [if_pos e1, if_neg e2, c1 (by omega)]
        refine ⟨fun hm => by omega, ?_⟩
        simpa using w1
      · by_cases e2 : (i + 1).toNat = m
        · rw [if_neg e1, if_pos e2, c1 (by omega)]
          refine ⟨fun hm => by omega, ?_⟩
          simpa using w3
        · rw [if_neg e1, if_neg e2, add_zero, add_zero]
          exact ⟨fun hm => c1 (by omega), c2⟩)
    size.toNat 0 s b r ⟨le_rfl, fun m => ⟨fun _ => rfl, by simp⟩⟩ h
  exact (hP n).2

theorem impulse_block_cell (k n : Nat) : |cell (impulse_block k) n| ≤ 10000 := by
  unfold impulse_block
  rcases n with _ | _ | n
  · simp [cell]
  · simp [cell]
  · have : cell (10000 :: 0 :: List.replicate (2 * k) (0 : Int)) (n + 1 + 1)
        = cell (List.replicate (2 * k) 0) n := by
      simp [cell]
    rw [this, cell_replicate]
    decide

theorem impulse_bound {s : Rvb} {k : Nat} {r : Rvb × List Int}
    (h : do_reverb s (impulse_block k) ((impulse_block k).length : Nat) = some r) :
    ∀ x ∈ r.2, |x| ≤ 54043195528455952 := by
  intro x hx
  obtain ⟨n, hn, rfl⟩ := List.getElem_of_mem hx
  have e : r.2[n] = cell r.2 n := by
    simp [cell, hn]
  rw [e]
  have h1 := output_bound h n
  have h2 := impulse_block_cell k n
  rw [abs_le] at h1 h2 ⊢
  constructor <;> omega

theorem impulse_returns {rate : Int} (coeff : Fin 6 → Fin 5 → Int) (l_mem r_mem : Nat → Int)
    (k : Nat) (hrate : 0 < rate) (hl : 1 ≤ delay_len rate geom.MAXL_DST)
    (hr : 1 ≤ delay_len rate geom.MAXR_DST) :
    ∃ r, do_reverb (init_val rate coeff l_mem r_mem) (impulse_block k)
        ((impulse_block k).length : Nat) = some r ∧
      ∀ x ∈ r.2, |x| ≤ 54043195528455952 := by
  have hw := init_val_within (le_of_lt hrate) coeff l_mem r_mem
  obtain ⟨hg, -, -, -⟩ := init_val_guarded rate coeff l_mem r_mem
  have hs := within_safe hw hg hl hr
  obtain ⟨r, h, -, -⟩ := @do_reverb_total _ (impulse_block k) ((impulse_block k).length : Nat)
    hs (by rw [impulse_block_length]; exact ⟨(k : Int) + 1, by push_cast; ring⟩) le_rfl
  exact ⟨r, h, impulse_bound h⟩

end Reverb
